import Mathlib

/-!
# subsonicfs: the streaming session table and the lazily populated directories

A shallow embedding of `main.go` (package `main` of gall0ws/subsonicfs) and of
the answer parsers of `subsonic/api.go`.

* Pointers are modelled by their identity: a session handle `*srv.Fid` and an
  upstream stream `io.ReadCloser` are natural numbers.
* The collaborators the program calls (`client.Stream`, `client.GetArtist`,
  `client.GetAlbum` and the `Read` method of an upstream stream) are fields of
  an environment `Env`. Each of them receives the history of calls made so far,
  so that an answer may depend on everything that happened before (a stream
  answers differently on its second read).
* Every call to a collaborator is appended to a log, oldest call first. The
  log is what the statements about "how many streams were opened" or "was this
  stream closed twice" are about.
* `streams.Lock()` / `defer streams.Unlock()` make `SongFile.Read` and
  `SongFile.Clunk` atomic with respect to each other, so each of them is one
  step of a sequential state machine over `State`.
* A run-time panic of `buildFs` is a result of its own (`BuildResult.panic`).
* The parsers of `api.go` work on the variable `buf` that `json.Unmarshal` has
  filled; `json.Unmarshal`, `html.UnescapeString`, the type `float64` and its
  conversions are parameters (`GoLib`).
-/

namespace Subsonicfs

/-! ## Data model -/

/-- Session handle: the identity of a `*srv.Fid`, the key of `streams.m`. -/
abbrev Fid := Nat

/-- Upstream byte stream: the identity of an `io.ReadCloser`. -/
abbrev ReadCloser := Nat

/-- Go `error` values. `io.EOF` is the one value the program compares with;
`req` is a `ReqError` of `api.go` (lines 46-49), the error a server reports. -/
inductive GoError where
  | EOF
  | other (msg : String)
  | req (Code : Int) (Message : String)
  deriving DecidableEq, Repr

/-- Result of `client.Stream` (`api.go`, lines 394-401): either `(nil, err)`
or `(resp.Body, nil)`. -/
inductive StreamResult where
  | err (e : GoError)
  | ok (r : ReadCloser)
  deriving DecidableEq, Repr

/-- Record `Resource` of `api.go`; `Album` is declared as `type Album Resource`. -/
structure Album where
  Id : Int
  Name : String
  deriving DecidableEq, Repr

/-- Record `Artist` of `api.go`, declared as `type Artist Resource`. -/
structure Artist where
  Id : Int
  Name : String
  deriving DecidableEq, Repr

/-- Record `Song` of `api.go`: a `Resource` with track number and suffix. -/
structure Song where
  Id : Int
  Name : String
  Number : Int
  Suffix : String
  deriving DecidableEq, Repr

/-- One call made to a collaborator. `Stream` carries the stream that the call
returned (`none` when it failed), `Read` the stream read and `len(buf)`. -/
inductive Event where
  | Stream (song : Int) (maxbitrate : Int) (r : Option ReadCloser)
  | Read (src : ReadCloser) (len : Nat)
  | Close (src : ReadCloser)
  | GetArtist (id : Int)
  | GetAlbum (id : Int)
  | GetArtists
  deriving DecidableEq, Repr

/-- The collaborators of `main.go`. The first argument of each is the log of
the calls made before this one. `maxbps` is the flag `-b`. `unicodeToLower` is
the case table of the Go runtime for the runes outside ASCII. -/
structure Env where
  maxbps : Int
  Stream : List Event → Int → Int → StreamResult
  Read : List Event → ReadCloser → Nat → Int × Option GoError
  GetArtist : List Event → Int → List Album × Option GoError
  GetAlbum : List Event → Int → List Song × Option GoError
  unicodeToLower : Char → Char
  GetArtists : List Event → List Artist × Option GoError

/-! ## Names -/

/-- Modelled from the spec: `strings.ToLower` of the Go library, the case
folding of section 1. It maps every rune through `unicode.ToLower`; on ASCII
that turns `A`-`Z` into `a`-`z`, the other runes go through the runtime table
`env.unicodeToLower`. -/
def ToLower (env : Env) (s : String) : String :=
  String.mk (s.data.map (fun c => if c.toNat < 128 then c.toLower else env.unicodeToLower c))

/-- The pairs given to `strings.NewReplacer` for `srepl` (`main.go`, lines
61-70), in the order of the source. Every old string is one character. -/
def sreplPairs : List (Char × String) :=
  [ (Char.ofNat 34, "_"),
    (' ', "␣"),
    ('/', "_"),
    (Char.ofNat 39, "_"),
    ('(', "_"),
    (')', "_"),
    ('#', "_"),
    ('&', "and") ]

/-- What the replacer writes for one character: the new string of the first
pair whose old string is this character, else the character itself. -/
def sreplChar (pairs : List (Char × String)) (c : Char) : List Char :=
  match pairs with
  | [] => [c]
  | (old, new) :: rest => if c = old then new.data else sreplChar rest c

/-- Method `srepl.Replace`: one pass over the input, replaced text is not
scanned again. -/
def srepl.Replace (s : String) : String :=
  String.mk (s.data.flatMap (sreplChar sreplPairs))

/-- Function `tr` of `main.go`, lines 73-75. -/
def tr (env : Env) (s : String) : String :=
  srepl.Replace (ToLower env s)

/-- Verb `%02d` of `fmt.Sprintf` on an `int`: decimal, padded with zeros to
width two (a negative number already has width two with its sign). -/
def fmt02d (n : Int) : String :=
  if 0 ≤ n ∧ n < 10 then "0" ++ toString n else toString n

/-- Expression `fmt.Sprintf("%02d_%s.%s", s.Number, s.Name, s.Suffix)` of
`main.go`, line 155. -/
def songFileName (s : Song) : String :=
  fmt02d s.Number ++ "_" ++ s.Name ++ "." ++ s.Suffix

/-! ## The node tree -/

/-- Error `Eexist` of go9p, returned by `srv.File.Add` on a name collision. -/
def Eexist : GoError := GoError.other "file already exists"

/-- Modelled from the spec: `srv.File.Add` of go9p, the `attach` of section
4.1. `children` is the child list of the parent directory, oldest first, and
`f` the node to attach, already carrying its name. When a child of that name
exists the call fails and the directory is left as it is; else `f` becomes the
last child. Owner and permission bits are not modelled. -/
def File.Add {α : Type} (nameOf : α → String) (children : List α) (f : α) :
    Except GoError (List α) :=
  if children.any (fun c => nameOf c == nameOf f) then Except.error Eexist
  else Except.ok (children ++ [f])

/-- Node `SongFile` (`main.go`, lines 165-168): the node name given to
`srv.File.Add` and the external song id. -/
structure SongFile where
  Name : String
  id : Int
  deriving DecidableEq, Repr

/-- Node `AlbumDir` (`main.go`, lines 141-145): the embedded `srv.File` (name
and children), the embedded `sync.Once` (`done`: the latch has fired) and the
external album id. -/
structure AlbumDir where
  Name : String
  id : Int
  done : Bool
  children : List SongFile
  deriving DecidableEq, Repr

/-- Node `ArtistDir` (`main.go`, lines 115-119). -/
structure ArtistDir where
  Name : String
  id : Int
  done : Bool
  children : List AlbumDir
  deriving DecidableEq, Repr

/-- What a `Stat` call leaves behind: the returned `error`, the directory and
the log. -/
structure StatResult (α : Type) where
  e : Option GoError
  d : α
  log : List Event

/-- Loop of `ArtistDir.Stat` (`main.go`, lines 128-135): attach one directory
per album; an album that cannot be attached is logged and skipped. -/
def ArtistDir.addAlbums (env : Env) (children : List AlbumDir) (albums : List Album) :
    List AlbumDir :=
  albums.foldl
    (fun ch album =>
      let name := tr env album.Name
      let subdir : AlbumDir := { Name := name, id := album.Id, done := false, children := [] }
      match File.Add AlbumDir.Name ch subdir with
      | Except.error _ => ch
      | Except.ok ch1 => ch1)
    children

/-- Closure `f` of `ArtistDir.Stat` (`main.go`, lines 122-136), started with
`e = nil`. -/
def ArtistDir.populate (env : Env) (d : ArtistDir) (log : List Event) : StatResult ArtistDir :=
  let res := env.GetArtist log d.id
  { e := res.2,
    d := { d with children := ArtistDir.addAlbums env d.children res.1 },
    log := log ++ [Event.GetArtist d.id] }

/-- Method `(d *ArtistDir) Stat(fid)` of `main.go`, lines 121-139. `d.Do(f)`
runs `f` when the latch has not fired and fires it; the named result `e` is
`nil` unless `f` assigned it. -/
def ArtistDir.Stat (env : Env) (_fid : Fid) (d : ArtistDir) (log : List Event) :
    StatResult ArtistDir :=
  if d.done then { e := none, d := d, log := log }
  else
    let r := ArtistDir.populate env d log
    { e := r.e, d := { r.d with done := true }, log := r.log }

/-- Loop of `AlbumDir.Stat` (`main.go`, lines 153-159) over the pair of the
child list and the named result `e`: attach one file per song; a failed attach
assigns its error to `e`. -/
def AlbumDir.addSongs (env : Env) (children : List SongFile) (e : Option GoError)
    (songs : List Song) : List SongFile × Option GoError :=
  songs.foldl
    (fun acc s =>
      let f : SongFile := { Name := tr env (songFileName s), id := s.Id }
      match File.Add SongFile.Name acc.1 f with
      | Except.error err => (acc.1, some err)
      | Except.ok ch1 => (ch1, acc.2))
    (children, e)

/-- Closure `f` of `AlbumDir.Stat` (`main.go`, lines 148-160), started with
`e = nil`. -/
def AlbumDir.populate (env : Env) (d : AlbumDir) (log : List Event) : StatResult AlbumDir :=
  let res := env.GetAlbum log d.id
  let r := AlbumDir.addSongs env d.children res.2 res.1
  { e := r.2,
    d := { d with children := r.1 },
    log := log ++ [Event.GetAlbum d.id] }

/-- Method `(d *AlbumDir) Stat(fid)` of `main.go`, lines 147-163. -/
def AlbumDir.Stat (env : Env) (_fid : Fid) (d : AlbumDir) (log : List Event) :
    StatResult AlbumDir :=
  if d.done then { e := none, d := d, log := log }
  else
    let r := AlbumDir.populate env d log
    { e := r.e, d := { r.d with done := true }, log := r.log }

/-- A sequence of `Stat` calls on one `ArtistDir`, one per session handle of
`fids`, served one after the other: the directory and the log afterwards. -/
def ArtistDir.Stats (env : Env) (fids : List Fid) (d : ArtistDir) (log : List Event) :
    ArtistDir × List Event :=
  fids.foldl (fun s fid => ((ArtistDir.Stat env fid s.1 s.2).d, (ArtistDir.Stat env fid s.1 s.2).log))
    (d, log)

/-- A sequence of `Stat` calls on one `AlbumDir`. -/
def AlbumDir.Stats (env : Env) (fids : List Fid) (d : AlbumDir) (log : List Event) :
    AlbumDir × List Event :=
  fids.foldl (fun s fid => ((AlbumDir.Stat env fid s.1 s.2).d, (AlbumDir.Stat env fid s.1 s.2).log))
    (d, log)

/-- The catalog listing calls of a log (`GetArtist`, `GetAlbum`). -/
def Event.isListing : Event → Bool
  | Event.GetArtist _ => true
  | Event.GetAlbum _ => true
  | Event.GetArtists => true
  | _ => false

/-! ## The stream table `streams.m` -/

/-- The Go map `streams.m` (`map[*srv.Fid]io.ReadCloser`) as an association
list; only `get`, `set` and `delete` below look inside. -/
abbrev Table := List (Fid × ReadCloser)

/-- Map lookup `src, ok := m[fid]`. -/
def Table.get (m : Table) (fid : Fid) : Option ReadCloser :=
  match m with
  | [] => none
  | (k, v) :: rest => if k = fid then some v else Table.get rest fid

/-- Builtin `delete(m, fid)`. -/
def Table.delete (m : Table) (fid : Fid) : Table :=
  m.filter (fun kv => decide (kv.1 ≠ fid))

/-- Map assignment `m[fid] = r`: the former entry of `fid`, if any, is replaced. -/
def Table.set (m : Table) (fid : Fid) (r : ReadCloser) : Table :=
  (fid, r) :: Table.delete m fid

/-- The mutable state `SongFile.Read` and `SongFile.Clunk` work on: the global
`streams.m` and the log of the calls made so far. -/
structure State where
  m : Table
  log : List Event
  deriving DecidableEq, Repr

/-- State at start-up: `make(map[*srv.Fid]io.ReadCloser)`, nothing called yet. -/
def State.init : State := { m := [], log := [] }

/-! ## `SongFile.Read` and `SongFile.Clunk` -/

/-- Lines 185-194 of `main.go`, the part of `SongFile.Read` after `src` is
known: read from `src`; on any error close `src` and delete the entry of `fid`;
`io.EOF` is turned into `(0, nil)`, another error is returned with the count. -/
def SongFile.readFrom (env : Env) (fid : Fid) (buf : Nat) (src : ReadCloser) (st : State) :
    (Int × Option GoError) × State :=
  let res := env.Read st.log src buf
  let st1 : State := { m := st.m, log := st.log ++ [Event.Read src buf] }
  match res.2 with
  | some e =>
    let st2 : State := { m := Table.delete st1.m fid, log := st1.log ++ [Event.Close src] }
    if e = GoError.EOF then ((0, none), st2) else ((res.1, some e), st2)
  | none => ((res.1, none), st1)

/-- Method `(f *SongFile) Read(fid, buf, offset)` of `main.go`, lines 170-195.
`buf` is `len(buf)`. -/
def SongFile.Read (env : Env) (f : SongFile) (fid : Fid) (buf : Nat) (offset : Nat)
    (st : State) : (Int × Option GoError) × State :=
  match Table.get st.m fid with
  | some src => SongFile.readFrom env fid buf src st
  | none =>
    if offset > 0 then ((0, none), st)
    else
      match env.Stream st.log f.id env.maxbps with
      | StreamResult.err e =>
        ((0, some e), { m := st.m, log := st.log ++ [Event.Stream f.id env.maxbps none] })
      | StreamResult.ok r =>
        SongFile.readFrom env fid buf r
          { m := Table.set st.m fid r,
            log := st.log ++ [Event.Stream f.id env.maxbps (some r)] }

/-- Method `(f *SongFile) Clunk(fid)` of `main.go`, lines 197-205. -/
def SongFile.Clunk (_f : SongFile) (fid : Fid) (st : State) : Option GoError × State :=
  match Table.get st.m fid with
  | some src => (none, { m := Table.delete st.m fid, log := st.log ++ [Event.Close src] })
  | none => (none, st)

/-- One request of the file server on a song file. -/
inductive Call where
  | Read (f : SongFile) (fid : Fid) (buf : Nat) (offset : Nat)
  | Clunk (f : SongFile) (fid : Fid)
  deriving DecidableEq, Repr

/-- State after one request. -/
def step (env : Env) (st : State) (c : Call) : State :=
  match c with
  | Call.Read f fid buf offset => (SongFile.Read env f fid buf offset st).2
  | Call.Clunk f fid => (SongFile.Clunk f fid st).2

/-- State after a sequence of requests, served one after the other. -/
def run (env : Env) (calls : List Call) (st : State) : State :=
  calls.foldl (step env) st

/-- States the program can be in: reached from start-up by serving requests. -/
def Reachable (env : Env) (st : State) : Prop :=
  ∃ calls : List Call, run env calls State.init = st

/-- The streaming calls of a log that opened a stream (`client.Stream`). -/
def Event.isStream : Event → Bool
  | Event.Stream _ _ _ => true
  | _ => false

/-- Stream `s` was returned by a `client.Stream` call of the log. -/
def opened (log : List Event) (s : ReadCloser) : Prop :=
  ∃ song bps, Event.Stream song bps (some s) ∈ log

/-- Assumption on the collaborator: `client.Stream` never returns a stream it
has returned before (`resp.Body` is a new object on every request). -/
def FreshStreams (env : Env) : Prop :=
  ∀ log song bps r, env.Stream log song bps = StreamResult.ok r → ¬ opened log r

/-- The calls a request appended to the log: what `after` has beyond `before`. -/
def newEvents (before after : State) : List Event :=
  after.log.drop before.log.length

/-- What a `client.Stream` call leaves in the log: the stream, if one came back. -/
def StreamResult.toOption : StreamResult → Option ReadCloser
  | StreamResult.err _ => none
  | StreamResult.ok r => some r

/-- Session handle a request is about. -/
def Call.fid : Call → Fid
  | Call.Read _ fid _ _ => fid
  | Call.Clunk _ fid => fid

/-! ## `buildFs` -/

/-- A child of the root directory, a `srv.File` with its name and its
children. The control file `ctl` is the child with `isCtl`; the other children
are the index directories, whose children are artist directories. -/
structure RootEntry where
  Name : String
  isCtl : Bool
  children : List ArtistDir
  deriving DecidableEq, Repr

/-- Lines 93-97 of `main.go`: `r := []rune(name)[0]`, `letter := string(r)`,
replaced by `"@"` when `r` is not in `a`-`z`. `none` is the run-time panic
(index out of range) of `[]rune(name)[0]` on an empty name. -/
def indexLetter (name : String) : Option String :=
  match name.data with
  | [] => none
  | r :: _ => if r < 'a' ∨ r > 'z' then some "@" else some (String.singleton r)

/-- Modelled from the spec: `srv.File.Find` of go9p, the `lookup` of section
4.1: the first child of that name, if any. -/
def File.Find {α : Type} (nameOf : α → String) (children : List α) (name : String) :
    Option α :=
  children.find? (fun c => nameOf c == name)

/-- Call `dir.Add(index, name, ...)` of `main.go`, line 107, where `index`
points to the child of the root named `letter`: that child gets `dir` as its
last child unless it has a child of that name (logged, `continue`). -/
def attachArtist (letter : String) (dir : ArtistDir) : List RootEntry → List RootEntry
  | [] => []
  | e :: rest =>
    if e.Name = letter then
      (match File.Add ArtistDir.Name e.children dir with
        | Except.error _ => e
        | Except.ok ch => { e with children := ch }) :: rest
    else e :: attachArtist letter dir rest

/-- Body of the loop of `buildFs` (`main.go`, lines 92-110) for one artist:
the children of the root afterwards, `none` when the body panics. -/
def buildFs.addArtist (env : Env) (root : List RootEntry) (artist : Artist) :
    Option (List RootEntry) :=
  let name := tr env artist.Name
  match indexLetter name with
  | none => none
  | some letter =>
    let dir : ArtistDir := { Name := name, id := artist.Id, done := false, children := [] }
    match File.Find RootEntry.Name root letter with
    | some _ => some (attachArtist letter dir root)
    | none =>
      match File.Add RootEntry.Name root { Name := letter, isCtl := false, children := [] } with
      | Except.error _ => some root
      | Except.ok root1 => some (attachArtist letter dir root1)

/-- Loop of `buildFs` (`main.go`, lines 91-111) over the artists, in order. -/
def buildFs.loop (env : Env) : List RootEntry → List Artist → Option (List RootEntry)
  | root, [] => some root
  | root, artist :: rest =>
    match buildFs.addArtist env root artist with
    | none => none
    | some root1 => buildFs.loop env root1 rest

/-- How `buildFs` ends: with the tree (the children of the root), with an
error, or in a run-time panic. -/
inductive BuildResult where
  | ok (root : List RootEntry)
  | err (e : GoError)
  | panic
  deriving DecidableEq, Repr

/-- Function `buildFs` of `main.go`, lines 77-113. `root.Add(nil, "/", ...)`
has no parent directory and cannot fail; `ctl` is attached to the root, which
has no child yet; then the artists are listed and attached. -/
def buildFs (env : Env) (log : List Event) : BuildResult × List Event :=
  match File.Add RootEntry.Name [] { Name := "ctl", isCtl := true, children := [] } with
  | Except.error e => (BuildResult.err e, log)
  | Except.ok root =>
    let res := env.GetArtists log
    match res.2 with
    | some e => (BuildResult.err e, log ++ [Event.GetArtists])
    | none =>
      match buildFs.loop env root res.1 with
      | none => (BuildResult.panic, log ++ [Event.GetArtists])
      | some root1 => (BuildResult.ok root1, log ++ [Event.GetArtists])

/-- The children of the first child of the root named `key` (none when there
is no such child). -/
def childrenAt (root : List RootEntry) (key : String) : List ArtistDir :=
  match File.Find RootEntry.Name root key with
  | some e => e.children
  | none => []

/-- The artist directory `buildFs` makes for a record (line 106). -/
def Artist.dir (env : Env) (a : Artist) : ArtistDir :=
  { Name := tr env a.Name, id := a.Id, done := false, children := [] }

/-- The album directory `ArtistDir.Stat` makes for a record (line 130). -/
def Album.dir (env : Env) (a : Album) : AlbumDir :=
  { Name := tr env a.Name, id := a.Id, done := false, children := [] }

/-- The song file `AlbumDir.Stat` makes for a record (lines 154-155). -/
def Song.file (env : Env) (s : Song) : SongFile :=
  { Name := tr env (songFileName s), id := s.Id }

/-- What the population loops do with one node: attach it with `File.Add`,
or leave the directory as it is when `File.Add` fails (logged, `continue`). -/
def attachOrSkip {α : Type} (nameOf : α → String) (children : List α) (f : α) : List α :=
  match File.Add nameOf children f with
  | Except.error _ => children
  | Except.ok ch1 => ch1

/-- The nodes of a list that keep their place when every node whose name is
in `seen`, or is the name of an earlier node of the list, is dropped. -/
def keepFirst {α : Type} (nameOf : α → String) : List String → List α → List α
  | _, [] => []
  | seen, x :: xs =>
    if nameOf x ∈ seen then keepFirst nameOf seen xs
    else x :: keepFirst nameOf (seen ++ [nameOf x]) xs

/-- The control file as `buildFs` attaches it to the root. -/
def ctlEntry : RootEntry := { Name := "ctl", isCtl := true, children := [] }

/-- An index bucket key: the catch-all `"@"` or one letter of `a`-`z`. -/
def IsBucketKey (key : String) : Prop :=
  key = "@" ∨ ∃ c : Char, 'a' ≤ c ∧ c ≤ 'z' ∧ key = String.singleton c

/-- What holds of the children of the root while `buildFs` attaches the
artists of `artists`: their names are pairwise distinct, and each of them is
the control file or an index directory, whose name is a bucket key and whose
children are directories of artists of the list with that index letter. -/
structure RootInv (env : Env) (artists : List Artist) (root : List RootEntry) : Prop where
  names : (root.map RootEntry.Name).Nodup
  entries : ∀ e ∈ root, e = ctlEntry ∨
    (e.isCtl = false ∧ IsBucketKey e.Name ∧
      ∀ d ∈ e.children, ∃ a ∈ artists, d = Artist.dir env a ∧ indexLetter d.Name = some e.Name)

/-- The characters `srepl` replaces: the old strings of its pairs. -/
def sreplOld : List Char := sreplPairs.map (fun p => p.1)

/-- The characters `srepl` writes in place of the replaced ones. -/
def sreplNew : List Char := ['_', '␣', 'a', 'n', 'd']

/-- An ASCII upper-case letter, `A`-`Z`. -/
def isUpperAscii (c : Char) : Prop := 65 ≤ c.toNat ∧ c.toNat ≤ 90

/-- Assumption on the case table of the Go runtime: the lower-case form of a
rune outside ASCII is not an ASCII upper-case letter. -/
def LowerTable (env : Env) : Prop :=
  ∀ c : Char, 128 ≤ c.toNat → ¬ isUpperAscii (env.unicodeToLower c)

/-! ## The control file -/

/-- What a `Ctl.Write` call does, in order: it sets its results, and it may
end the process with `os.Exit`. -/
inductive CtlStep where
  | result (n : Int) (err : Option GoError)
  | exit (code : Int)
  deriving DecidableEq, Repr

/-- The bytes of the string `"close"`. -/
def closeCmd : List UInt8 := [99, 108, 111, 115, 101]

/-- Method `(*Ctl) Read` of `main.go`, lines 211-213. -/
def Ctl.Read (_fid : Fid) (_buf : Nat) (_offset : Nat) : Int × Option GoError :=
  (0, none)

/-- Method `(*Ctl) Write` of `main.go`, lines 215-221. `string(data)` equals
`"close"` when `data` holds the bytes of that string. The `defer` statement
registers `os.Exit(0)`; a deferred call runs when the `return` statement has
set the results `(len(data), nil)`. -/
def Ctl.Write (_fid : Fid) (data : List UInt8) (_offset : Nat) : List CtlStep :=
  let deferred : List CtlStep := if data = closeCmd then [CtlStep.exit 0] else []
  [CtlStep.result data.length none] ++ deferred

/-- What the caller of a call that took these steps is handed: the results
that were set, or nothing when `os.Exit` ended the process. `os.Exit` does not
return, so a call in which it runs never returns to its caller. `r` is what
has been set so far. -/
def CtlStep.handed : List CtlStep → Option (Int × Option GoError) →
    Option (Int × Option GoError)
  | [], r => r
  | CtlStep.result n err :: rest, _ => CtlStep.handed rest (some (n, err))
  | CtlStep.exit _ :: _, _ => none

/-! ## Walking the tree -/

/-- The paths of the song files below an album directory after a client has
inspected it (`Stat`), and the log afterwards. -/
def AlbumDir.paths (env : Env) (fid : Fid) (base : String) (d : AlbumDir) (log : List Event) :
    List String × List Event :=
  ((AlbumDir.Stat env fid d log).d.children.map (fun f => base ++ "/" ++ f.Name),
    (AlbumDir.Stat env fid d log).log)

/-- The paths of the song files below an artist directory after a client has
inspected it and then each of its album directories, in order. -/
def ArtistDir.paths (env : Env) (fid : Fid) (base : String) (d : ArtistDir) (log : List Event) :
    List String × List Event :=
  (ArtistDir.Stat env fid d log).d.children.foldl
    (fun acc a =>
      (acc.1 ++ (AlbumDir.paths env fid (base ++ "/" ++ a.Name) a acc.2).1,
        (AlbumDir.paths env fid (base ++ "/" ++ a.Name) a acc.2).2))
    ([], (ArtistDir.Stat env fid d log).log)

/-- The paths of all song files of the tree, relative to the root, after a
client has inspected every directory, in order. -/
def treePaths (env : Env) (fid : Fid) (root : List RootEntry) (log : List Event) :
    List String × List Event :=
  root.foldl
    (fun acc e =>
      e.children.foldl
        (fun acc1 d =>
          (acc1.1 ++ (ArtistDir.paths env fid (e.Name ++ "/" ++ d.Name) d acc1.2).1,
            (ArtistDir.paths env fid (e.Name ++ "/" ++ d.Name) d acc1.2).2))
        acc)
    ([], log)

/-! ## `api.go`: decoding the answers of the server -/

/-- Method `(e ReqError) Error()` of `api.go`, lines 51-53, and the texts of
the other errors. -/
def GoError.Error : GoError → String
  | GoError.EOF => "EOF"
  | GoError.other msg => msg
  | GoError.req _ msg => msg

/-- Record `ReqError` of `api.go`, lines 46-49. -/
structure ReqError where
  Code : Int
  Message : String
  deriving DecidableEq, Repr

/-- A value as `encoding/json` stores it in an `interface{}`: `nil`, `bool`,
`float64` (the type `ν`), `string`, `[]interface{}` or
`map[string]interface{}`. A map is the list of its entries. -/
inductive JSON (ν : Type) where
  | null
  | bool (b : Bool)
  | num (x : ν)
  | str (s : String)
  | arr (a : List (JSON ν))
  | obj (m : List (String × JSON ν))

/-- Map index `v, ok := m[key]`. -/
def JSON.field {ν : Type} (m : List (String × JSON ν)) (key : String) : Option (JSON ν) :=
  match m with
  | [] => none
  | (k, v) :: rest => if k = key then some v else JSON.field rest key

/-- Verb `%T` of `fmt`: the name of the dynamic type. -/
def JSON.typeName {ν : Type} : JSON ν → String
  | JSON.null => "<nil>"
  | JSON.bool _ => "bool"
  | JSON.num _ => "float64"
  | JSON.str _ => "string"
  | JSON.arr _ => "[]interface \x7b\x7d"
  | JSON.obj _ => "map[string]interface \x7b\x7d"

/-- Variable `buf` of `parsePingResp` after `json.Unmarshal`. -/
structure PingBuf where
  Error : Option ReqError
  deriving DecidableEq, Repr

/-- Variable `buf` of `parseGetArtistsResp`: `R.Error` and `R.Artists.Index`. -/
structure ArtistsBuf (ν : Type) where
  Error : Option ReqError
  Index : JSON ν

/-- Variable `buf` of `parseGetArtistResp`: `R.Error` and `R.Artist.Album`. -/
structure ArtistBuf (ν : Type) where
  Error : Option ReqError
  Album : JSON ν

/-- Variable `buf` of `parseGetAlbumResp`: `R.Error` and `R.Album.Song`. -/
structure AlbumBuf (ν : Type) where
  Error : Option ReqError
  Song : JSON ν

/-- The library functions `api.go` calls, for a type `ν` of `float64` values:
the conversion `int(vv)`, `fmt.Sprintf("%v", vv)`, `html.UnescapeString`, and
`json.Unmarshal(data, &buf)` for each of the four types of `buf`, which gives
the filled `buf` or an error. -/
structure GoLib (ν : Type) where
  int : ν → Int
  sprintV : ν → String
  UnescapeString : String → String
  UnmarshalPing : List UInt8 → Except GoError PingBuf
  UnmarshalArtists : List UInt8 → Except GoError (ArtistsBuf ν)
  UnmarshalArtist : List UInt8 → Except GoError (ArtistBuf ν)
  UnmarshalAlbum : List UInt8 → Except GoError (AlbumBuf ν)

/-- Function `parsePingResp` of `api.go`, lines 55-68: the returned `error`. -/
def parsePingResp {ν : Type} (lib : GoLib ν) (data : List UInt8) : Option GoError :=
  match lib.UnmarshalPing data with
  | Except.error err => some err
  | Except.ok buf =>
    match buf.Error with
    | some e => some (GoError.req e.Code e.Message)
    | none => none

/-- Function `parseArtistMap` of `api.go`, lines 86-112. -/
def parseArtistMap {ν : Type} (lib : GoLib ν) (m : List (String × JSON ν)) :
    Except GoError Artist :=
  match JSON.field m "id" with
  | none => Except.error (GoError.other "field 'id' not found while decoding artist")
  | some (JSON.num vv) =>
    match JSON.field m "name" with
    | none => Except.error (GoError.other "field 'name' not found while decoding artist")
    | some (JSON.str s) => Except.ok { Id := lib.int vv, Name := lib.UnescapeString s }
    | some (JSON.num x) => Except.ok { Id := lib.int vv, Name := lib.sprintV x }
    | some v => Except.error (GoError.other ("unexpected type (" ++ v.typeName
        ++ ") while decoding artist: expecting string or float64"))
  | some v => Except.error (GoError.other ("unexpected type (" ++ v.typeName
      ++ ") while decoding artist: expecting float64"))

/-- Loop of `parseIndexMap` over an artist array (`api.go`, lines 129-142);
`retv` is the slice built so far. -/
def parseArtistArray {ν : Type} (lib : GoLib ν) :
    List (JSON ν) → List Artist → Except GoError (List Artist)
  | [], retv => Except.ok retv
  | JSON.obj vv :: rest, retv =>
    match parseArtistMap lib vv with
    | Except.error err => Except.error err
    | Except.ok tmp => parseArtistArray lib rest (retv ++ [tmp])
  | v :: _, _ => Except.error (GoError.other ("unexpected type (" ++ v.typeName
      ++ ") while decoding artist array: expecting map[string]interface\x7b\x7d"))

/-- Function `parseIndexMap` of `api.go`, lines 114-147. -/
def parseIndexMap {ν : Type} (lib : GoLib ν) (m : List (String × JSON ν)) :
    Except GoError (List Artist) :=
  match JSON.field m "artist" with
  | none => Except.error (GoError.other "field 'artist' not found while decoding index entry")
  | some (JSON.obj aa) =>
    match parseArtistMap lib aa with
    | Except.error err => Except.error err
    | Except.ok tmp => Except.ok ([] ++ [tmp])
  | some (JSON.arr aa) => parseArtistArray lib aa []
  | some a => Except.error (GoError.other ("unexpected type (" ++ a.typeName
      ++ ") while decoding index entry: expecting map[string]interface\x7b\x7d or []interface\x7b\x7d"))

/-- Loop of `parseGetArtistsResp` over an index array (`api.go`, lines
169-182); `retv` is the slice built so far. -/
def parseIndexArray {ν : Type} (lib : GoLib ν) :
    List (JSON ν) → List Artist → Except GoError (List Artist)
  | [], retv => Except.ok retv
  | JSON.obj vv :: rest, retv =>
    match parseIndexMap lib vv with
    | Except.error err => Except.error err
    | Except.ok tmp => parseIndexArray lib rest (retv ++ tmp)
  | v :: _, _ => Except.error (GoError.other ("unexpected type (" ++ v.typeName
      ++ ") while decoding index array: expecting map[string]interface\x7b\x7d"))

/-- Function `parseGetArtistsResp` of `api.go`, lines 149-188. -/
def parseGetArtistsResp {ν : Type} (lib : GoLib ν) (data : List UInt8) :
    Except GoError (List Artist) :=
  match lib.UnmarshalArtists data with
  | Except.error err => Except.error err
  | Except.ok buf =>
    match buf.Error with
    | some e => Except.error (GoError.req e.Code e.Message)
    | none =>
      match buf.Index with
      | JSON.obj index => parseIndexMap lib index
      | JSON.arr index => parseIndexArray lib index []
      | index => Except.error (GoError.other ("unexpected type (" ++ index.typeName
          ++ ") while decoding index: expecting []interface\x7b\x7d or map[string]interface\x7b\x7d"))

/-- Function `parseAlbumMap` of `api.go`, lines 200-226. -/
def parseAlbumMap {ν : Type} (lib : GoLib ν) (m : List (String × JSON ν)) :
    Except GoError Album :=
  match JSON.field m "id" with
  | none => Except.error (GoError.other "field 'id' not found while decoding album")
  | some (JSON.num vv) =>
    match JSON.field m "name" with
    | none => Except.error (GoError.other "field 'name' not found while decoding album")
    | some (JSON.str s) => Except.ok { Id := lib.int vv, Name := lib.UnescapeString s }
    | some (JSON.num x) => Except.ok { Id := lib.int vv, Name := lib.sprintV x }
    | some v => Except.error (GoError.other ("unexpected type (" ++ v.typeName
        ++ ") while decoding album: expecting string or float64"))
  | some v => Except.error (GoError.other ("unexpected type (" ++ v.typeName
      ++ ") while decoding album: expecting float64"))

/-- Loop of `parseGetArtistResp` over an album array (`api.go`, lines
252-265); `retv` is the slice built so far. -/
def parseAlbumArray {ν : Type} (lib : GoLib ν) :
    List (JSON ν) → List Album → Except GoError (List Album)
  | [], retv => Except.ok retv
  | JSON.obj vv :: rest, retv =>
    match parseAlbumMap lib vv with
    | Except.error err => Except.error err
    | Except.ok tmp => parseAlbumArray lib rest (retv ++ [tmp])
  | v :: _, _ => Except.error (GoError.other ("unexpected type (" ++ v.typeName
      ++ ") while decoding album array: expecting map[string]interface\x7b\x7d"))

/-- Function `parseGetArtistResp` of `api.go`, lines 228-271. -/
def parseGetArtistResp {ν : Type} (lib : GoLib ν) (data : List UInt8) :
    Except GoError (List Album) :=
  match lib.UnmarshalArtist data with
  | Except.error err => Except.error err
  | Except.ok buf =>
    match buf.Error with
    | some e => Except.error (GoError.req e.Code e.Message)
    | none =>
      match buf.Album with
      | JSON.obj a =>
        match parseAlbumMap lib a with
        | Except.error err => Except.error err
        | Except.ok tmp => Except.ok ([] ++ [tmp])
      | JSON.arr a => parseAlbumArray lib a []
      | a => Except.error (GoError.other ("unexpected type (" ++ a.typeName
          ++ ") while decoding artist entry: expecting map[string]interface\x7b\x7d or []interface\x7b\x7d"))

/-- The part of `parseSongMap` that reads `track` and `suffix` (`api.go`,
lines 315-337), with the `id` and the name already decoded. -/
def parseSongMap.rest {ν : Type} (lib : GoLib ν) (m : List (String × JSON ν)) (id : Int)
    (name : String) : Except GoError Song :=
  match JSON.field m "track" with
  | none => Except.error (GoError.other "field 'track' not found while decoding song")
  | some (JSON.num tt) =>
    match JSON.field m "suffix" with
    | none => Except.error (GoError.other "field 'suffix' not found while decoding song")
    | some (JSON.str s) =>
      Except.ok { Id := id, Name := name, Number := lib.int tt, Suffix := lib.UnescapeString s }
    | some (JSON.num x) =>
      Except.ok { Id := id, Name := name, Number := lib.int tt, Suffix := lib.sprintV x }
    | some v => Except.error (GoError.other ("unexpected type (" ++ v.typeName
        ++ ") while decoding album: expecting string or float64"))
  | some v => Except.error (GoError.other ("unexpected type (" ++ v.typeName
      ++ ") while decoding album: expecting float64"))

/-- Function `parseSongMap` of `api.go`, lines 288-338. -/
def parseSongMap {ν : Type} (lib : GoLib ν) (m : List (String × JSON ν)) :
    Except GoError Song :=
  match JSON.field m "id" with
  | none => Except.error (GoError.other "field 'id' not found while decoding song")
  | some (JSON.num vv) =>
    match JSON.field m "title" with
    | none => Except.error (GoError.other "field 'title' not found while decoding song")
    | some (JSON.str s) => parseSongMap.rest lib m (lib.int vv) (lib.UnescapeString s)
    | some (JSON.num x) => parseSongMap.rest lib m (lib.int vv) (lib.sprintV x)
    | some v => Except.error (GoError.other ("unexpected type (" ++ v.typeName
        ++ ") while decoding song: expecting string"))
  | some v => Except.error (GoError.other ("unexpected type (" ++ v.typeName
      ++ ") while decoding song: expecting float64"))

/-- Loop of `parseGetAlbumResp` over a song array (`api.go`, lines 364-377);
`retv` is the slice built so far. -/
def parseSongArray {ν : Type} (lib : GoLib ν) :
    List (JSON ν) → List Song → Except GoError (List Song)
  | [], retv => Except.ok retv
  | JSON.obj vv :: rest, retv =>
    match parseSongMap lib vv with
    | Except.error err => Except.error err
    | Except.ok tmp => parseSongArray lib rest (retv ++ [tmp])
  | v :: _, _ => Except.error (GoError.other ("unexpected type (" ++ v.typeName
      ++ ") while decoding song array: expecting map[string]interface\x7b\x7d"))

/-- Function `parseGetAlbumResp` of `api.go`, lines 340-383. The test of
`buf.R.Error` stands before `json.Unmarshal`, where `buf` still has its zero
value. -/
def parseGetAlbumResp {ν : Type} (lib : GoLib ν) (data : List UInt8) :
    Except GoError (List Song) :=
  let buf0 : AlbumBuf ν := { Error := none, Song := JSON.null }
  match buf0.Error with
  | some e => Except.error (GoError.req e.Code e.Message)
  | none =>
    match lib.UnmarshalAlbum data with
    | Except.error err => Except.error err
    | Except.ok buf =>
      match buf.Song with
      | JSON.obj s =>
        match parseSongMap lib s with
        | Except.error err => Except.error err
        | Except.ok tmp => Except.ok ([] ++ [tmp])
      | JSON.arr s => parseSongArray lib s []
      | s => Except.error (GoError.other ("unexpected type (" ++ s.typeName
          ++ ") while decoding album entry: expecting map[string]interface\x7b\x7d or []interface\x7b\x7d"))

/-- A value that is one object or an array of objects, read as the list of
the objects: a single value stands for the one-element array of it. -/
def JSON.oneOrMany {ν : Type} : JSON ν → List (JSON ν)
  | JSON.arr a => a
  | v => [v]

/-- An artist object, with the `Artist` it stands for: a JSON object with a
numeric `id` and a `name` that is a string (taken HTML-unescaped) or a number
(taken as `%v` prints it). -/
inductive IsArtistObject {ν : Type} (lib : GoLib ν) : JSON ν → Artist → Prop where
  | strName (m : List (String × JSON ν)) (id : ν) (s : String) :
      JSON.field m "id" = some (JSON.num id) → JSON.field m "name" = some (JSON.str s) →
      IsArtistObject lib (JSON.obj m) { Id := lib.int id, Name := lib.UnescapeString s }
  | numName (m : List (String × JSON ν)) (id x : ν) :
      JSON.field m "id" = some (JSON.num id) → JSON.field m "name" = some (JSON.num x) →
      IsArtistObject lib (JSON.obj m) { Id := lib.int id, Name := lib.sprintV x }

/-- An index object, with the artists it holds: a JSON object whose `artist`
field is one artist object or an array of artist objects. -/
inductive IsIndexObject {ν : Type} (lib : GoLib ν) : JSON ν → List Artist → Prop where
  | one (m ma : List (String × JSON ν)) (a : Artist) :
      JSON.field m "artist" = some (JSON.obj ma) → IsArtistObject lib (JSON.obj ma) a →
      IsIndexObject lib (JSON.obj m) [a]
  | many (m : List (String × JSON ν)) (l : List (JSON ν)) (artists : List Artist) :
      JSON.field m "artist" = some (JSON.arr l) → List.Forall₂ (IsArtistObject lib) l artists →
      IsIndexObject lib (JSON.obj m) artists

/-- An album object, with the `Album` it stands for. -/
inductive IsAlbumObject {ν : Type} (lib : GoLib ν) : JSON ν → Album → Prop where
  | strName (m : List (String × JSON ν)) (id : ν) (s : String) :
      JSON.field m "id" = some (JSON.num id) → JSON.field m "name" = some (JSON.str s) →
      IsAlbumObject lib (JSON.obj m) { Id := lib.int id, Name := lib.UnescapeString s }
  | numName (m : List (String × JSON ν)) (id x : ν) :
      JSON.field m "id" = some (JSON.num id) → JSON.field m "name" = some (JSON.num x) →
      IsAlbumObject lib (JSON.obj m) { Id := lib.int id, Name := lib.sprintV x }

/-- A song object with numeric `id`, string `title`, numeric `track` and
string `suffix`, with the `Song` it stands for. -/
inductive IsSongObject {ν : Type} (lib : GoLib ν) : JSON ν → Song → Prop where
  | mk (m : List (String × JSON ν)) (id track : ν) (title suffix : String) :
      JSON.field m "id" = some (JSON.num id) → JSON.field m "title" = some (JSON.str title) →
      JSON.field m "track" = some (JSON.num track) →
      JSON.field m "suffix" = some (JSON.str suffix) →
      IsSongObject lib (JSON.obj m)
        { Id := lib.int id, Name := lib.UnescapeString title, Number := lib.int track,
          Suffix := lib.UnescapeString suffix }

/-! ## Sample collaborators

Concrete environments on which the statements below are evaluated. -/

/-- A stream identity no `client.Stream` call of the log has returned. -/
def nextStream : List Event → ReadCloser
  | [] => 0
  | Event.Stream _ _ (some r) :: rest => max (r + 1) (nextStream rest)
  | _ :: rest => nextStream rest

/-- Sample server: songs with a negative id cannot be streamed; a stream gives
a full buffer on its first read and `io.EOF` afterwards; artist 1 has one
album, artist 2 two albums of colliding names, the listing of any other artist
fails; album 10 has one song, album 11 two songs of colliding names, the
listing of any other album fails; the artist list is the one artist Muse. -/
def sampleEnv : Env :=
  { maxbps := 192,
    Stream := fun log song _ =>
      if song < 0 then StreamResult.err (GoError.other "song not found")
      else StreamResult.ok (nextStream log),
    Read := fun log src buf =>
      if Event.Read src buf ∈ log then (0, some GoError.EOF) else (buf, none),
    GetArtist := fun _ id =>
      if id = 1 then ([{ Id := 10, Name := "Origin of Symmetry" }], none)
      else if id = 2 then ([{ Id := 20, Name := "A/B" }, { Id := 21, Name := "a b" },
        { Id := 22, Name := "A#B" }], none)
      else ([], some (GoError.other "artist not found")),
    GetAlbum := fun _ id =>
      if id = 10 then ([{ Id := 100, Name := "Bliss", Number := 4, Suffix := "mp3" }], none)
      else if id = 11 then ([{ Id := 110, Name := "One", Number := 1, Suffix := "mp3" },
        { Id := 111, Name := "ONE", Number := 1, Suffix := "MP3" }], none)
      else ([], some (GoError.other "album not found")),
    unicodeToLower := fun c => c,
    GetArtists := fun _ => ([{ Id := 1, Name := "Muse" }], none) }

/-- Sample server whose streams fail on every read with a transport error. -/
def brokenEnv : Env :=
  { sampleEnv with Read := fun _ _ _ => (3, some (GoError.other "connection reset")) }

/-- Sample server whose streams are empty: the first read reports `io.EOF`. -/
def emptyEnv : Env :=
  { sampleEnv with Read := fun _ _ _ => (0, some GoError.EOF) }

/-- Sample song file. -/
def bliss : SongFile := { Name := "04_bliss.mp3", id := 100 }

/-- Sample state: session 7 is associated with stream 0, which has been read once. -/
def oneStream : State :=
  { m := [(7, 0)], log := [Event.Stream 100 192 (some 0), Event.Read 0 4096] }

/-- The invariant of the stream table and the log: no stream was closed
twice; the streams in the table are the opened streams that were not closed;
a stream belongs to one session; only opened streams were closed. -/
structure Inv (st : State) : Prop where
  closeOnce : ∀ s : ReadCloser, st.log.count (Event.Close s) ≤ 1
  present : ∀ s : ReadCloser,
    (∃ fid, Table.get st.m fid = some s) ↔ (opened st.log s ∧ Event.Close s ∉ st.log)
  oneSession : ∀ (fid fid1 : Fid) (s : ReadCloser),
    Table.get st.m fid = some s → Table.get st.m fid1 = some s → fid = fid1
  closedOpened : ∀ s : ReadCloser, Event.Close s ∈ st.log → opened st.log s

/-- Sample sequence of requests: two sessions stream the same song, the first
reads to the end, the second is closed early, twice. -/
def sampleCalls : List Call :=
  [ Call.Read bliss 7 4096 0, Call.Read bliss 8 4096 0, Call.Read bliss 7 4096 4096,
    Call.Read bliss 7 4096 8192, Call.Clunk bliss 8, Call.Clunk bliss 8, Call.Clunk bliss 7 ]

/-- Sample artist directory, as `buildFs` creates it: latch not fired, no
children; the listing of artist 3 fails on the sample server. -/
def nobody : ArtistDir := { Name := "nobody", id := 3, done := false, children := [] }

/-- Sample artist directory whose listing holds colliding album names. -/
def twins : ArtistDir := { Name := "twins", id := 2, done := false, children := [] }

/-- Sample album directory whose listing holds one song. -/
def origin : AlbumDir := { Name := "origin␣of␣symmetry", id := 10, done := false, children := [] }

/-- Sample album directory whose listing fails on the sample server. -/
def lost : AlbumDir := { Name := "lost", id := 12, done := false, children := [] }

/-- Sample album directory whose listing holds two songs of the same node name. -/
def doubles : AlbumDir := { Name := "doubles", id := 11, done := false, children := [] }

/-- Sample server whose artist list starts with an artist without a name. -/
def namelessEnv : Env :=
  { sampleEnv with
    GetArtists := fun _ => ([{ Id := 1, Name := "" }, { Id := 2, Name := "Muse" }], none) }

/-- Sample server whose artist list is one artist without a name. -/
def blankEnv : Env :=
  { sampleEnv with GetArtists := fun _ => ([{ Id := 1, Name := "" }], none) }

/-- The tree `buildFs` makes of the artist list of the sample server. -/
def museRoot : List RootEntry :=
  [ { Name := "ctl", isCtl := true, children := [] },
    { Name := "m", isCtl := false,
      children := [{ Name := "muse", id := 1, done := false, children := [] }] } ]

/-- The artist directory of the scenario, as `buildFs` makes it. -/
def museDir : ArtistDir := { Name := "muse", id := 1, done := false, children := [] }

/-- The album directory of the scenario, as `ArtistDir.Stat` makes it. -/
def originDir : AlbumDir :=
  { Name := "origin␣of␣symmetry", id := 10, done := false, children := [] }

/-! ## Sample documents

Short byte sequences that stand for the JSON texts of `api_test.go`; the
sample library below decodes them as `json.Unmarshal` decodes those texts. -/

/-- Stands for `Jhead + Jtail`: an answer without error and without data. -/
def okDoc : List UInt8 := [0]

/-- Stands for `Jhead + Jerr + "," + Jtail`: the error answer of the tests. -/
def errDoc : List UInt8 := [1]

/-- Stands for the common case of `TestGetArtists`. -/
def artistsDoc : List UInt8 := [2]

/-- Stands for the single album case of `TestGetArtist`. -/
def albumDoc : List UInt8 := [3]

/-- Stands for the single album of `TestGetArtist` as a one-element array. -/
def albumArrayDoc : List UInt8 := [4]

/-- Stands for the document of `TestGetAlbum`. -/
def songsDoc : List UInt8 := [5]

/-- The error object of the tests (`Jerr`). -/
def testError : ReqError := { Code := 40, Message := "Something went wrong, blabla." }

/-- The index array of the common case of `TestGetArtists`. -/
def testIndex : JSON Int :=
  JSON.arr
    [ JSON.obj [("name", JSON.str "A"),
        ("artist", JSON.arr
          [ JSON.obj [("id", JSON.num 0), ("name", JSON.str "A1"), ("albumCount", JSON.num 7)],
            JSON.obj [("id", JSON.num 1), ("name", JSON.str "A2"),
              ("coverArt", JSON.str "ar-222"), ("albumCount", JSON.num 1)] ])],
      JSON.obj [("name", JSON.str "K"),
        ("artist", JSON.obj [("id", JSON.num 2), ("name", JSON.str "Kwyjibo"),
          ("coverArt", JSON.str "ar-23"), ("albumCount", JSON.num 14)])] ]

/-- The album object of the single album case of `TestGetArtist`. -/
def testAlbum : List (String × JSON Int) :=
  [("id", JSON.num 0), ("duration", JSON.num 3411), ("songCount", JSON.num 14),
    ("created", JSON.str "2013-03-18T12:21:33"), ("artistId", JSON.num 166),
    ("name", JSON.str "Dummy Disc"), ("artist", JSON.str "DummyArtist"),
    ("coverArt", JSON.str "al-511")]

/-- The song array of `TestGetAlbum`, with the fields the parser reads. -/
def testSongs : List (JSON Int) :=
  [ JSON.obj [("genre", JSON.num 17), ("track", JSON.num 1), ("suffix", JSON.str "mp3"),
      ("id", JSON.num 1), ("title", JSON.str "Track1")],
    JSON.obj [("genre", JSON.num 17), ("track", JSON.num 2), ("suffix", JSON.str "ogg"),
      ("id", JSON.num 2), ("title", JSON.str "Track2")] ]

/-- Sample library on whole numbers: `int` and `%v` of a whole number,
`html.UnescapeString` on texts without `&` (which it leaves as they are), and
`json.Unmarshal` on the sample documents. -/
def sampleLib : GoLib Int :=
  { int := fun x => x,
    sprintV := fun x => toString x,
    UnescapeString := fun s => s,
    UnmarshalPing := fun data =>
      if data = errDoc then Except.ok { Error := some testError }
      else if data.length = 1 then Except.ok { Error := none }
      else Except.error (GoError.other "unexpected end of JSON input"),
    UnmarshalArtists := fun data =>
      if data = errDoc then Except.ok { Error := some testError, Index := JSON.null }
      else if data = artistsDoc then Except.ok { Error := none, Index := testIndex }
      else Except.error (GoError.other "unexpected end of JSON input"),
    UnmarshalArtist := fun data =>
      if data = errDoc then Except.ok { Error := some testError, Album := JSON.null }
      else if data = albumDoc then Except.ok { Error := none, Album := JSON.obj testAlbum }
      else if data = albumArrayDoc then
        Except.ok { Error := none, Album := JSON.arr [JSON.obj testAlbum] }
      else Except.error (GoError.other "unexpected end of JSON input"),
    UnmarshalAlbum := fun data =>
      if data = errDoc then Except.ok { Error := some testError, Song := JSON.null }
      else if data = songsDoc then Except.ok { Error := none, Song := JSON.arr testSongs }
      else Except.error (GoError.other "unexpected end of JSON input") }

/-- What `html.UnescapeString` does to a text whose only entity is `&amp;`:
every `&amp;` becomes `&`, in one pass. -/
def unescapeAmp : List Char → List Char
  | '&' :: 'a' :: 'm' :: 'p' :: ';' :: rest => '&' :: unescapeAmp rest
  | c :: rest => c :: unescapeAmp rest
  | [] => []

/-- An album object whose name holds the entity `&amp;`. -/
def ampAlbum : List (String × JSON Int) :=
  [("id", JSON.num 7), ("name", JSON.str "R&amp;B")]

/-- A song object whose title holds the entity `&amp;`. -/
def ampSong : List (String × JSON Int) :=
  [("id", JSON.num 3), ("title", JSON.str "R&amp;B"), ("track", JSON.num 1),
    ("suffix", JSON.str "mp3")]

/-- Stands for an answer whose `album` field is the array of `ampAlbum`. -/
def ampAlbumsDoc : List UInt8 := [6]

/-- Stands for an answer whose `song` field is the array of `ampSong`. -/
def ampSongsDoc : List UInt8 := [7]

/-- Sample library that agrees with `sampleLib` but for `html.UnescapeString`,
which here replaces the entity `&amp;` as the Go library does, and for the
two documents with that entity. -/
def entityLib : GoLib Int :=
  { sampleLib with
    UnescapeString := fun s => String.mk (unescapeAmp s.data),
    UnmarshalArtist := fun data =>
      if data = ampAlbumsDoc then
        Except.ok { Error := none, Album := JSON.arr [JSON.obj ampAlbum] }
      else sampleLib.UnmarshalArtist data,
    UnmarshalAlbum := fun data =>
      if data = ampSongsDoc then
        Except.ok { Error := none, Song := JSON.arr [JSON.obj ampSong] }
      else sampleLib.UnmarshalAlbum data }

/-! # Theorems -/

/-! ## The stream table: lemmas -/

theorem Table.delete_cons (k : Fid) (v : ReadCloser) (rest : Table) (fid : Fid) :
    Table.delete ((k, v) :: rest) fid =
      if k = fid then Table.delete rest fid else (k, v) :: Table.delete rest fid := by
  by_cases h : k = fid <;> simp [Table.delete, List.filter, h]

theorem Table.get_cons (k : Fid) (v : ReadCloser) (rest : Table) (fid : Fid) :
    Table.get ((k, v) :: rest) fid = if k = fid then some v else Table.get rest fid := rfl

theorem Table.get_delete_self (m : Table) (fid : Fid) :
    Table.get (Table.delete m fid) fid = none := by
  induction m with
  | nil => rfl
  | cons kv rest ih =>
    obtain ⟨k, v⟩ := kv
    rw [Table.delete_cons]
    by_cases h : k = fid
    · rw [if_pos h]; exact ih
    · rw [if_neg h, Table.get_cons, if_neg h]; exact ih

theorem Table.get_delete_ne (m : Table) (fid fid' : Fid) (h : fid' ≠ fid) :
    Table.get (Table.delete m fid) fid' = Table.get m fid' := by
  induction m with
  | nil => rfl
  | cons kv rest ih =>
    obtain ⟨k, v⟩ := kv
    rw [Table.delete_cons, Table.get_cons]
    by_cases hk : k = fid
    · have hk' : ¬ k = fid' := fun e => h (e ▸ hk)
      rw [if_pos hk, if_neg hk']; exact ih
    · rw [if_neg hk, Table.get_cons, ih]

theorem Table.get_set_self (m : Table) (fid : Fid) (r : ReadCloser) :
    Table.get (Table.set m fid r) fid = some r := by
  simp [Table.set, Table.get]

theorem Table.get_set_ne (m : Table) (fid fid' : Fid) (r : ReadCloser) (h : fid' ≠ fid) :
    Table.get (Table.set m fid r) fid' = Table.get m fid' := by
  have h' : ¬ fid = fid' := fun e => h e.symm
  rw [Table.set, Table.get_cons, if_neg h', Table.get_delete_ne m fid fid' h]

theorem Table.delete_of_get_none (m : Table) (fid : Fid) (h : Table.get m fid = none) :
    Table.delete m fid = m := by
  induction m with
  | nil => rfl
  | cons kv rest ih =>
    obtain ⟨k, v⟩ := kv
    rw [Table.get_cons] at h
    by_cases hk : k = fid
    · rw [if_pos hk] at h; cases h
    · rw [if_neg hk] at h
      rw [Table.delete_cons, if_neg hk, ih h]

/-! ## `SongFile.Read`: single calls -/

theorem SongFile.readFrom_ok (env : Env) (fid : Fid) (buf : Nat) (src : ReadCloser) (st : State)
    (c : Int) (h : env.Read st.log src buf = (c, none)) :
    SongFile.readFrom env fid buf src st =
      ((c, none), { m := st.m, log := st.log ++ [Event.Read src buf] }) := by
  simp [SongFile.readFrom, h]

theorem SongFile.readFrom_err (env : Env) (fid : Fid) (buf : Nat) (src : ReadCloser) (st : State)
    (c : Int) (e : GoError) (h : env.Read st.log src buf = (c, some e)) :
    SongFile.readFrom env fid buf src st =
      ((if e = GoError.EOF then (0, none) else (c, some e)),
        { m := Table.delete st.m fid,
          log := st.log ++ [Event.Read src buf, Event.Close src] }) := by
  by_cases he : e = GoError.EOF <;> simp [SongFile.readFrom, h, he, List.append_assoc]

theorem newEvents_append (st st1 : State) (l : List Event) (h : st1.log = st.log ++ l) :
    newEvents st st1 = l := by
  simp [newEvents, h]

/-- The calls `readFrom` makes: one read of `src`, then at most its close. -/
theorem SongFile.readFrom_log (env : Env) (fid : Fid) (buf : Nat) (src : ReadCloser)
    (st : State) :
    (SongFile.readFrom env fid buf src st).2.log = st.log ++ [Event.Read src buf]
      ∨ (SongFile.readFrom env fid buf src st).2.log
          = st.log ++ [Event.Read src buf, Event.Close src] := by
  rcases hres : env.Read st.log src buf with ⟨c, _ | e⟩
  · left; rw [SongFile.readFrom_ok env fid buf src st c hres]
  · right; rw [SongFile.readFrom_err env fid buf src st c e hres]

/-- The table `readFrom` leaves: untouched, or without the entry of `fid`. -/
theorem SongFile.readFrom_m (env : Env) (fid : Fid) (buf : Nat) (src : ReadCloser)
    (st : State) :
    (SongFile.readFrom env fid buf src st).2.m = st.m
      ∨ (SongFile.readFrom env fid buf src st).2.m = Table.delete st.m fid := by
  rcases hres : env.Read st.log src buf with ⟨c, _ | e⟩
  · left; rw [SongFile.readFrom_ok env fid buf src st c hres]
  · right; rw [SongFile.readFrom_err env fid buf src st c e hres]

theorem SongFile.Read_of_some (env : Env) (f : SongFile) (fid : Fid) (buf offset : Nat)
    (st : State) (src : ReadCloser) (h : Table.get st.m fid = some src) :
    SongFile.Read env f fid buf offset st = SongFile.readFrom env fid buf src st := by
  simp [SongFile.Read, h]

theorem SongFile.Read_open_ok (env : Env) (f : SongFile) (fid : Fid) (buf : Nat)
    (st : State) (r : ReadCloser) (h : Table.get st.m fid = none)
    (hr : env.Stream st.log f.id env.maxbps = StreamResult.ok r) :
    SongFile.Read env f fid buf 0 st =
      SongFile.readFrom env fid buf r
        { m := Table.set st.m fid r,
          log := st.log ++ [Event.Stream f.id env.maxbps (some r)] } := by
  simp [SongFile.Read, h, hr]

theorem SongFile.Read_open_err (env : Env) (f : SongFile) (fid : Fid) (buf : Nat)
    (st : State) (e : GoError) (h : Table.get st.m fid = none)
    (hr : env.Stream st.log f.id env.maxbps = StreamResult.err e) :
    SongFile.Read env f fid buf 0 st =
      ((0, some e), { m := st.m, log := st.log ++ [Event.Stream f.id env.maxbps none] }) := by
  simp [SongFile.Read, h, hr]

theorem SongFile.Read_off (env : Env) (f : SongFile) (fid : Fid) (buf offset : Nat)
    (st : State) (h : Table.get st.m fid = none) (hpos : 0 < offset) :
    SongFile.Read env f fid buf offset st = ((0, none), st) := by
  simp [SongFile.Read, h, hpos]

theorem Table.delete_set_of_get_none (m : Table) (fid : Fid) (r : ReadCloser)
    (h : Table.get m fid = none) : Table.delete (Table.set m fid r) fid = m := by
  rw [Table.set, Table.delete_cons, if_pos rfl,
    Table.delete_of_get_none _ _ (Table.get_delete_self m fid),
    Table.delete_of_get_none m fid h]

/-- A first read whose upstream read fails: the stream just opened is closed
and the table is the one before the call. -/
theorem SongFile.Read_open_read_err (env : Env) (f : SongFile) (fid : Fid) (buf : Nat)
    (st : State) (r : ReadCloser) (c : Int) (e : GoError)
    (h : Table.get st.m fid = none)
    (hr : env.Stream st.log f.id env.maxbps = StreamResult.ok r)
    (herr : env.Read (st.log ++ [Event.Stream f.id env.maxbps (some r)]) r buf = (c, some e)) :
    SongFile.Read env f fid buf 0 st =
      ((if e = GoError.EOF then (0, none) else (c, some e)),
        { m := st.m,
          log := st.log
            ++ [Event.Stream f.id env.maxbps (some r), Event.Read r buf, Event.Close r] }) := by
  rw [SongFile.Read_open_ok env f fid buf st r h hr,
    SongFile.readFrom_err env fid buf r _ c e herr]
  simp [Table.delete_set_of_get_none st.m fid r h]

/-- C1. Natural end of stream. When the session has an associated stream and
the upstream read reports `io.EOF`, `SongFile.Read` (at any offset) reads once
from it, closes it once, removes the session from the table and returns
`(0, nil)`. The same holds for a stream this very call opened: it is closed,
the table is again the one before the call, which has no entry for the
session, and the result is `(0, nil)`. -/
theorem read_eof_closes_and_returns_zero (env : Env) (f : SongFile) (fid : Fid) (buf : Nat)
    (st : State) (c : Int) :
    (∀ (offset : Nat) (src : ReadCloser), Table.get st.m fid = some src →
        env.Read st.log src buf = (c, some GoError.EOF) →
        SongFile.Read env f fid buf offset st =
            ((0, none), { m := Table.delete st.m fid,
                          log := st.log ++ [Event.Read src buf, Event.Close src] })
          ∧ Table.get (SongFile.Read env f fid buf offset st).2.m fid = none)
      ∧ (∀ r : ReadCloser, Table.get st.m fid = none →
          env.Stream st.log f.id env.maxbps = StreamResult.ok r →
          env.Read (st.log ++ [Event.Stream f.id env.maxbps (some r)]) r buf
            = (c, some GoError.EOF) →
          SongFile.Read env f fid buf 0 st =
              ((0, none), { m := st.m,
                            log := st.log ++ [Event.Stream f.id env.maxbps (some r),
                              Event.Read r buf, Event.Close r] })
            ∧ Table.get (SongFile.Read env f fid buf 0 st).2.m fid = none) := by
  refine ⟨fun offset src hsrc heof => ?_, fun r hnone hr heof => ?_⟩
  · have h : SongFile.Read env f fid buf offset st =
        ((0, none), { m := Table.delete st.m fid,
                      log := st.log ++ [Event.Read src buf, Event.Close src] }) := by
      rw [SongFile.Read_of_some env f fid buf offset st src hsrc,
        SongFile.readFrom_err env fid buf src st c GoError.EOF heof, if_pos rfl]
    exact ⟨h, by rw [h]; exact Table.get_delete_self st.m fid⟩
  · have h := SongFile.Read_open_read_err env f fid buf st r c GoError.EOF hnone hr heof
    rw [if_pos rfl] at h
    exact ⟨h, by rw [h]; exact hnone⟩

/-- Witness of C1: session 7 reads stream 0 a second time and meets `io.EOF`;
session 8 opens an empty stream. -/
theorem read_eof_closes_and_returns_zero_witness :
    Table.get oneStream.m 7 = some 0
      ∧ sampleEnv.Read oneStream.log 0 4096 = (0, some GoError.EOF)
      ∧ SongFile.Read sampleEnv bliss 7 4096 4096 oneStream =
          ((0, none), { m := Table.delete oneStream.m 7,
                        log := oneStream.log ++ [Event.Read 0 4096, Event.Close 0] })
      ∧ Table.get oneStream.m 8 = none
      ∧ emptyEnv.Stream oneStream.log bliss.id emptyEnv.maxbps = StreamResult.ok 1
      ∧ SongFile.Read emptyEnv bliss 8 4096 0 oneStream =
          ((0, none), { m := oneStream.m,
                        log := oneStream.log ++ [Event.Stream bliss.id emptyEnv.maxbps (some 1),
                          Event.Read 1 4096, Event.Close 1] }) :=
  ⟨by decide, by decide,
    ((read_eof_closes_and_returns_zero sampleEnv bliss 7 4096 oneStream 0).1 4096 0
      (by decide) (by decide)).1,
    by decide, by decide,
    ((read_eof_closes_and_returns_zero emptyEnv bliss 8 4096 oneStream 0).2 1
      (by decide) (by decide) (by decide)).1⟩

/-- C2. No live stream and a non-zero offset: `SongFile.Read` returns
`(0, nil)` and changes nothing: no call is made (so no stream is opened) and
the table is the same. In particular the read at a non-zero offset that
follows a read which met `io.EOF` returns `(0, nil)` and changes nothing. -/
theorem read_nonzero_offset_without_stream (env : Env) (f : SongFile) (fid : Fid)
    (buf offset : Nat) (st : State) (hoff : 0 < offset) :
    (Table.get st.m fid = none → SongFile.Read env f fid buf offset st = ((0, none), st))
      ∧ (∀ (src : ReadCloser) (c : Int) (buf0 offset0 : Nat),
          Table.get st.m fid = some src →
          env.Read st.log src buf0 = (c, some GoError.EOF) →
          SongFile.Read env f fid buf offset (SongFile.Read env f fid buf0 offset0 st).2
            = ((0, none), (SongFile.Read env f fid buf0 offset0 st).2)) := by
  refine ⟨fun hnone => SongFile.Read_off env f fid buf offset st hnone hoff,
    fun src c buf0 offset0 hsrc heof => ?_⟩
  have hgone : Table.get (SongFile.Read env f fid buf0 offset0 st).2.m fid = none := by
    rw [SongFile.Read_of_some env f fid buf0 offset0 st src hsrc,
      SongFile.readFrom_err env fid buf0 src st c GoError.EOF heof]
    exact Table.get_delete_self st.m fid
  exact SongFile.Read_off env f fid buf offset _ hgone hoff

/-- Witness of C2: session 8 has no stream in `oneStream` and reads at offset
4096; session 7 reads to the end and then once more. -/
theorem read_nonzero_offset_without_stream_witness :
    0 < 4096 ∧ Table.get oneStream.m 8 = none
      ∧ SongFile.Read sampleEnv bliss 8 4096 4096 oneStream = ((0, none), oneStream)
      ∧ Table.get oneStream.m 7 = some 0
      ∧ sampleEnv.Read oneStream.log 0 4096 = (0, some GoError.EOF)
      ∧ SongFile.Read sampleEnv bliss 7 4096 4096
            (SongFile.Read sampleEnv bliss 7 4096 4096 oneStream).2
          = ((0, none), (SongFile.Read sampleEnv bliss 7 4096 4096 oneStream).2) :=
  ⟨by decide, by decide,
    (read_nonzero_offset_without_stream sampleEnv bliss 8 4096 4096 oneStream (by decide)).1
      (by decide),
    by decide, by decide,
    (read_nonzero_offset_without_stream sampleEnv bliss 7 4096 4096 oneStream (by decide)).2
      0 0 4096 4096 (by decide) (by decide)⟩

/-- C3. At most one stream per active session. A read at offset 0 on a
session without a stream makes exactly one `client.Stream` call, with the
song id and the configured bit rate; the stream it returns is put into the
table under this session before it is read, it is the stream read, and it is
still the session's stream afterwards when that read did not fail. A read (at
any offset) on a session that has a stream makes no `client.Stream` call and
reads from that stream. -/
theorem read_opens_at_most_one_stream (env : Env) (f : SongFile) (fid : Fid) (buf : Nat)
    (st : State) :
    (Table.get st.m fid = none →
      (newEvents st (SongFile.Read env f fid buf 0 st).2).filter Event.isStream
          = [Event.Stream f.id env.maxbps (env.Stream st.log f.id env.maxbps).toOption]
        ∧ ∀ r, env.Stream st.log f.id env.maxbps = StreamResult.ok r →
            SongFile.Read env f fid buf 0 st =
                SongFile.readFrom env fid buf r
                  { m := Table.set st.m fid r,
                    log := st.log ++ [Event.Stream f.id env.maxbps (some r)] }
              ∧ Table.get (Table.set st.m fid r) fid = some r
              ∧ Event.Read r buf ∈ newEvents st (SongFile.Read env f fid buf 0 st).2
              ∧ ((env.Read (st.log ++ [Event.Stream f.id env.maxbps (some r)]) r buf).2 = none →
                  Table.get (SongFile.Read env f fid buf 0 st).2.m fid = some r))
      ∧ (∀ src offset, Table.get st.m fid = some src →
          (newEvents st (SongFile.Read env f fid buf offset st).2).filter Event.isStream = []
            ∧ (newEvents st (SongFile.Read env f fid buf offset st).2).head?
                = some (Event.Read src buf)) := by
  refine ⟨fun hnone => ?_, fun src offset hsrc => ?_⟩
  · rcases hr : env.Stream st.log f.id env.maxbps with e | r
    · refine ⟨?_, fun r h => (by cases h)⟩
      rw [SongFile.Read_open_err env f fid buf st e hnone hr]
      rw [newEvents_append st _ [Event.Stream f.id env.maxbps none] rfl]
      rfl
    · have hR := SongFile.Read_open_ok env f fid buf st r hnone hr
      have hlog := SongFile.readFrom_log env fid buf r
        { m := Table.set st.m fid r, log := st.log ++ [Event.Stream f.id env.maxbps (some r)] }
      refine ⟨?_, fun r1 h => ?_⟩
      · rw [hR]
        rcases hlog with hl | hl
        · rw [newEvents_append st _
            [Event.Stream f.id env.maxbps (some r), Event.Read r buf] (by rw [hl]; simp)]
          rfl
        · rw [newEvents_append st _
            [Event.Stream f.id env.maxbps (some r), Event.Read r buf, Event.Close r]
            (by rw [hl]; simp)]
          rfl
      · cases h
        refine ⟨hR, Table.get_set_self st.m fid r, ?_, fun hok => ?_⟩
        · rw [hR]
          rcases hlog with hl | hl
          · rw [newEvents_append st _
              [Event.Stream f.id env.maxbps (some r), Event.Read r buf] (by rw [hl]; simp)]
            simp
          · rw [newEvents_append st _
              [Event.Stream f.id env.maxbps (some r), Event.Read r buf, Event.Close r]
              (by rw [hl]; simp)]
            simp
        · rw [hR]
          rcases hres : env.Read (st.log ++ [Event.Stream f.id env.maxbps (some r)]) r buf
            with ⟨c, err⟩
          rw [hres] at hok
          simp only at hok
          subst hok
          rw [SongFile.readFrom_ok env fid buf r _ c hres]
          exact Table.get_set_self st.m fid r
  · rw [SongFile.Read_of_some env f fid buf offset st src hsrc]
    rcases SongFile.readFrom_log env fid buf src st with hl | hl
    · rw [newEvents_append st _ [Event.Read src buf] hl]
      exact ⟨rfl, rfl⟩
    · rw [newEvents_append st _ [Event.Read src buf, Event.Close src] hl]
      exact ⟨rfl, rfl⟩

/-- Witness of C3: session 8 opens its stream in `oneStream`, where session 7
already has one. -/
theorem read_opens_at_most_one_stream_witness :
    Table.get oneStream.m 8 = none
      ∧ (newEvents oneStream (SongFile.Read sampleEnv bliss 8 4096 0 oneStream).2).filter
          Event.isStream = [Event.Stream 100 192 (some 1)]
      ∧ Table.get (SongFile.Read sampleEnv bliss 8 4096 0 oneStream).2.m 8 = some 1
      ∧ Table.get oneStream.m 7 = some 0
      ∧ (newEvents oneStream (SongFile.Read sampleEnv bliss 7 4096 0 oneStream).2).filter
          Event.isStream = [] :=
  ⟨by decide,
    ((read_opens_at_most_one_stream sampleEnv bliss 8 4096 oneStream).1 (by decide)).1,
    (((read_opens_at_most_one_stream sampleEnv bliss 8 4096 oneStream).1 (by decide)).2 1
      (by decide)).2.2.2 (by decide),
    by decide,
    ((read_opens_at_most_one_stream sampleEnv bliss 7 4096 oneStream).2 0 0 (by decide)).1⟩

/-- C4. Upstream read error other than `io.EOF`. When the session has an
associated stream and reading it fails with `e`, `SongFile.Read` closes the
stream once, removes the session from the table and returns `e` (with the
count the stream reported). The same holds for a stream this very call
opened: it is closed, the table is again the one before the call, which has
no entry for the session, and `e` is returned. -/
theorem read_error_closes_and_propagates (env : Env) (f : SongFile) (fid : Fid)
    (buf : Nat) (st : State) (c : Int) (e : GoError) (hne : e ≠ GoError.EOF) :
    (∀ (offset : Nat) (src : ReadCloser), Table.get st.m fid = some src →
        env.Read st.log src buf = (c, some e) →
        SongFile.Read env f fid buf offset st =
            ((c, some e), { m := Table.delete st.m fid,
                            log := st.log ++ [Event.Read src buf, Event.Close src] })
          ∧ Table.get (SongFile.Read env f fid buf offset st).2.m fid = none)
      ∧ (∀ r : ReadCloser, Table.get st.m fid = none →
          env.Stream st.log f.id env.maxbps = StreamResult.ok r →
          env.Read (st.log ++ [Event.Stream f.id env.maxbps (some r)]) r buf = (c, some e) →
          SongFile.Read env f fid buf 0 st =
              ((c, some e), { m := st.m,
                              log := st.log ++ [Event.Stream f.id env.maxbps (some r),
                                Event.Read r buf, Event.Close r] })
            ∧ Table.get (SongFile.Read env f fid buf 0 st).2.m fid = none) := by
  refine ⟨fun offset src hsrc herr => ?_, fun r hnone hr herr => ?_⟩
  · have h : SongFile.Read env f fid buf offset st =
        ((c, some e), { m := Table.delete st.m fid,
                        log := st.log ++ [Event.Read src buf, Event.Close src] }) := by
      rw [SongFile.Read_of_some env f fid buf offset st src hsrc,
        SongFile.readFrom_err env fid buf src st c e herr, if_neg hne]
    exact ⟨h, by rw [h]; exact Table.get_delete_self st.m fid⟩
  · have h := SongFile.Read_open_read_err env f fid buf st r c e hnone hr herr
    rw [if_neg hne] at h
    exact ⟨h, by rw [h]; exact hnone⟩

/-- Witness of C4: the stream of session 7 fails with a transport error, and
so does the stream session 8 opens. -/
theorem read_error_closes_and_propagates_witness :
    GoError.other "connection reset" ≠ GoError.EOF
      ∧ Table.get oneStream.m 7 = some 0
      ∧ brokenEnv.Read oneStream.log 0 4096 = (3, some (GoError.other "connection reset"))
      ∧ SongFile.Read brokenEnv bliss 7 4096 4096 oneStream =
          ((3, some (GoError.other "connection reset")),
            { m := Table.delete oneStream.m 7,
              log := oneStream.log ++ [Event.Read 0 4096, Event.Close 0] })
      ∧ Table.get oneStream.m 8 = none
      ∧ SongFile.Read brokenEnv bliss 8 4096 0 oneStream =
          ((3, some (GoError.other "connection reset")),
            { m := oneStream.m,
              log := oneStream.log ++ [Event.Stream bliss.id brokenEnv.maxbps (some 1),
                Event.Read 1 4096, Event.Close 1] }) :=
  ⟨by decide, by decide, by decide,
    ((read_error_closes_and_propagates brokenEnv bliss 7 4096 oneStream 3
      (GoError.other "connection reset") (by decide)).1 4096 0 (by decide) (by decide)).1,
    by decide,
    ((read_error_closes_and_propagates brokenEnv bliss 8 4096 oneStream 3
      (GoError.other "connection reset") (by decide)).2 1 (by decide) (by decide)
      (by decide)).1⟩

/-- C5. Opening the upstream stream fails: on a session without a stream and
at offset 0, when `client.Stream` returns the error `e`, `SongFile.Read`
returns `(0, e)`, the table is the one before the call (the session still has
no entry) and the only call made is that `client.Stream`. -/
theorem read_open_failure_propagates (env : Env) (f : SongFile) (fid : Fid) (buf : Nat)
    (st : State) (e : GoError)
    (hnone : Table.get st.m fid = none)
    (hopen : env.Stream st.log f.id env.maxbps = StreamResult.err e) :
    (SongFile.Read env f fid buf 0 st).1 = (0, some e)
      ∧ (SongFile.Read env f fid buf 0 st).2.m = st.m
      ∧ Table.get (SongFile.Read env f fid buf 0 st).2.m fid = none
      ∧ (SongFile.Read env f fid buf 0 st).2.log
          = st.log ++ [Event.Stream f.id env.maxbps none] := by
  rw [SongFile.Read_open_err env f fid buf st e hnone hopen]
  exact ⟨rfl, rfl, hnone, rfl⟩

/-- Witness of C5: song -1 cannot be streamed. -/
theorem read_open_failure_propagates_witness :
    Table.get oneStream.m 8 = none
      ∧ sampleEnv.Stream oneStream.log (-1) sampleEnv.maxbps
          = StreamResult.err (GoError.other "song not found")
      ∧ (SongFile.Read sampleEnv { Name := "x", id := -1 } 8 4096 0 oneStream).1
          = (0, some (GoError.other "song not found"))
      ∧ (SongFile.Read sampleEnv { Name := "x", id := -1 } 8 4096 0 oneStream).2.m = oneStream.m
      ∧ Table.get (SongFile.Read sampleEnv { Name := "x", id := -1 } 8 4096 0 oneStream).2.m 8
          = none
      ∧ (SongFile.Read sampleEnv { Name := "x", id := -1 } 8 4096 0 oneStream).2.log
          = oneStream.log ++ [Event.Stream (-1) sampleEnv.maxbps none] :=
  ⟨by decide, by decide,
    read_open_failure_propagates sampleEnv { Name := "x", id := -1 } 8 4096 oneStream
      (GoError.other "song not found") (by decide) (by decide)⟩

/-- C6. `SongFile.Clunk` never fails and is idempotent: it returns `nil`; when
the session has a stream, that stream is closed once (the one call made) and
the session leaves the table; when it has none, nothing changes; a second
`Clunk` on the same session returns `nil` and changes nothing, so it makes no
`Close` call and leaves the table as it is. -/
theorem clunk_idempotent (f : SongFile) (fid : Fid) (st : State) :
    (SongFile.Clunk f fid st).1 = none
      ∧ (∀ src, Table.get st.m fid = some src →
          (SongFile.Clunk f fid st).2
            = { m := Table.delete st.m fid, log := st.log ++ [Event.Close src] })
      ∧ (Table.get st.m fid = none → (SongFile.Clunk f fid st).2 = st)
      ∧ SongFile.Clunk f fid (SongFile.Clunk f fid st).2 = (none, (SongFile.Clunk f fid st).2) := by
  rcases h : Table.get st.m fid with _ | src
  · have hc : SongFile.Clunk f fid st = (none, st) := by simp [SongFile.Clunk, h]
    refine ⟨by rw [hc], fun src hs => (by cases hs), fun _ => (by rw [hc]), ?_⟩
    rw [hc]; exact hc
  · have hc : SongFile.Clunk f fid st
        = (none, { m := Table.delete st.m fid, log := st.log ++ [Event.Close src] }) := by
      simp [SongFile.Clunk, h]
    refine ⟨by rw [hc], fun s hs => (by cases hs; rw [hc]), fun hn => (by cases hn), ?_⟩
    rw [hc]
    simp [SongFile.Clunk, Table.get_delete_self]

/-- Witness of C6: session 7 of `oneStream` is closed twice. -/
theorem clunk_idempotent_witness :
    Table.get oneStream.m 7 = some 0
      ∧ (SongFile.Clunk bliss 7 oneStream).2
          = { m := Table.delete oneStream.m 7, log := oneStream.log ++ [Event.Close 0] }
      ∧ SongFile.Clunk bliss 7 (SongFile.Clunk bliss 7 oneStream).2
          = (none, (SongFile.Clunk bliss 7 oneStream).2) :=
  ⟨by decide, (clunk_idempotent bliss 7 oneStream).2.1 0 (by decide),
    (clunk_idempotent bliss 7 oneStream).2.2.2⟩

/-! ## The invariant of the reachable states -/

theorem opened_append (log : List Event) (e : Event) (s : ReadCloser) :
    opened (log ++ [e]) s ↔ opened log s ∨ ∃ song bps, e = Event.Stream song bps (some s) := by
  constructor
  · rintro ⟨song, bps, h⟩
    rcases List.mem_append.1 h with h | h
    · exact Or.inl ⟨song, bps, h⟩
    · exact Or.inr ⟨song, bps, (List.mem_singleton.1 h).symm⟩
  · rintro (⟨song, bps, h⟩ | ⟨song, bps, h⟩)
    · exact ⟨song, bps, List.mem_append_left _ h⟩
    · exact ⟨song, bps, List.mem_append_right _ (by rw [h]; exact List.mem_singleton_self _)⟩

theorem Inv.init : Inv State.init where
  closeOnce := fun s => by simp [State.init]
  present := fun s => by
    constructor
    · rintro ⟨fid, h⟩; simp [State.init, Table.get] at h
    · rintro ⟨⟨song, bps, h⟩, _⟩; simp [State.init] at h
  oneSession := fun fid fid1 s h _ => by simp [State.init, Table.get] at h
  closedOpened := fun s h => by simp [State.init] at h

/-- A call that neither opens nor closes a stream keeps the invariant. -/
theorem Inv.log_only {st : State} (h : Inv st) (e : Event)
    (hc : ∀ s, e ≠ Event.Close s) (ho : ∀ song bps s, e ≠ Event.Stream song bps (some s)) :
    Inv { m := st.m, log := st.log ++ [e] } where
  closeOnce := fun s => by
    have hne : ¬ e = Event.Close s := hc s
    have := h.closeOnce s
    simp only [List.count_append, List.count_singleton]
    simp [hne]
    exact this
  present := fun s => by
    rw [h.present s]
    simp only [opened_append, List.mem_append, List.mem_singleton]
    constructor
    · rintro ⟨ho1, hc1⟩
      exact ⟨Or.inl ho1, fun hx => hx.elim hc1 (fun hx => hc s hx.symm)⟩
    · rintro ⟨ho1 | ⟨song, bps, he⟩, hc1⟩
      · exact ⟨ho1, fun hx => hc1 (Or.inl hx)⟩
      · exact absurd he (ho song bps s)
  oneSession := h.oneSession
  closedOpened := fun s hs => by
    rcases List.mem_append.1 hs with hs | hs
    · exact (opened_append _ _ _).2 (Or.inl (h.closedOpened s hs))
    · exact absurd (List.mem_singleton.1 hs).symm (hc s)

/-- Closing the stream of a session and deleting its entry keeps the invariant. -/
theorem Inv.close {st : State} (h : Inv st) (fid : Fid) (src : ReadCloser)
    (hsrc : Table.get st.m fid = some src) :
    Inv { m := Table.delete st.m fid, log := st.log ++ [Event.Close src] } where
  closeOnce := fun s => by
    by_cases hs : s = src
    · subst hs
      have hnot : Event.Close s ∉ st.log := ((h.present s).1 ⟨fid, hsrc⟩).2
      simp [List.count_append, List.count_eq_zero_of_not_mem hnot]
    · have hne : ¬ Event.Close src = Event.Close s := fun e => hs (by cases e; rfl)
      have := h.closeOnce s
      simp only [List.count_append, List.count_singleton]
      simp [hne]
      exact this
  present := fun s => by
    constructor
    · rintro ⟨fid1, h1⟩
      have hf : fid1 ≠ fid := by
        intro e; subst e; rw [Table.get_delete_self] at h1; cases h1
      rw [Table.get_delete_ne _ _ _ hf] at h1
      have hs : s ≠ src := by
        intro e; subst e; exact hf (h.oneSession _ _ _ h1 hsrc)
      obtain ⟨ho1, hc1⟩ := (h.present s).1 ⟨fid1, h1⟩
      refine ⟨(opened_append _ _ _).2 (Or.inl ho1), fun hx => ?_⟩
      rcases List.mem_append.1 hx with hx | hx
      · exact hc1 hx
      · exact hs (by cases List.mem_singleton.1 hx; rfl)
    · rintro ⟨ho1, hc1⟩
      have ho2 : opened st.log s := by
        rcases (opened_append _ _ _).1 ho1 with ho2 | ⟨_, _, he⟩
        · exact ho2
        · cases he
      have hc2 : Event.Close s ∉ st.log := fun hx => hc1 (List.mem_append_left _ hx)
      have hs : s ≠ src := by
        intro e; subst e
        exact hc1 (List.mem_append_right _ (List.mem_singleton_self _))
      obtain ⟨fid1, h1⟩ := (h.present s).2 ⟨ho2, hc2⟩
      have hf : fid1 ≠ fid := by
        intro e; subst e; rw [hsrc] at h1; exact hs (by cases h1; rfl)
      exact ⟨fid1, by rw [Table.get_delete_ne _ _ _ hf]; exact h1⟩
  oneSession := fun f1 f2 s h1 h2 => by
    have hf1 : f1 ≠ fid := by
      intro e; subst e; rw [Table.get_delete_self] at h1; cases h1
    have hf2 : f2 ≠ fid := by
      intro e; subst e; rw [Table.get_delete_self] at h2; cases h2
    rw [Table.get_delete_ne _ _ _ hf1] at h1
    rw [Table.get_delete_ne _ _ _ hf2] at h2
    exact h.oneSession _ _ _ h1 h2
  closedOpened := fun s hs => by
    refine (opened_append _ _ _).2 (Or.inl ?_)
    rcases List.mem_append.1 hs with hs | hs
    · exact h.closedOpened s hs
    · have e : s = src := by cases List.mem_singleton.1 hs; rfl
      rw [e]
      exact ((h.present src).1 ⟨fid, hsrc⟩).1

/-- Entering a stream never opened before under a session that has no entry
keeps the invariant. -/
theorem Inv.open {st : State} (h : Inv st) (fid : Fid) (song bps : Int) (r : ReadCloser)
    (hnone : Table.get st.m fid = none) (hfresh : ¬ opened st.log r) :
    Inv { m := Table.set st.m fid r, log := st.log ++ [Event.Stream song bps (some r)] } where
  closeOnce := fun s => by
    have := h.closeOnce s
    simp only [List.count_append, List.count_singleton]
    simp
    exact this
  present := fun s => by
    constructor
    · rintro ⟨fid1, h1⟩
      by_cases hf : fid1 = fid
      · subst hf
        rw [Table.get_set_self] at h1
        cases h1
        refine ⟨(opened_append _ _ _).2 (Or.inr ⟨song, bps, rfl⟩), fun hx => ?_⟩
        rcases List.mem_append.1 hx with hx | hx
        · exact hfresh (h.closedOpened _ hx)
        · cases List.mem_singleton.1 hx
      · rw [Table.get_set_ne _ _ _ _ hf] at h1
        obtain ⟨ho1, hc1⟩ := (h.present s).1 ⟨fid1, h1⟩
        refine ⟨(opened_append _ _ _).2 (Or.inl ho1), fun hx => ?_⟩
        rcases List.mem_append.1 hx with hx | hx
        · exact hc1 hx
        · cases List.mem_singleton.1 hx
    · rintro ⟨ho1, hc1⟩
      have hc2 : Event.Close s ∉ st.log := fun hx => hc1 (List.mem_append_left _ hx)
      rcases (opened_append _ _ _).1 ho1 with ho2 | ⟨_, _, he⟩
      · obtain ⟨fid1, h1⟩ := (h.present s).2 ⟨ho2, hc2⟩
        have hf : fid1 ≠ fid := by
          intro e; subst e; rw [hnone] at h1; cases h1
        exact ⟨fid1, by rw [Table.get_set_ne _ _ _ _ hf]; exact h1⟩
      · cases he
        exact ⟨fid, Table.get_set_self _ _ _⟩
  oneSession := fun f1 f2 s h1 h2 => by
    have hnot : ∀ f, Table.get st.m f ≠ some r := fun f hf =>
      hfresh ((h.present r).1 ⟨f, hf⟩).1
    by_cases hf1 : f1 = fid <;> by_cases hf2 : f2 = fid
    · rw [hf1, hf2]
    · subst hf1
      rw [Table.get_set_self] at h1
      rw [Table.get_set_ne _ _ _ _ hf2] at h2
      cases h1
      exact absurd h2 (hnot f2)
    · subst hf2
      rw [Table.get_set_self] at h2
      rw [Table.get_set_ne _ _ _ _ hf1] at h1
      cases h2
      exact absurd h1 (hnot f1)
    · rw [Table.get_set_ne _ _ _ _ hf1] at h1
      rw [Table.get_set_ne _ _ _ _ hf2] at h2
      exact h.oneSession _ _ _ h1 h2
  closedOpened := fun s hs => by
    refine (opened_append _ _ _).2 (Or.inl ?_)
    rcases List.mem_append.1 hs with hs | hs
    · exact h.closedOpened s hs
    · cases List.mem_singleton.1 hs

theorem Inv.readFrom (env : Env) (fid : Fid) (buf : Nat) (src : ReadCloser) {st : State}
    (h : Inv st) (hsrc : Table.get st.m fid = some src) :
    Inv (SongFile.readFrom env fid buf src st).2 := by
  have h1 : Inv { m := st.m, log := st.log ++ [Event.Read src buf] } :=
    h.log_only (Event.Read src buf) (fun s e => by cases e) (fun _ _ _ e => by cases e)
  rcases hres : env.Read st.log src buf with ⟨c, _ | e⟩
  · rw [SongFile.readFrom_ok env fid buf src st c hres]; exact h1
  · rw [SongFile.readFrom_err env fid buf src st c e hres]
    have h2 := h1.close fid src hsrc
    simpa [List.append_assoc] using h2

theorem Inv.Read (env : Env) (hfresh : FreshStreams env) (f : SongFile) (fid : Fid)
    (buf offset : Nat) {st : State} (h : Inv st) :
    Inv (SongFile.Read env f fid buf offset st).2 := by
  rcases hget : Table.get st.m fid with _ | src
  · rcases Nat.eq_zero_or_pos offset with h0 | hpos
    · subst h0
      rcases hr : env.Stream st.log f.id env.maxbps with e | r
      · rw [SongFile.Read_open_err env f fid buf st e hget hr]
        exact h.log_only _ (fun s e => by cases e) (fun _ _ _ e => by cases e)
      · rw [SongFile.Read_open_ok env f fid buf st r hget hr]
        exact Inv.readFrom env fid buf r
          (h.open fid f.id env.maxbps r hget (hfresh _ _ _ _ hr)) (Table.get_set_self _ _ _)
    · have : SongFile.Read env f fid buf offset st = ((0, none), st) := by
        simp [SongFile.Read, hget, hpos]
      rw [this]; exact h
  · rw [SongFile.Read_of_some env f fid buf offset st src hget]
    exact Inv.readFrom env fid buf src h hget

theorem Inv.Clunk (f : SongFile) (fid : Fid) {st : State} (h : Inv st) :
    Inv (SongFile.Clunk f fid st).2 := by
  rcases hget : Table.get st.m fid with _ | src
  · have : SongFile.Clunk f fid st = (none, st) := by simp [SongFile.Clunk, hget]
    rw [this]; exact h
  · have : SongFile.Clunk f fid st
        = (none, { m := Table.delete st.m fid, log := st.log ++ [Event.Close src] }) := by
      simp [SongFile.Clunk, hget]
    rw [this]; exact h.close fid src hget

theorem Inv.step (env : Env) (hfresh : FreshStreams env) (c : Call) {st : State} (h : Inv st) :
    Inv (step env st c) := by
  cases c with
  | Read f fid buf offset => exact Inv.Read env hfresh f fid buf offset h
  | Clunk f fid => exact Inv.Clunk f fid h

theorem Inv.run (env : Env) (hfresh : FreshStreams env) (calls : List Call) :
    ∀ {st : State}, Inv st → Inv (run env calls st) := by
  induction calls with
  | nil => intro st h; exact h
  | cons c rest ih => intro st h; exact ih (Inv.step env hfresh c h)

theorem Inv.of_reachable (env : Env) (hfresh : FreshStreams env) {st : State}
    (h : Reachable env st) : Inv st := by
  obtain ⟨calls, rfl⟩ := h
  exact Inv.run env hfresh calls Inv.init

theorem nextStream_gt (log : List Event) (song bps : Int) (r : ReadCloser)
    (h : Event.Stream song bps (some r) ∈ log) : r < nextStream log := by
  induction log with
  | nil => cases h
  | cons e rest ih =>
    rcases List.mem_cons.1 h with h | h
    · subst h
      exact Nat.lt_of_lt_of_le (Nat.lt_succ_self r) (Nat.le_max_left _ _)
    · have := ih h
      cases e with
      | Stream s b o =>
        cases o with
        | none => simpa [nextStream] using this
        | some r1 => exact Nat.lt_of_lt_of_le this (Nat.le_max_right _ _)
      | Read _ _ => simpa [nextStream] using this
      | Close _ => simpa [nextStream] using this
      | GetArtist _ => simpa [nextStream] using this
      | GetAlbum _ => simpa [nextStream] using this
      | GetArtists => simpa [nextStream] using this

/-- The sample server hands out a new stream on every `client.Stream` call. -/
theorem sampleEnv_fresh : FreshStreams sampleEnv := by
  intro log song bps r h
  rintro ⟨s, b, hmem⟩
  have hlt := nextStream_gt log s b r hmem
  by_cases hs : song < 0
  · simp [sampleEnv, hs] at h
  · simp [sampleEnv, hs] at h
    rw [h] at hlt
    exact Nat.lt_irrefl _ hlt

/-- C7. Exactly-once close as an invariant of the reachable states: when
`client.Stream` returns a new stream on every call, then after any finite
sequence of `SongFile.Read` and `SongFile.Clunk` calls served from the empty
table, no stream has been closed more than once, a stream is in the table if
and only if it was opened and has not been closed, and no stream belongs to
two sessions. -/
theorem reachable_streams_closed_once (env : Env) (hfresh : FreshStreams env)
    (calls : List Call) :
    (∀ s : ReadCloser, (run env calls State.init).log.count (Event.Close s) ≤ 1)
      ∧ (∀ s : ReadCloser,
          (∃ fid, Table.get (run env calls State.init).m fid = some s)
            ↔ (opened (run env calls State.init).log s
                ∧ Event.Close s ∉ (run env calls State.init).log))
      ∧ (∀ (fid fid1 : Fid) (s : ReadCloser),
          Table.get (run env calls State.init).m fid = some s →
          Table.get (run env calls State.init).m fid1 = some s → fid = fid1) :=
  have h := Inv.run env hfresh calls Inv.init
  ⟨h.closeOnce, h.present, h.oneSession⟩

/-- Witness of C7: the sample requests on the sample server. -/
theorem reachable_streams_closed_once_witness :
    FreshStreams sampleEnv
      ∧ (∀ s : ReadCloser, (run sampleEnv sampleCalls State.init).log.count (Event.Close s) ≤ 1)
      ∧ (∀ s : ReadCloser,
          (∃ fid, Table.get (run sampleEnv sampleCalls State.init).m fid = some s)
            ↔ (opened (run sampleEnv sampleCalls State.init).log s
                ∧ Event.Close s ∉ (run sampleEnv sampleCalls State.init).log))
      ∧ (∀ (fid fid1 : Fid) (s : ReadCloser),
          Table.get (run sampleEnv sampleCalls State.init).m fid = some s →
          Table.get (run sampleEnv sampleCalls State.init).m fid1 = some s → fid = fid1) :=
  ⟨sampleEnv_fresh, reachable_streams_closed_once sampleEnv sampleEnv_fresh sampleCalls⟩

/-! ## Sessions are independent -/

theorem SongFile.Read_newEvents_some (env : Env) (f : SongFile) (fid : Fid) (buf offset : Nat)
    (st : State) (src : ReadCloser) (h : Table.get st.m fid = some src) :
    newEvents st (SongFile.Read env f fid buf offset st).2 = [Event.Read src buf]
      ∨ newEvents st (SongFile.Read env f fid buf offset st).2
          = [Event.Read src buf, Event.Close src] := by
  rw [SongFile.Read_of_some env f fid buf offset st src h]
  rcases SongFile.readFrom_log env fid buf src st with hl | hl
  · exact Or.inl (newEvents_append st _ _ hl)
  · exact Or.inr (newEvents_append st _ _ hl)

theorem SongFile.Read_newEvents_open (env : Env) (f : SongFile) (fid : Fid) (buf : Nat)
    (st : State) (r : ReadCloser) (h : Table.get st.m fid = none)
    (hr : env.Stream st.log f.id env.maxbps = StreamResult.ok r) :
    newEvents st (SongFile.Read env f fid buf 0 st).2
        = [Event.Stream f.id env.maxbps (some r), Event.Read r buf]
      ∨ newEvents st (SongFile.Read env f fid buf 0 st).2
          = [Event.Stream f.id env.maxbps (some r), Event.Read r buf, Event.Close r] := by
  rw [SongFile.Read_open_ok env f fid buf st r h hr]
  rcases SongFile.readFrom_log env fid buf r
    { m := Table.set st.m fid r, log := st.log ++ [Event.Stream f.id env.maxbps (some r)] }
    with hl | hl
  · exact Or.inl (newEvents_append st _ _ (by rw [hl]; simp))
  · exact Or.inr (newEvents_append st _ _ (by rw [hl]; simp))

theorem SongFile.Read_newEvents_err (env : Env) (f : SongFile) (fid : Fid) (buf : Nat)
    (st : State) (e : GoError) (h : Table.get st.m fid = none)
    (hr : env.Stream st.log f.id env.maxbps = StreamResult.err e) :
    newEvents st (SongFile.Read env f fid buf 0 st).2 = [Event.Stream f.id env.maxbps none] := by
  rw [SongFile.Read_open_err env f fid buf st e h hr]
  exact newEvents_append st _ _ rfl

/-- A first read of a session makes one `client.Stream` call. -/
theorem SongFile.Read_one_stream_call (env : Env) (f : SongFile) (fid : Fid) (buf : Nat)
    (st : State) (h : Table.get st.m fid = none) :
    (newEvents st (SongFile.Read env f fid buf 0 st).2).filter Event.isStream
      = [Event.Stream f.id env.maxbps (env.Stream st.log f.id env.maxbps).toOption] := by
  rcases hr : env.Stream st.log f.id env.maxbps with e | r
  · rw [SongFile.Read_newEvents_err env f fid buf st e h hr]; rfl
  · rcases SongFile.Read_newEvents_open env f fid buf st r h hr with hl | hl <;> rw [hl] <;> rfl

/-- The streams `SongFile.Read` reads or closes: the stream the session had,
or the one this call opened for it. -/
theorem SongFile.Read_touches (env : Env) (f : SongFile) (fid : Fid) (buf offset : Nat)
    (st : State) (e : Event) (x : ReadCloser)
    (he : e ∈ newEvents st (SongFile.Read env f fid buf offset st).2)
    (hx : e = Event.Close x ∨ ∃ n, e = Event.Read x n) :
    Table.get st.m fid = some x
      ∨ (Table.get st.m fid = none ∧ env.Stream st.log f.id env.maxbps = StreamResult.ok x) := by
  rcases hget : Table.get st.m fid with _ | src
  · right
    refine ⟨rfl, ?_⟩
    rcases Nat.eq_zero_or_pos offset with h0 | hpos
    · subst h0
      rcases hr : env.Stream st.log f.id env.maxbps with err | r
      · rw [SongFile.Read_newEvents_err env f fid buf st err hget hr] at he
        rcases hx with hx | ⟨n, hx⟩ <;> subst hx <;> simp at he
      · rcases SongFile.Read_newEvents_open env f fid buf st r hget hr with hl | hl <;>
          rw [hl] at he <;> rcases hx with hx | ⟨n, hx⟩ <;> subst hx <;> simp at he <;>
          simp [he]
    · rw [SongFile.Read_off env f fid buf offset st hget hpos] at he
      simp [newEvents] at he
  · left
    rcases SongFile.Read_newEvents_some env f fid buf offset st src hget with hl | hl <;>
      rw [hl] at he <;> rcases hx with hx | ⟨n, hx⟩ <;> subst hx <;> simp at he <;>
      simp [he]

/-- `SongFile.Read` on one session leaves the entry of every other session. -/
theorem SongFile.Read_get_other (env : Env) (f : SongFile) (fid fid1 : Fid) (buf offset : Nat)
    (st : State) (hne : fid1 ≠ fid) :
    Table.get (SongFile.Read env f fid buf offset st).2.m fid1 = Table.get st.m fid1 := by
  rcases hget : Table.get st.m fid with _ | src
  · rcases Nat.eq_zero_or_pos offset with h0 | hpos
    · subst h0
      rcases hr : env.Stream st.log f.id env.maxbps with err | r
      · rw [SongFile.Read_open_err env f fid buf st err hget hr]
      · rw [SongFile.Read_open_ok env f fid buf st r hget hr]
        rcases SongFile.readFrom_m env fid buf r
          { m := Table.set st.m fid r, log := st.log ++ [Event.Stream f.id env.maxbps (some r)] }
          with hm | hm
        · rw [hm]; exact Table.get_set_ne _ _ _ _ hne
        · rw [hm, Table.get_delete_ne _ _ _ hne]; exact Table.get_set_ne _ _ _ _ hne
    · rw [SongFile.Read_off env f fid buf offset st hget hpos]
  · rw [SongFile.Read_of_some env f fid buf offset st src hget]
    rcases SongFile.readFrom_m env fid buf src st with hm | hm
    · rw [hm]
    · rw [hm, Table.get_delete_ne _ _ _ hne]

theorem SongFile.Clunk_get_other (f : SongFile) (fid fid1 : Fid) (st : State)
    (hne : fid1 ≠ fid) :
    Table.get (SongFile.Clunk f fid st).2.m fid1 = Table.get st.m fid1 := by
  rcases hget : Table.get st.m fid with _ | src
  · simp [SongFile.Clunk, hget]
  · simp [SongFile.Clunk, hget, Table.get_delete_ne _ _ _ hne]

/-- The one call `SongFile.Clunk` can make: closing the stream the session had. -/
theorem SongFile.Clunk_touches (f : SongFile) (fid : Fid) (st : State) (e : Event)
    (x : ReadCloser) (he : e ∈ newEvents st (SongFile.Clunk f fid st).2)
    (hx : e = Event.Close x ∨ ∃ n, e = Event.Read x n) :
    Table.get st.m fid = some x := by
  rcases hget : Table.get st.m fid with _ | src
  · simp [SongFile.Clunk, hget, newEvents] at he
  · simp [SongFile.Clunk, hget, newEvents] at he
    rcases hx with hx | ⟨n, hx⟩ <;> subst hx <;> simp at he
    rw [he]

/-- A stream in the table of a state satisfying the invariant is not returned
by a later `client.Stream` call. -/
theorem Inv.not_fresh {env : Env} (hfresh : FreshStreams env) {st : State} (h : Inv st)
    (fid : Fid) (x : ReadCloser) (song bps : Int) (hx : Table.get st.m fid = some x) :
    env.Stream st.log song bps ≠ StreamResult.ok x :=
  fun hr => hfresh _ _ _ _ hr ((h.present x).1 ⟨fid, hx⟩).1

/-- C8. Sessions never share stream state. In a reachable state, with
`client.Stream` returning a new stream on every call and `s`, `s1` two
different sessions: a `SongFile.Read` or `SongFile.Clunk` on `s` leaves the
table entry of `s1` as it is and neither reads nor closes the stream of `s1`;
and when neither session has a stream, two reads of the same song at offset 0,
one per session, make one `client.Stream` call each, the two streams returned
are different, and afterwards the two sessions never hold the same stream. -/
theorem sessions_do_not_share_streams (env : Env) (hfresh : FreshStreams env) (st : State)
    (hreach : Reachable env st) (s s1 : Fid) (hne : s ≠ s1) :
    (∀ c : Call, c.fid = s →
        Table.get (step env st c).m s1 = Table.get st.m s1
          ∧ ∀ src1, Table.get st.m s1 = some src1 →
              ∀ e ∈ newEvents st (step env st c),
                e ≠ Event.Close src1 ∧ ∀ n, e ≠ Event.Read src1 n)
      ∧ (∀ (f : SongFile) (buf buf1 : Nat),
          Table.get st.m s = none → Table.get st.m s1 = none →
            (newEvents st (SongFile.Read env f s buf 0 st).2).filter Event.isStream
                = [Event.Stream f.id env.maxbps (env.Stream st.log f.id env.maxbps).toOption]
              ∧ (newEvents (SongFile.Read env f s buf 0 st).2
                    (SongFile.Read env f s1 buf1 0 (SongFile.Read env f s buf 0 st).2).2).filter
                  Event.isStream
                = [Event.Stream f.id env.maxbps
                    (env.Stream (SongFile.Read env f s buf 0 st).2.log f.id env.maxbps).toOption]
              ∧ (∀ r r1, env.Stream st.log f.id env.maxbps = StreamResult.ok r →
                  env.Stream (SongFile.Read env f s buf 0 st).2.log f.id env.maxbps
                    = StreamResult.ok r1 → r ≠ r1)
              ∧ (∀ r r1,
                  Table.get (SongFile.Read env f s1 buf1 0 (SongFile.Read env f s buf 0 st).2).2.m s
                    = some r →
                  Table.get (SongFile.Read env f s1 buf1 0 (SongFile.Read env f s buf 0 st).2).2.m s1
                    = some r1 → r ≠ r1)) := by
  have hinv : Inv st := Inv.of_reachable env hfresh hreach
  have hne1 : s1 ≠ s := fun e => hne e.symm
  refine ⟨fun c hc => ?_, fun f buf buf1 hs hs1 => ?_⟩
  · cases c with
    | Read f fid buf offset =>
      have hfid : fid = s := hc
      subst hfid
      refine ⟨SongFile.Read_get_other env f fid s1 buf offset st hne1, fun src1 h1 e he => ?_⟩
      have key : ∀ x, (e = Event.Close x ∨ ∃ n, e = Event.Read x n) → x ≠ src1 := by
        intro x hx hxe
        subst hxe
        rcases SongFile.Read_touches env f fid buf offset st e x he hx with h | ⟨_, h⟩
        · exact hne (hinv.oneSession _ _ _ h h1)
        · exact Inv.not_fresh hfresh hinv s1 x _ _ h1 h
      exact ⟨fun h => key src1 (Or.inl h) rfl, fun n h => key src1 (Or.inr ⟨n, h⟩) rfl⟩
    | Clunk f fid =>
      have hfid : fid = s := hc
      subst hfid
      refine ⟨SongFile.Clunk_get_other f fid s1 st hne1, fun src1 h1 e he => ?_⟩
      have key : ∀ x, (e = Event.Close x ∨ ∃ n, e = Event.Read x n) → x ≠ src1 := by
        intro x hx hxe
        subst hxe
        exact hne (hinv.oneSession _ _ _ (SongFile.Clunk_touches f fid st e x he hx) h1)
      exact ⟨fun h => key src1 (Or.inl h) rfl, fun n h => key src1 (Or.inr ⟨n, h⟩) rfl⟩
  · have hinv1 : Inv (SongFile.Read env f s buf 0 st).2 := Inv.Read env hfresh f s buf 0 hinv
    have hinv2 : Inv (SongFile.Read env f s1 buf1 0 (SongFile.Read env f s buf 0 st).2).2 :=
      Inv.Read env hfresh f s1 buf1 0 hinv1
    have hs1' : Table.get (SongFile.Read env f s buf 0 st).2.m s1 = none := by
      rw [SongFile.Read_get_other env f s s1 buf 0 st hne1]; exact hs1
    refine ⟨SongFile.Read_one_stream_call env f s buf st hs,
      SongFile.Read_one_stream_call env f s1 buf1 _ hs1', fun r r1 hr hr1 hrr => ?_,
      fun r r1 h h1 hrr => ?_⟩
    · subst hrr
      refine hfresh _ _ _ _ hr1 ⟨f.id, env.maxbps, ?_⟩
      have hmem : Event.Stream f.id env.maxbps (some r)
          ∈ newEvents st (SongFile.Read env f s buf 0 st).2 := by
        rcases SongFile.Read_newEvents_open env f s buf st r hs hr with hl | hl <;>
          rw [hl] <;> simp
      exact List.mem_of_mem_drop hmem
    · subst hrr
      exact hne (hinv2.oneSession _ _ _ h h1)

/-- Witness of C8: in `oneStream` (session 7 streams), session 8 reads and is
closed next to session 7, and sessions 8 and 9 both start the same song. -/
theorem sessions_do_not_share_streams_witness :
    FreshStreams sampleEnv ∧ Reachable sampleEnv oneStream ∧ (8 : Fid) ≠ 7 ∧ (8 : Fid) ≠ 9
      ∧ Table.get (step sampleEnv oneStream (Call.Read bliss 8 4096 0)).m 7 = some 0
      ∧ Table.get (step sampleEnv oneStream (Call.Clunk bliss 8)).m 7 = some 0
      ∧ (∀ r r1, sampleEnv.Stream oneStream.log bliss.id sampleEnv.maxbps = StreamResult.ok r →
          sampleEnv.Stream (SongFile.Read sampleEnv bliss 8 4096 0 oneStream).2.log bliss.id
            sampleEnv.maxbps = StreamResult.ok r1 → r ≠ r1) :=
  ⟨sampleEnv_fresh, ⟨[Call.Read bliss 7 4096 0], by decide⟩, by decide, by decide,
    ((sessions_do_not_share_streams sampleEnv sampleEnv_fresh oneStream
      ⟨[Call.Read bliss 7 4096 0], by decide⟩ 8 7 (by decide)).1 (Call.Read bliss 8 4096 0)
      rfl).1,
    ((sessions_do_not_share_streams sampleEnv sampleEnv_fresh oneStream
      ⟨[Call.Read bliss 7 4096 0], by decide⟩ 8 7 (by decide)).1 (Call.Clunk bliss 8) rfl).1,
    ((sessions_do_not_share_streams sampleEnv sampleEnv_fresh oneStream
      ⟨[Call.Read bliss 7 4096 0], by decide⟩ 8 9 (by decide)).2 bliss 4096 4096
      (by decide) (by decide)).2.2.1⟩

/-! ## Lazy population of the directories -/

theorem ArtistDir.artistDir_Stat_done (env : Env) (fid : Fid) (d : ArtistDir) (log : List Event)
    (h : d.done = true) :
    ArtistDir.Stat env fid d log = { e := none, d := d, log := log } := by
  simp [ArtistDir.Stat, h]

theorem ArtistDir.artistDir_Stat_first (env : Env) (fid : Fid) (d : ArtistDir) (log : List Event)
    (h : d.done = false) :
    ArtistDir.Stat env fid d log =
      { e := (env.GetArtist log d.id).2,
        d := { d with
          children := ArtistDir.addAlbums env d.children (env.GetArtist log d.id).1,
          done := true },
        log := log ++ [Event.GetArtist d.id] } := by
  simp [ArtistDir.Stat, ArtistDir.populate, h]

theorem AlbumDir.albumDir_Stat_done (env : Env) (fid : Fid) (d : AlbumDir) (log : List Event)
    (h : d.done = true) :
    AlbumDir.Stat env fid d log = { e := none, d := d, log := log } := by
  simp [AlbumDir.Stat, h]

theorem AlbumDir.albumDir_Stat_first (env : Env) (fid : Fid) (d : AlbumDir) (log : List Event)
    (h : d.done = false) :
    AlbumDir.Stat env fid d log =
      { e := (AlbumDir.addSongs env d.children (env.GetAlbum log d.id).2
                (env.GetAlbum log d.id).1).2,
        d := { d with
          children := (AlbumDir.addSongs env d.children (env.GetAlbum log d.id).2
                        (env.GetAlbum log d.id).1).1,
          done := true },
        log := log ++ [Event.GetAlbum d.id] } := by
  simp [AlbumDir.Stat, AlbumDir.populate, h]

/-- Once the latch has fired, no sequence of `Stat` calls changes anything. -/
theorem ArtistDir.artistDir_Stats_done (env : Env) (fids : List Fid) (d : ArtistDir) (log : List Event)
    (h : d.done = true) : ArtistDir.Stats env fids d log = (d, log) := by
  induction fids with
  | nil => rfl
  | cons fid rest ih =>
    simp only [ArtistDir.Stats, List.foldl_cons] at ih ⊢
    rw [ArtistDir.artistDir_Stat_done env fid d log h]
    exact ih

theorem AlbumDir.albumDir_Stats_done (env : Env) (fids : List Fid) (d : AlbumDir) (log : List Event)
    (h : d.done = true) : AlbumDir.Stats env fids d log = (d, log) := by
  induction fids with
  | nil => rfl
  | cons fid rest ih =>
    simp only [AlbumDir.Stats, List.foldl_cons] at ih ⊢
    rw [AlbumDir.albumDir_Stat_done env fid d log h]
    exact ih

theorem ArtistDir.artistDir_Stats_cons (env : Env) (fid : Fid) (fids : List Fid) (d : ArtistDir)
    (log : List Event) :
    ArtistDir.Stats env (fid :: fids) d log
      = ArtistDir.Stats env fids (ArtistDir.Stat env fid d log).d
          (ArtistDir.Stat env fid d log).log := rfl

theorem AlbumDir.albumDir_Stats_cons (env : Env) (fid : Fid) (fids : List Fid) (d : AlbumDir)
    (log : List Event) :
    AlbumDir.Stats env (fid :: fids) d log
      = AlbumDir.Stats env fids (AlbumDir.Stat env fid d log).d
          (AlbumDir.Stat env fid d log).log := rfl

/-- C9. Lazy population fires once per directory. For an `ArtistDir` and an
`AlbumDir` whose latch has not fired and every non-empty sequence of `Stat`
calls: the first `Stat` makes the one listing call (`GetArtist`, `GetAlbum`
with the directory's id) and fires the latch whatever the listing returned;
the directory and the log after the whole sequence are those after the first
call, so the later calls make no listing call and attach nothing; and a
`Stat` on a directory whose latch has fired returns `nil` and changes
nothing. -/
theorem stat_populates_once (env : Env) (fid : Fid) (fids : List Fid) (log : List Event) :
    (∀ d : ArtistDir, d.done = false →
        (ArtistDir.Stat env fid d log).log = log ++ [Event.GetArtist d.id]
          ∧ (ArtistDir.Stat env fid d log).d.done = true
          ∧ ArtistDir.Stats env (fid :: fids) d log
              = ((ArtistDir.Stat env fid d log).d, log ++ [Event.GetArtist d.id])
          ∧ ((ArtistDir.Stats env (fid :: fids) d log).2.drop log.length).countP Event.isListing
              = 1)
      ∧ (∀ d : ArtistDir, d.done = true →
          ArtistDir.Stat env fid d log = { e := none, d := d, log := log })
      ∧ (∀ d : AlbumDir, d.done = false →
        (AlbumDir.Stat env fid d log).log = log ++ [Event.GetAlbum d.id]
          ∧ (AlbumDir.Stat env fid d log).d.done = true
          ∧ AlbumDir.Stats env (fid :: fids) d log
              = ((AlbumDir.Stat env fid d log).d, log ++ [Event.GetAlbum d.id])
          ∧ ((AlbumDir.Stats env (fid :: fids) d log).2.drop log.length).countP Event.isListing
              = 1)
      ∧ (∀ d : AlbumDir, d.done = true →
          AlbumDir.Stat env fid d log = { e := none, d := d, log := log }) := by
  refine ⟨fun d h => ?_, fun d h => ArtistDir.artistDir_Stat_done env fid d log h, fun d h => ?_,
    fun d h => AlbumDir.albumDir_Stat_done env fid d log h⟩
  · have hlog : (ArtistDir.Stat env fid d log).log = log ++ [Event.GetArtist d.id] := by
      rw [ArtistDir.artistDir_Stat_first env fid d log h]
    have hdone : (ArtistDir.Stat env fid d log).d.done = true := by
      rw [ArtistDir.artistDir_Stat_first env fid d log h]
    have hall : ArtistDir.Stats env (fid :: fids) d log
        = ((ArtistDir.Stat env fid d log).d, log ++ [Event.GetArtist d.id]) := by
      rw [ArtistDir.artistDir_Stats_cons, ArtistDir.artistDir_Stats_done env fids _ _ hdone, hlog]
    refine ⟨hlog, hdone, hall, ?_⟩
    rw [hall]
    simp [Event.isListing]
  · have hlog : (AlbumDir.Stat env fid d log).log = log ++ [Event.GetAlbum d.id] := by
      rw [AlbumDir.albumDir_Stat_first env fid d log h]
    have hdone : (AlbumDir.Stat env fid d log).d.done = true := by
      rw [AlbumDir.albumDir_Stat_first env fid d log h]
    have hall : AlbumDir.Stats env (fid :: fids) d log
        = ((AlbumDir.Stat env fid d log).d, log ++ [Event.GetAlbum d.id]) := by
      rw [AlbumDir.albumDir_Stats_cons, AlbumDir.albumDir_Stats_done env fids _ _ hdone, hlog]
    refine ⟨hlog, hdone, hall, ?_⟩
    rw [hall]
    simp [Event.isListing]

/-- Witness of C9: three `Stat` calls on an artist directory whose listing
fails and on an album directory whose listing holds one song. -/
theorem stat_populates_once_witness :
    nobody.done = false
      ∧ ArtistDir.Stats sampleEnv [7, 8, 7] nobody []
          = ((ArtistDir.Stat sampleEnv 7 nobody []).d, [] ++ [Event.GetArtist nobody.id])
      ∧ origin.done = false
      ∧ AlbumDir.Stats sampleEnv [7, 8, 7] origin []
          = ((AlbumDir.Stat sampleEnv 7 origin []).d, [] ++ [Event.GetAlbum origin.id]) :=
  ⟨rfl, ((stat_populates_once sampleEnv 7 [8, 7] []).1 nobody rfl).2.2.1, rfl,
    ((stat_populates_once sampleEnv 7 [8, 7] []).2.2.1 origin rfl).2.2.1⟩

/-! ## What `Stat` returns -/

theorem File.Add_of_not_mem {α : Type} (nameOf : α → String) (children : List α) (f : α)
    (h : nameOf f ∉ children.map nameOf) :
    File.Add nameOf children f = Except.ok (children ++ [f]) := by
  have hany : children.any (fun c => nameOf c == nameOf f) = false := by
    rw [List.any_eq_false]
    intro c hc hbeq
    exact h (List.mem_map.2 ⟨c, hc, by simpa using hbeq⟩)
  simp [File.Add, hany]

theorem AlbumDir.addSongs_cons (env : Env) (children : List SongFile) (e : Option GoError)
    (s : Song) (songs : List Song) :
    AlbumDir.addSongs env children e (s :: songs)
      = match File.Add SongFile.Name children { Name := tr env (songFileName s), id := s.Id } with
        | Except.error err => AlbumDir.addSongs env children (some err) songs
        | Except.ok ch1 => AlbumDir.addSongs env ch1 e songs := by
  simp only [AlbumDir.addSongs, List.foldl_cons]
  cases File.Add SongFile.Name children { Name := tr env (songFileName s), id := s.Id } <;> rfl

/-- When no song name collides, the loop of `AlbumDir.Stat` leaves `e` alone. -/
theorem AlbumDir.addSongs_nodup (env : Env) (songs : List Song) :
    ∀ (children : List SongFile) (e : Option GoError),
      (children.map SongFile.Name ++ songs.map (fun s => tr env (songFileName s))).Nodup →
      (AlbumDir.addSongs env children e songs).2 = e := by
  induction songs with
  | nil => intro children e _; rfl
  | cons s rest ih =>
    intro children e h
    have hnot : tr env (songFileName s) ∉ children.map SongFile.Name := by
      intro hmem
      exact (List.nodup_append.1 h).2.2 hmem (List.mem_cons_self _ _)
    rw [AlbumDir.addSongs_cons,
      File.Add_of_not_mem SongFile.Name children
        { Name := tr env (songFileName s), id := s.Id } hnot]
    refine ih _ e ?_
    simpa [List.map_append, List.append_assoc] using h

/-- On the sample server a colliding song name makes the first `Stat` of the
album directory return `Eexist`; the first of the two songs is attached. -/
theorem AlbumDir.Stat_collision_sample :
    (AlbumDir.Stat sampleEnv 7 doubles []).e = some Eexist
      ∧ (AlbumDir.Stat sampleEnv 7 doubles []).d.children
          = [{ Name := "01_one.mp3", id := 110 }] := by
  decide

/-- C10, the claim as stated fails: the first `Stat` of an artist directory
whose listing fails returns the listing's error to its caller, and so does the
first `Stat` of an album directory. -/
theorem stat_returns_fetch_error :
    (ArtistDir.Stat sampleEnv 7 nobody []).e = some (GoError.other "artist not found")
      ∧ (AlbumDir.Stat sampleEnv 7 lost []).e = some (GoError.other "album not found") := by
  decide

/-- C10 as amended. A failed listing is returned by the first `Stat` and by no
later one, and never stops the population. `ArtistDir.Stat` returns on its
first call exactly the error of `GetArtist` (`nil` when the listing succeeded,
also when an album directory could not be attached) and `nil` on every later
call. `AlbumDir.Stat` returns `nil` on every later call, on its first call the
error of `GetAlbum` when the listing failed, and `nil` when the listing
succeeded and every song file could be attached. A listing without records
leaves the children as they were, so the directory appears empty. -/
theorem stat_error_is_first_fetch_error (env : Env) (fid : Fid) (log : List Event) :
    (∀ d : ArtistDir,
        (ArtistDir.Stat env fid d log).e = if d.done then none else (env.GetArtist log d.id).2)
      ∧ (∀ d : ArtistDir, (env.GetArtist log d.id).1 = [] →
          (ArtistDir.Stat env fid d log).d.children = d.children)
      ∧ (∀ d : AlbumDir, d.done = true → (AlbumDir.Stat env fid d log).e = none)
      ∧ (∀ (d : AlbumDir) (e : GoError), d.done = false →
          env.GetAlbum log d.id = ([], some e) →
          (AlbumDir.Stat env fid d log).e = some e
            ∧ (AlbumDir.Stat env fid d log).d.children = d.children)
      ∧ (∀ (d : AlbumDir) (songs : List Song), d.done = false →
          env.GetAlbum log d.id = (songs, none) →
          (d.children.map SongFile.Name
            ++ songs.map (fun s => tr env (songFileName s))).Nodup →
          (AlbumDir.Stat env fid d log).e = none) := by
  refine ⟨fun d => ?_, fun d h => ?_, fun d h => ?_, fun d e h hget => ?_,
    fun d songs h hget hnodup => ?_⟩
  · cases hd : d.done
    · rw [ArtistDir.artistDir_Stat_first env fid d log hd]; simp
    · rw [ArtistDir.artistDir_Stat_done env fid d log hd]; simp
  · cases hd : d.done
    · rw [ArtistDir.artistDir_Stat_first env fid d log hd, h]; rfl
    · rw [ArtistDir.artistDir_Stat_done env fid d log hd]
  · rw [AlbumDir.albumDir_Stat_done env fid d log h]
  · rw [AlbumDir.albumDir_Stat_first env fid d log h, hget]
    exact ⟨rfl, rfl⟩
  · rw [AlbumDir.albumDir_Stat_first env fid d log h, hget]
    exact AlbumDir.addSongs_nodup env songs d.children none hnodup

/-- Witness of C10 as amended, on the sample server: the failing listings of
artist 3 and album 12, and the listing of album 10 with its one song. -/
theorem stat_error_is_first_fetch_error_witness :
    (ArtistDir.Stat sampleEnv 7 nobody []).e
        = (if nobody.done then none else (sampleEnv.GetArtist [] nobody.id).2)
      ∧ lost.done = false
      ∧ sampleEnv.GetAlbum [] lost.id = ([], some (GoError.other "album not found"))
      ∧ (AlbumDir.Stat sampleEnv 7 lost []).e = some (GoError.other "album not found")
      ∧ origin.done = false
      ∧ sampleEnv.GetAlbum [] origin.id
          = ([{ Id := 100, Name := "Bliss", Number := 4, Suffix := "mp3" }], none)
      ∧ (origin.children.map SongFile.Name
          ++ [{ Id := 100, Name := "Bliss", Number := 4, Suffix := "mp3" }].map
              (fun s => tr sampleEnv (songFileName s))).Nodup
      ∧ (AlbumDir.Stat sampleEnv 7 origin []).e = none :=
  ⟨(stat_error_is_first_fetch_error sampleEnv 7 []).1 nobody, rfl, by decide,
    ((stat_error_is_first_fetch_error sampleEnv 7 []).2.2.2.1 lost
      (GoError.other "album not found") rfl (by decide)).1,
    rfl, by decide, by decide,
    (stat_error_is_first_fetch_error sampleEnv 7 []).2.2.2.2 origin
      [{ Id := 100, Name := "Bliss", Number := 4, Suffix := "mp3" }] rfl (by decide)
      (by decide)⟩

/-! ## The control file: `Ctl.Write` -/

/-- The steps of `Ctl.Write`: for every byte sequence and every offset the
first step sets the results to `(len(data), nil)`; `os.Exit(0)` is a step if
and only if the payload is the bytes of `"close"`, and then the one step after
the results are set; for every other payload setting the results is the only
step. -/
theorem ctl_write_accepts_every_payload (fid : Fid) (data : List UInt8) (offset : Nat) :
    (Ctl.Write fid data offset).head? = some (CtlStep.result data.length none)
      ∧ ((∃ code, CtlStep.exit code ∈ Ctl.Write fid data offset) ↔ data = closeCmd)
      ∧ (data = closeCmd →
          Ctl.Write fid data offset = [CtlStep.result data.length none, CtlStep.exit 0])
      ∧ (data ≠ closeCmd → Ctl.Write fid data offset = [CtlStep.result data.length none]) := by
  by_cases h : data = closeCmd
  · refine ⟨by simp [Ctl.Write], ?_, fun _ => by simp [Ctl.Write, h], fun hne => absurd h hne⟩
    exact ⟨fun _ => h, fun _ => ⟨0, by simp [Ctl.Write, h]⟩⟩
  · refine ⟨by simp [Ctl.Write], ?_, fun he => absurd he h, fun _ => by simp [Ctl.Write, h]⟩
    constructor
    · rintro ⟨code, hmem⟩
      simp [Ctl.Write, h] at hmem
    · intro he
      exact absurd he h

/-- The steps of `Ctl.Write` on the payloads `"close"` and `"c"`. -/
theorem ctl_write_accepts_every_payload_witness :
    Ctl.Write 7 closeCmd 0 = [CtlStep.result 5 none, CtlStep.exit 0]
      ∧ ([99] : List UInt8) ≠ closeCmd
      ∧ Ctl.Write 7 [99] 3 = [CtlStep.result 1 none] :=
  ⟨(ctl_write_accepts_every_payload 7 closeCmd 0).2.2.1 rfl, by decide,
    (ctl_write_accepts_every_payload 7 [99] 3).2.2.2 (by decide)⟩

/-- What the caller of `Ctl.Write` is handed: `(len(data), nil)` for every
payload but the bytes of `"close"`, and nothing for those. -/
theorem ctl_write_handed (fid : Fid) (data : List UInt8) (offset : Nat) :
    CtlStep.handed (Ctl.Write fid data offset) none
      = if data = closeCmd then none else some ((data.length : Int), none) := by
  by_cases h : data = closeCmd
  · simp [Ctl.Write, h, CtlStep.handed]
  · simp [Ctl.Write, h, CtlStep.handed]

/-- C16, the code at the failing input: the payload `"close"`. `Ctl.Write`
sets its results to `(5, nil)` and then the deferred `os.Exit(0)` runs, inside
the call: the process ends and the call never returns, so its caller is not
handed `(len(data), nil)`. Another payload of one byte is handed `(1, nil)`. -/
theorem ctl_write_close_never_returns :
    Ctl.Write 7 closeCmd 0 = [CtlStep.result 5 none, CtlStep.exit 0]
      ∧ CtlStep.handed (Ctl.Write 7 closeCmd 0) none = none
      ∧ CtlStep.handed (Ctl.Write 7 [99] 0) none = some (1, none) := by
  decide

/-! ## Name collisions: the first node of a name stays -/

theorem File.Add_of_mem {α : Type} (nameOf : α → String) (children : List α) (f : α)
    (h : nameOf f ∈ children.map nameOf) :
    File.Add nameOf children f = Except.error Eexist := by
  have hany : children.any (fun c => nameOf c == nameOf f) = true := by
    rw [List.any_eq_true]
    obtain ⟨c, hc, hname⟩ := List.mem_map.1 h
    exact ⟨c, hc, by simp [hname]⟩
  simp [File.Add, hany]

theorem attachOrSkip_of_mem {α : Type} (nameOf : α → String) (children : List α) (f : α)
    (h : nameOf f ∈ children.map nameOf) : attachOrSkip nameOf children f = children := by
  simp [attachOrSkip, File.Add_of_mem nameOf children f h]

theorem attachOrSkip_of_not_mem {α : Type} (nameOf : α → String) (children : List α) (f : α)
    (h : nameOf f ∉ children.map nameOf) :
    attachOrSkip nameOf children f = children ++ [f] := by
  simp [attachOrSkip, File.Add_of_not_mem nameOf children f h]

/-- A loop that attaches nodes one by one appends to the directory the nodes
of new names, the first of each name. -/
theorem foldl_attachOrSkip {α : Type} (nameOf : α → String) (items : List α) :
    ∀ children : List α,
      items.foldl (attachOrSkip nameOf) children
        = children ++ keepFirst nameOf (children.map nameOf) items := by
  induction items with
  | nil => intro children; simp [keepFirst]
  | cons x rest ih =>
    intro children
    rw [List.foldl_cons]
    by_cases h : nameOf x ∈ children.map nameOf
    · rw [attachOrSkip_of_mem nameOf children x h, ih children]
      simp [keepFirst, h]
    · rw [attachOrSkip_of_not_mem nameOf children x h, ih (children ++ [x])]
      simp [keepFirst, h]

theorem keepFirst_sublist {α : Type} (nameOf : α → String) (xs : List α) :
    ∀ seen : List String, (keepFirst nameOf seen xs).Sublist xs := by
  induction xs with
  | nil => intro seen; simp [keepFirst]
  | cons x rest ih =>
    intro seen
    by_cases h : nameOf x ∈ seen
    · simp only [keepFirst, h, if_true]
      exact (ih seen).cons x
    · simp only [keepFirst, h, if_false]
      exact (ih _).cons₂ x

theorem keepFirst_nodup {α : Type} (nameOf : α → String) (xs : List α) :
    ∀ seen : List String, seen.Nodup →
      (seen ++ (keepFirst nameOf seen xs).map nameOf).Nodup := by
  induction xs with
  | nil => intro seen hs; simpa [keepFirst] using hs
  | cons x rest ih =>
    intro seen hs
    by_cases h : nameOf x ∈ seen
    · simp only [keepFirst, h, if_true]
      exact ih seen hs
    · simp only [keepFirst, h, if_false]
      have hs1 : (seen ++ [nameOf x]).Nodup := by
        rw [List.nodup_append]
        refine ⟨hs, List.nodup_singleton _, ?_⟩
        intro a ha hb
        rw [List.mem_singleton] at hb
        exact h (hb ▸ ha)
      have := ih (seen ++ [nameOf x]) hs1
      simpa [List.append_assoc] using this

/-- The node of a new name that stays is the first node of that name. -/
theorem keepFirst_find {α : Type} (nameOf : α → String) (n : String) (xs : List α) :
    ∀ seen : List String, n ∉ seen →
      (keepFirst nameOf seen xs).find? (fun y => nameOf y == n)
        = xs.find? (fun y => nameOf y == n) := by
  induction xs with
  | nil => intro seen _; simp [keepFirst]
  | cons x rest ih =>
    intro seen hn
    by_cases h : nameOf x ∈ seen
    · have hx : ¬ nameOf x = n := fun e => hn (e ▸ h)
      simp only [keepFirst, h, if_true]
      rw [ih seen hn]
      simp [List.find?_cons, hx]
    · simp only [keepFirst, h, if_false]
      by_cases hx : nameOf x = n
      · simp [List.find?_cons, hx]
      · have hn1 : n ∉ seen ++ [nameOf x] := by
          intro hmem
          rcases List.mem_append.1 hmem with hmem | hmem
          · exact hn hmem
          · exact hx (List.mem_singleton.1 hmem).symm
        have hb : (nameOf x == n) = false := by simp [hx]
        simp only [List.find?_cons, hb]
        exact ih _ hn1

theorem find?_map_name {α β : Type} (nameOf : α → String) (mk : β → α) (n : String)
    (xs : List β) :
    (xs.map mk).find? (fun y => nameOf y == n)
      = (xs.find? (fun x => nameOf (mk x) == n)).map mk := by
  induction xs with
  | nil => rfl
  | cons x rest ih =>
    by_cases hx : nameOf (mk x) = n
    · simp [List.find?_cons, hx]
    · have hb : (nameOf (mk x) == n) = false := by simp [hx]
      simp only [List.map_cons, List.find?_cons, hb]
      exact ih

/-- Searching the nodes of one bucket finds what searching all nodes finds,
when every node searched for is in the bucket. -/
theorem find?_filter_of_imp {β : Type} (p q : β → Bool) (xs : List β)
    (h : ∀ x, q x = true → p x = true) :
    (xs.filter p).find? q = xs.find? q := by
  induction xs with
  | nil => rfl
  | cons x rest ih =>
    by_cases hq : q x = true
    · simp [List.filter_cons, List.find?_cons, h x hq, hq]
    · have hq' : q x = false := by simpa using hq
      by_cases hp : p x = true
      · simp [List.filter_cons, List.find?_cons, hp, hq', ih]
      · have hp' : p x = false := by simpa using hp
        simp [List.filter_cons, List.find?_cons, hp', hq', ih]

theorem ArtistDir.addAlbums_eq (env : Env) (albums : List Album) :
    ∀ children : List AlbumDir,
      ArtistDir.addAlbums env children albums
        = children ++ keepFirst AlbumDir.Name (children.map AlbumDir.Name)
            (albums.map (Album.dir env)) := by
  induction albums with
  | nil => intro children; simp [ArtistDir.addAlbums, keepFirst]
  | cons a rest ih =>
    intro children
    have hstep : ArtistDir.addAlbums env children (a :: rest)
        = ArtistDir.addAlbums env (attachOrSkip AlbumDir.Name children (Album.dir env a))
            rest := by
      simp only [ArtistDir.addAlbums, List.foldl_cons, attachOrSkip, Album.dir]
      cases File.Add AlbumDir.Name children
        { Name := tr env a.Name, id := a.Id, done := false, children := [] } <;> rfl
    rw [hstep, ih, ← foldl_attachOrSkip, ← foldl_attachOrSkip, List.map_cons, List.foldl_cons]

theorem AlbumDir.addSongs_fst (env : Env) (songs : List Song) :
    ∀ (children : List SongFile) (e : Option GoError),
      (AlbumDir.addSongs env children e songs).1
        = children ++ keepFirst SongFile.Name (children.map SongFile.Name)
            (songs.map (Song.file env)) := by
  induction songs with
  | nil => intro children e; simp [AlbumDir.addSongs, keepFirst]
  | cons s rest ih =>
    intro children e
    rw [AlbumDir.addSongs_cons]
    by_cases h : (Song.file env s).Name ∈ children.map SongFile.Name
    · have hadd := File.Add_of_mem SongFile.Name children (Song.file env s) h
      simp only [Song.file] at hadd h
      rw [hadd]
      simp only [List.map_cons, keepFirst, Song.file, h, if_true]
      exact ih children (some Eexist)
    · have hadd := File.Add_of_not_mem SongFile.Name children (Song.file env s) h
      simp only [Song.file] at hadd h
      rw [hadd]
      simp only [List.map_cons, keepFirst, Song.file, h, if_false]
      rw [ih]
      simp [Song.file]

/-! ## `buildFs`: what is under each child of the root -/

theorem File.Find_cons {α : Type} (nameOf : α → String) (c : α) (rest : List α)
    (name : String) :
    File.Find nameOf (c :: rest) name
      = if nameOf c = name then some c else File.Find nameOf rest name := by
  by_cases h : nameOf c = name <;> simp [File.Find, List.find?_cons, h]

theorem File.Find_eq_none {α : Type} (nameOf : α → String) (children : List α)
    (name : String) :
    File.Find nameOf children name = none ↔ name ∉ children.map nameOf := by
  induction children with
  | nil => simp [File.Find]
  | cons c rest ih =>
    rw [File.Find_cons]
    by_cases h : nameOf c = name
    · simp [h]
    · have h' : ¬ name = nameOf c := fun e => h e.symm
      simp [h, h', ih]

theorem childrenAt_cons (e : RootEntry) (rest : List RootEntry) (key : String) :
    childrenAt (e :: rest) key = if e.Name = key then e.children else childrenAt rest key := by
  simp only [childrenAt, File.Find_cons]
  by_cases h : e.Name = key <;> simp [h]

theorem childrenAt_of_not_mem (root : List RootEntry) (key : String)
    (h : key ∉ root.map RootEntry.Name) : childrenAt root key = [] := by
  simp [childrenAt, (File.Find_eq_none RootEntry.Name root key).2 h]

theorem childrenAt_append_new (root : List RootEntry) (letter key : String)
    (h : letter ∉ root.map RootEntry.Name) :
    childrenAt (root ++ [{ Name := letter, isCtl := false, children := [] }]) key
      = childrenAt root key := by
  induction root with
  | nil =>
    simp only [List.nil_append, childrenAt_cons]
    by_cases hk : letter = key <;> simp [hk, childrenAt, File.Find]
  | cons e rest ih =>
    have hrest : letter ∉ rest.map RootEntry.Name := fun hm =>
      h (by simp only [List.map_cons]; exact List.mem_cons_of_mem _ hm)
    simp only [List.cons_append, childrenAt_cons, ih hrest]

theorem attachArtist_head (letter : String) (dir : ArtistDir) (e : RootEntry)
    (rest : List RootEntry) (h : e.Name = letter) :
    attachArtist letter dir (e :: rest)
      = { e with children := attachOrSkip ArtistDir.Name e.children dir } :: rest := by
  obtain ⟨n, c, ch⟩ := e
  simp only at h
  subst h
  simp only [attachArtist, if_true, attachOrSkip]
  cases File.Add ArtistDir.Name ch dir <;> rfl

theorem attachArtist_tail (letter : String) (dir : ArtistDir) (e : RootEntry)
    (rest : List RootEntry) (h : ¬ e.Name = letter) :
    attachArtist letter dir (e :: rest) = e :: attachArtist letter dir rest := by
  simp [attachArtist, h]

/-- Attaching an artist directory changes the children of the root child
named `letter`, and of no other. -/
theorem childrenAt_attachArtist (letter : String) (dir : ArtistDir) (key : String) :
    ∀ root : List RootEntry, letter ∈ root.map RootEntry.Name →
      childrenAt (attachArtist letter dir root) key
        = if key = letter then attachOrSkip ArtistDir.Name (childrenAt root letter) dir
          else childrenAt root key := by
  intro root
  induction root with
  | nil => intro h; simp at h
  | cons e rest ih =>
    intro hmem
    by_cases he : e.Name = letter
    · rw [attachArtist_head letter dir e rest he]
      by_cases hk : key = letter
      · subst hk
        simp [childrenAt_cons, he]
      · have hk' : ¬ letter = key := fun e => hk e.symm
        simp [childrenAt_cons, he, hk, hk']
    · have hrest : letter ∈ rest.map RootEntry.Name := by
        simp only [List.map_cons, List.mem_cons] at hmem
        rcases hmem with hmem | hmem
        · exact absurd hmem.symm he
        · exact hmem
      rw [attachArtist_tail letter dir e rest he]
      by_cases hk : key = letter
      · subst hk
        simp [childrenAt_cons, ih hrest, he]
      · simp [childrenAt_cons, ih hrest, hk]

theorem attachArtist_names (letter : String) (dir : ArtistDir) :
    ∀ root : List RootEntry,
      (attachArtist letter dir root).map RootEntry.Name = root.map RootEntry.Name := by
  intro root
  induction root with
  | nil => rfl
  | cons e rest ih =>
    by_cases he : e.Name = letter
    · rw [attachArtist_head letter dir e rest he]; rfl
    · rw [attachArtist_tail letter dir e rest he]
      simp only [List.map_cons, ih]

/-- One turn of the loop of `buildFs` that does not panic: the artist goes
under the root child named by its index letter. -/
theorem buildFs.addArtist_childrenAt (env : Env) (root root1 : List RootEntry) (a : Artist)
    (h : buildFs.addArtist env root a = some root1) :
    ∃ letter, indexLetter (tr env a.Name) = some letter
      ∧ ∀ key, childrenAt root1 key
          = if key = letter
            then attachOrSkip ArtistDir.Name (childrenAt root letter) (Artist.dir env a)
            else childrenAt root key := by
  unfold buildFs.addArtist at h
  rcases hl : indexLetter (tr env a.Name) with _ | letter
  · simp [hl] at h
  · refine ⟨letter, rfl, fun key => ?_⟩
    simp only [hl] at h
    rcases hf : File.Find RootEntry.Name root letter with _ | e
    · have hnot : letter ∉ root.map RootEntry.Name :=
        (File.Find_eq_none RootEntry.Name root letter).1 hf
      have hadd := File.Add_of_not_mem RootEntry.Name root
        { Name := letter, isCtl := false, children := [] } hnot
      simp only [hf, hadd, Option.some.injEq] at h
      subst h
      rw [childrenAt_attachArtist letter _ key _ (by simp)]
      simp only [childrenAt_append_new root letter _ hnot]
      rfl
    · have hmem : letter ∈ root.map RootEntry.Name := by
        by_contra hnot
        rw [(File.Find_eq_none RootEntry.Name root letter).2 hnot] at hf
        cases hf
      simp only [hf, Option.some.injEq] at h
      subst h
      rw [childrenAt_attachArtist letter _ key root hmem]
      rfl

/-- After the loop of `buildFs`, under the root child named `key` are its
former children and then, attached one by one, the directories of the artists
whose index letter is `key`. -/
theorem buildFs.loop_childrenAt (env : Env) (key : String) (artists : List Artist) :
    ∀ root root1 : List RootEntry, buildFs.loop env root artists = some root1 →
      childrenAt root1 key
        = ((artists.filter (fun a => indexLetter (tr env a.Name) == some key)).map
              (Artist.dir env)).foldl (attachOrSkip ArtistDir.Name) (childrenAt root key) := by
  induction artists with
  | nil =>
    intro root root1 h
    simp only [buildFs.loop, Option.some.injEq] at h
    subst h
    rfl
  | cons a rest ih =>
    intro root root1 h
    simp only [buildFs.loop] at h
    rcases hstep : buildFs.addArtist env root a with _ | root2
    · simp [hstep] at h
    · simp only [hstep] at h
      obtain ⟨letter, hl, hkey⟩ := buildFs.addArtist_childrenAt env root root2 a hstep
      rw [ih root2 root1 h, hkey key]
      by_cases hk : key = letter
      · subst hk
        simp [List.filter_cons, hl]
      · have hne : ¬ letter = key := fun e => hk e.symm
        simp [List.filter_cons, hl, hk, hne]

/-! ## Sanitized names -/

theorem sreplChar_mem (pairs : List (Char × String)) (c x : Char)
    (h : x ∈ sreplChar pairs c) :
    (x = c ∧ c ∉ pairs.map (fun p => p.1)) ∨ ∃ p ∈ pairs, x ∈ p.2.data := by
  induction pairs with
  | nil =>
    left
    simp only [sreplChar, List.mem_singleton] at h
    exact ⟨h, by simp⟩
  | cons p rest ih =>
    obtain ⟨old, new⟩ := p
    simp only [sreplChar] at h
    by_cases hc : c = old
    · rw [if_pos hc] at h
      exact Or.inr ⟨(old, new), List.mem_cons_self _ _, h⟩
    · rw [if_neg hc] at h
      rcases ih h with ⟨hx, hnot⟩ | ⟨q, hq, hxq⟩
      · left
        refine ⟨hx, ?_⟩
        simp only [List.map_cons, List.mem_cons, not_or]
        exact ⟨hc, hnot⟩
      · exact Or.inr ⟨q, List.mem_cons_of_mem _ hq, hxq⟩

theorem sreplChar_ne_nil (pairs : List (Char × String)) (c : Char)
    (h : ∀ p ∈ pairs, p.2.data ≠ []) : sreplChar pairs c ≠ [] := by
  induction pairs with
  | nil => simp [sreplChar]
  | cons p rest ih =>
    obtain ⟨old, new⟩ := p
    simp only [sreplChar]
    by_cases hc : c = old
    · rw [if_pos hc]; exact h (old, new) (List.mem_cons_self _ _)
    · rw [if_neg hc]; exact ih (fun q hq => h q (List.mem_cons_of_mem _ hq))

/-- A character written by `srepl` is a character of the input that is not
replaced, or one of the characters of the new strings. -/
theorem sreplChar_sreplPairs (c x : Char) (h : x ∈ sreplChar sreplPairs c) :
    (x = c ∧ c ∉ sreplOld) ∨ x ∈ sreplNew := by
  rcases sreplChar_mem sreplPairs c x h with h1 | ⟨p, hp, hx⟩
  · exact Or.inl h1
  · right
    have hall : ∀ p ∈ sreplPairs, ∀ x ∈ p.2.data, x ∈ sreplNew := by decide
    exact hall p hp x hx

theorem tr_data (env : Env) (s : String) :
    (tr env s).data
      = (s.data.map (fun c => if c.toNat < 128 then c.toLower else env.unicodeToLower c)).flatMap
          (sreplChar sreplPairs) := rfl

/-- A sanitized name is empty only when the name is. -/
theorem tr_eq_empty (env : Env) (s : String) : tr env s = "" ↔ s = "" := by
  have hne : ∀ c, sreplChar sreplPairs c ≠ [] := fun c =>
    sreplChar_ne_nil sreplPairs c (by decide)
  constructor
  · intro h
    have hd : (tr env s).data = [] := by rw [h]
    rw [tr_data] at hd
    rcases hs : s.data with _ | ⟨c, rest⟩
    · exact String.ext hs
    · rw [hs] at hd
      simp only [List.map_cons, List.flatMap_cons, List.append_eq_nil] at hd
      exact absurd hd.1 (hne _)
  · intro h
    subst h
    rfl

theorem toLower_not_upper (c : Char) : ¬ isUpperAscii c.toLower := by
  unfold isUpperAscii Char.toLower
  by_cases h : c.toNat ≥ 65 ∧ c.toNat ≤ 90
  · simp only [h, and_self, if_true]
    obtain ⟨h1, h2⟩ := h
    generalize c.toNat = n at h1 h2
    interval_cases n <;> decide
  · simp only [h, if_false]
    exact not_false

/-! ## Index letters and the children of the root -/

theorem indexLetter_eq_none (name : String) : indexLetter name = none ↔ name = "" := by
  unfold indexLetter
  rcases h : name.data with _ | ⟨r, rest⟩
  · simp only [true_iff]
    exact String.ext h
  · have hne : name ≠ "" := by
      intro e
      rw [e] at h
      cases h
    by_cases hr : r < 'a' ∨ r > 'z' <;> simp [hr, hne]

/-- The index letter of a name that has a first character `c`: `c` itself
when it is in `a`-`z`, else the catch-all. -/
theorem indexLetter_cons (name : String) (c : Char) (rest : List Char)
    (h : name.data = c :: rest) :
    indexLetter name = some (if 'a' ≤ c ∧ c ≤ 'z' then String.singleton c else "@") := by
  unfold indexLetter
  rw [h]
  by_cases hr : c < 'a' ∨ c > 'z'
  · have hnot : ¬ ('a' ≤ c ∧ c ≤ 'z') := by
      rintro ⟨h1, h2⟩
      rcases hr with hr | hr
      · exact absurd h1 (not_le.2 hr)
      · exact absurd h2 (not_le.2 hr)
    simp [hr, hnot]
  · have hin : 'a' ≤ c ∧ c ≤ 'z' := by
      rw [not_or] at hr
      exact ⟨not_lt.1 hr.1, not_lt.1 hr.2⟩
    simp [hr, hin]

theorem indexLetter_isBucketKey (name key : String) (h : indexLetter name = some key) :
    IsBucketKey key := by
  rcases hd : name.data with _ | ⟨c, rest⟩
  · have : indexLetter name = none := (indexLetter_eq_none name).2 (String.ext hd)
    rw [this] at h
    cases h
  · rw [indexLetter_cons name c rest hd] at h
    by_cases hin : 'a' ≤ c ∧ c ≤ 'z'
    · rw [if_pos hin] at h
      exact Or.inr ⟨c, hin.1, hin.2, (Option.some.inj h).symm⟩
    · rw [if_neg hin] at h
      exact Or.inl (Option.some.inj h).symm

theorem IsBucketKey.ne_ctl {key : String} (h : IsBucketKey key) : key ≠ "ctl" := by
  rcases h with h | ⟨c, _, _, h⟩
  · rw [h]; decide
  · rw [h]
    intro e
    have := congrArg String.length e
    simp [String.singleton, String.length] at this

/-- A name whose index letter is the letter `c` of `a`-`z` starts with `c`. -/
theorem indexLetter_singleton (name : String) (c : Char) (hc : 'a' ≤ c ∧ c ≤ 'z')
    (h : indexLetter name = some (String.singleton c)) : name.data.head? = some c := by
  rcases hd : name.data with _ | ⟨r, rest⟩
  · have : indexLetter name = none := (indexLetter_eq_none name).2 (String.ext hd)
    rw [this] at h
    cases h
  · rw [indexLetter_cons name r rest hd] at h
    by_cases hin : 'a' ≤ r ∧ r ≤ 'z'
    · rw [if_pos hin] at h
      have e : String.singleton r = String.singleton c := Option.some.inj h
      have e1 : (String.singleton r).data = (String.singleton c).data := by rw [e]
      simp only [String.singleton, String.data_push] at e1
      simp only [List.head?_cons]
      have e2 : r = c := by simpa using e1
      rw [e2]
    · rw [if_neg hin] at h
      have e : "@" = String.singleton c := Option.some.inj h
      have e1 : ("@" : String).data = (String.singleton c).data := by rw [e]
      have e2 : c = '@' := by
        simp only [String.singleton, String.data_push] at e1
        simpa using e1.symm
      rw [e2] at hc
      exact absurd hc (by decide)

theorem attachOrSkip_mem {α : Type} (nameOf : α → String) (children : List α) (f x : α)
    (h : x ∈ attachOrSkip nameOf children f) : x ∈ children ∨ x = f := by
  by_cases hm : nameOf f ∈ children.map nameOf
  · rw [attachOrSkip_of_mem nameOf children f hm] at h
    exact Or.inl h
  · rw [attachOrSkip_of_not_mem nameOf children f hm] at h
    rcases List.mem_append.1 h with h | h
    · exact Or.inl h
    · exact Or.inr (List.mem_singleton.1 h)

theorem attachArtist_mem (letter : String) (dir : ArtistDir) (e1 : RootEntry) :
    ∀ root : List RootEntry, e1 ∈ attachArtist letter dir root →
      e1 ∈ root ∨ ∃ e ∈ root, e.Name = letter
        ∧ e1 = { e with children := attachOrSkip ArtistDir.Name e.children dir } := by
  intro root
  induction root with
  | nil => intro h; simp [attachArtist] at h
  | cons e rest ih =>
    intro h
    by_cases he : e.Name = letter
    · rw [attachArtist_head letter dir e rest he] at h
      rcases List.mem_cons.1 h with h | h
      · exact Or.inr ⟨e, List.mem_cons_self _ _, he, h⟩
      · exact Or.inl (List.mem_cons_of_mem _ h)
    · rw [attachArtist_tail letter dir e rest he] at h
      rcases List.mem_cons.1 h with h | h
      · exact Or.inl (h ▸ List.mem_cons_self _ _)
      · rcases ih h with h1 | ⟨e0, h0, hn, heq⟩
        · exact Or.inl (List.mem_cons_of_mem _ h1)
        · exact Or.inr ⟨e0, List.mem_cons_of_mem _ h0, hn, heq⟩

theorem RootInv.ctlOnly (env : Env) (artists : List Artist) : RootInv env artists [ctlEntry] where
  names := by simp
  entries := fun e he => Or.inl (List.mem_singleton.1 he)

theorem RootInv.attach {env : Env} {artists : List Artist} {root : List RootEntry}
    (h : RootInv env artists root) (a : Artist) (ha : a ∈ artists) (letter : String)
    (hl : indexLetter (tr env a.Name) = some letter) :
    RootInv env artists (attachArtist letter (Artist.dir env a) root) where
  names := by rw [attachArtist_names]; exact h.names
  entries := fun e1 he1 => by
    rcases attachArtist_mem letter (Artist.dir env a) e1 root he1 with hin | ⟨e, he, hn, heq⟩
    · exact h.entries e1 hin
    · rcases h.entries e he with hctl | ⟨hc, hk, hch⟩
      · exfalso
        rw [hctl] at hn
        exact (indexLetter_isBucketKey _ _ hl).ne_ctl hn.symm
      · right
        subst heq
        refine ⟨hc, hk, fun d hd => ?_⟩
        rcases attachOrSkip_mem ArtistDir.Name e.children (Artist.dir env a) d hd with hd | hd
        · exact hch d hd
        · subst hd
          exact ⟨a, ha, rfl, by rw [hn]; exact hl⟩

theorem RootInv.addArtist {env : Env} {artists : List Artist} {root root1 : List RootEntry}
    (h : RootInv env artists root) (a : Artist) (ha : a ∈ artists)
    (hstep : buildFs.addArtist env root a = some root1) : RootInv env artists root1 := by
  unfold buildFs.addArtist at hstep
  rcases hl : indexLetter (tr env a.Name) with _ | letter
  · simp [hl] at hstep
  · simp only [hl] at hstep
    rcases hf : File.Find RootEntry.Name root letter with _ | e
    · have hnot : letter ∉ root.map RootEntry.Name :=
        (File.Find_eq_none RootEntry.Name root letter).1 hf
      have hadd := File.Add_of_not_mem RootEntry.Name root
        { Name := letter, isCtl := false, children := [] } hnot
      simp only [hf, hadd, Option.some.injEq] at hstep
      subst hstep
      have h1 : RootInv env artists
          (root ++ [{ Name := letter, isCtl := false, children := [] }]) :=
        { names := by
            rw [List.map_append, List.nodup_append]
            refine ⟨h.names, by simp, ?_⟩
            intro x hx hy
            simp only [List.map_cons, List.map_nil, List.mem_singleton] at hy
            exact hnot (hy ▸ hx)
          entries := fun e1 he1 => by
            rcases List.mem_append.1 he1 with he1 | he1
            · exact h.entries e1 he1
            · right
              rw [List.mem_singleton.1 he1]
              exact ⟨rfl, indexLetter_isBucketKey _ _ hl, fun d hd => by simp at hd⟩ }
      exact h1.attach a ha letter hl
    · simp only [hf, Option.some.injEq] at hstep
      subst hstep
      exact h.attach a ha letter hl

theorem RootInv.loop {env : Env} {artists : List Artist} (todo : List Artist) :
    ∀ {root root1 : List RootEntry}, RootInv env artists root → (∀ a ∈ todo, a ∈ artists) →
      buildFs.loop env root todo = some root1 → RootInv env artists root1 := by
  induction todo with
  | nil =>
    intro root root1 h _ hl
    simp only [buildFs.loop, Option.some.injEq] at hl
    exact hl ▸ h
  | cons a rest ih =>
    intro root root1 h hsub hl
    simp only [buildFs.loop] at hl
    rcases hstep : buildFs.addArtist env root a with _ | root2
    · simp [hstep] at hl
    · simp only [hstep] at hl
      exact ih (h.addArtist a (hsub a (List.mem_cons_self _ _)) hstep)
        (fun b hb => hsub b (List.mem_cons_of_mem _ hb)) hl

/-- When `buildFs` returns a tree, the loop went through the listed artists. -/
theorem buildFs_ok (env : Env) (log : List Event) (root : List RootEntry)
    (h : (buildFs env log).1 = BuildResult.ok root) :
    buildFs.loop env [ctlEntry] (env.GetArtists log).1 = some root := by
  have hadd : File.Add RootEntry.Name [] ctlEntry = Except.ok [ctlEntry] := rfl
  unfold buildFs at h
  simp only [ctlEntry] at hadd
  simp only [hadd] at h
  rcases he : (env.GetArtists log).2 with _ | e
  · simp only [he] at h
    rcases hloop : buildFs.loop env [{ Name := "ctl", isCtl := true, children := [] }]
      (env.GetArtists log).1 with _ | root1
    · simp [hloop] at h
    · simp only [hloop, BuildResult.ok.injEq] at h
      rw [← h]
      exact hloop
  · simp [he] at h

theorem RootInv.of_buildFs (env : Env) (log : List Event) (root : List RootEntry)
    (h : (buildFs env log).1 = BuildResult.ok root) :
    RootInv env (env.GetArtists log).1 root :=
  (RootInv.ctlOnly env _).loop _ (fun _ ha => ha) (buildFs_ok env log root h)

/-! ## The population steps keep the first record of each name -/

/-- The children a first `ArtistDir.Stat` gives a directory without children:
their names are pairwise distinct, the child of a name is the directory of
the first album of the listing with that sanitized name, and the children are
directories of albums of the listing, in its order. -/
theorem ArtistDir.Stat_keeps_first (env : Env) (fid : Fid) (d : ArtistDir) (log : List Event)
    (hdone : d.done = false) (hch : d.children = []) :
    ((ArtistDir.Stat env fid d log).d.children.map AlbumDir.Name).Nodup
      ∧ (∀ n : String,
          (ArtistDir.Stat env fid d log).d.children.find? (fun c => c.Name == n)
            = ((env.GetArtist log d.id).1.find? (fun a => tr env a.Name == n)).map
                (Album.dir env))
      ∧ ((ArtistDir.Stat env fid d log).d.children).Sublist
          ((env.GetArtist log d.id).1.map (Album.dir env)) := by
  have hc : (ArtistDir.Stat env fid d log).d.children
      = keepFirst AlbumDir.Name [] ((env.GetArtist log d.id).1.map (Album.dir env)) := by
    rw [ArtistDir.artistDir_Stat_first env fid d log hdone]
    simp only [ArtistDir.addAlbums_eq, hch, List.map_nil, List.nil_append]
  rw [hc]
  refine ⟨?_, fun n => ?_, keepFirst_sublist _ _ _⟩
  · simpa using keepFirst_nodup AlbumDir.Name
      ((env.GetArtist log d.id).1.map (Album.dir env)) [] List.nodup_nil
  · rw [keepFirst_find AlbumDir.Name n _ [] (by simp), find?_map_name]
    rfl

/-- The children a first `AlbumDir.Stat` gives a directory without children:
as for `ArtistDir.Stat`, with the songs of the listing. -/
theorem AlbumDir.Stat_songs_keep_first (env : Env) (fid : Fid) (d : AlbumDir)
    (log : List Event) (hdone : d.done = false) (hch : d.children = []) :
    ((AlbumDir.Stat env fid d log).d.children.map SongFile.Name).Nodup
      ∧ (∀ n : String,
          (AlbumDir.Stat env fid d log).d.children.find? (fun c => c.Name == n)
            = ((env.GetAlbum log d.id).1.find? (fun s => tr env (songFileName s) == n)).map
                (Song.file env))
      ∧ ((AlbumDir.Stat env fid d log).d.children).Sublist
          ((env.GetAlbum log d.id).1.map (Song.file env)) := by
  have hc : (AlbumDir.Stat env fid d log).d.children
      = keepFirst SongFile.Name [] ((env.GetAlbum log d.id).1.map (Song.file env)) := by
    rw [AlbumDir.albumDir_Stat_first env fid d log hdone]
    simp only [AlbumDir.addSongs_fst, hch, List.map_nil, List.nil_append]
  rw [hc]
  refine ⟨?_, fun n => ?_, keepFirst_sublist _ _ _⟩
  · simpa using keepFirst_nodup SongFile.Name
      ((env.GetAlbum log d.id).1.map (Song.file env)) [] List.nodup_nil
  · rw [keepFirst_find SongFile.Name n _ [] (by simp), find?_map_name]
    rfl

theorem childrenAt_of_mem (root : List RootEntry) (h : (root.map RootEntry.Name).Nodup)
    (e : RootEntry) (he : e ∈ root) : childrenAt root e.Name = e.children := by
  induction root with
  | nil => cases he
  | cons e0 rest ih =>
    rw [childrenAt_cons]
    simp only [List.map_cons, List.nodup_cons] at h
    rcases List.mem_cons.1 he with he | he
    · subst he; simp
    · have hne : ¬ e0.Name = e.Name := fun e1 =>
        h.1 (e1 ▸ List.mem_map.2 ⟨e, he, rfl⟩)
      rw [if_neg hne]
      exact ih h.2 he

/-- Under a child of the root of the tree `buildFs` returns are the
directories of the artists with that index letter, the first of each name. -/
theorem buildFs_childrenAt (env : Env) (log : List Event) (root : List RootEntry)
    (h : (buildFs env log).1 = BuildResult.ok root) (key : String) :
    childrenAt root key
      = keepFirst ArtistDir.Name []
          (((env.GetArtists log).1.filter
              (fun a => indexLetter (tr env a.Name) == some key)).map (Artist.dir env)) := by
  rw [buildFs.loop_childrenAt env key _ _ root (buildFs_ok env log root h), foldl_attachOrSkip]
  have h0 : childrenAt [ctlEntry] key = [] := by
    rw [childrenAt_cons]
    by_cases hk : ctlEntry.Name = key
    · rw [if_pos hk]; rfl
    · rw [if_neg hk]; rfl
  rw [h0]
  rfl

/-- The artist directories of the tree `buildFs` returns: under each child of
the root the names are pairwise distinct and every directory is that of a
listed artist; the directory of a name is that of the first listed artist
with that sanitized name, and it is there for every listed artist. -/
theorem buildFs_keeps_first (env : Env) (log : List Event) (root : List RootEntry)
    (h : (buildFs env log).1 = BuildResult.ok root) :
    (∀ e ∈ root, (e.children.map ArtistDir.Name).Nodup
        ∧ (∀ d ∈ e.children, ∃ a ∈ (env.GetArtists log).1, d = Artist.dir env a)
        ∧ ∀ n : String, indexLetter n = some e.Name →
            e.children.find? (fun d => d.Name == n)
              = ((env.GetArtists log).1.find? (fun a => tr env a.Name == n)).map
                  (Artist.dir env))
      ∧ (∀ a ∈ (env.GetArtists log).1, ∃ e ∈ root,
          indexLetter (tr env a.Name) = some e.Name
            ∧ e.children.find? (fun d => d.Name == tr env a.Name)
                = ((env.GetArtists log).1.find? (fun b => tr env b.Name == tr env a.Name)).map
                    (Artist.dir env)) := by
  have hinv := RootInv.of_buildFs env log root h
  have hfind : ∀ (key n : String), indexLetter n = some key →
      (childrenAt root key).find? (fun d => d.Name == n)
        = ((env.GetArtists log).1.find? (fun a => tr env a.Name == n)).map
            (Artist.dir env) := by
    intro key n hn
    rw [buildFs_childrenAt env log root h key, keepFirst_find ArtistDir.Name n _ [] (by simp),
      find?_map_name]
    have hfilter := find?_filter_of_imp
      (fun a : Artist => indexLetter (tr env a.Name) == some key)
      (fun a : Artist => tr env a.Name == n) (env.GetArtists log).1
      (by
        intro x hx
        have hx' : tr env x.Name = n := by simpa using hx
        simp [hx', hn])
    simp only [Artist.dir]
    rw [hfilter]
  refine ⟨fun e he => ⟨?_, ?_, fun n hn => ?_⟩, fun a ha => ?_⟩
  · rw [← childrenAt_of_mem root hinv.names e he, buildFs_childrenAt env log root h e.Name]
    simpa using keepFirst_nodup ArtistDir.Name
      (((env.GetArtists log).1.filter
        (fun a => indexLetter (tr env a.Name) == some e.Name)).map (Artist.dir env))
      [] List.nodup_nil
  · intro d hd
    rcases hinv.entries e he with hctl | ⟨_, _, hch⟩
    · rw [hctl] at hd; cases hd
    · obtain ⟨a, ha, hda, _⟩ := hch d hd
      exact ⟨a, ha, hda⟩
  · rw [← childrenAt_of_mem root hinv.names e he]
    exact hfind e.Name n hn
  · rcases hl : indexLetter (tr env a.Name) with _ | letter
    · exfalso
      have hloop := buildFs_ok env log root h
      have hnone : ∀ (todo : List Artist) (r : List RootEntry), a ∈ todo →
          buildFs.loop env r todo = none := by
        intro todo
        induction todo with
        | nil => intro r hm; cases hm
        | cons b rest ih =>
          intro r hm
          simp only [buildFs.loop]
          rcases hstep : buildFs.addArtist env r b with _ | r1
          · rfl
          · rcases List.mem_cons.1 hm with hm | hm
            · subst hm
              simp [buildFs.addArtist, hl] at hstep
            · exact ih r1 hm
      rw [hnone _ _ ha] at hloop
      cases hloop
    · have hf := hfind letter (tr env a.Name) hl
      have hsome : ∃ b, (env.GetArtists log).1.find? (fun b => tr env b.Name == tr env a.Name)
          = some b := by
        rcases hfa : (env.GetArtists log).1.find? (fun b => tr env b.Name == tr env a.Name)
          with _ | b
        · rw [List.find?_eq_none] at hfa
          exact absurd (by simp) (hfa a ha)
        · exact ⟨b, hfa⟩
      obtain ⟨b, hb⟩ := hsome
      rw [hb] at hf
      have hne : childrenAt root letter ≠ [] := by
        intro hnil
        rw [hnil] at hf
        cases hf
      have hmem : letter ∈ root.map RootEntry.Name := by
        by_contra hnot
        exact hne (childrenAt_of_not_mem root letter hnot)
      obtain ⟨e, he, hname⟩ := List.mem_map.1 hmem
      refine ⟨e, he, by rw [hname], ?_⟩
      rw [← childrenAt_of_mem root hinv.names e he, hname, hb]
      exact hf

/-! ## `buildFs` on an empty name -/

theorem buildFs.addArtist_eq_none (env : Env) (root : List RootEntry) (a : Artist) :
    buildFs.addArtist env root a = none ↔ a.Name = "" := by
  rw [← tr_eq_empty env a.Name, ← indexLetter_eq_none]
  rcases hl : indexLetter (tr env a.Name) with _ | letter
  · simp [buildFs.addArtist, hl]
  · simp only [reduceCtorEq, iff_false]
    intro h
    simp only [buildFs.addArtist, hl] at h
    rcases hf : File.Find RootEntry.Name root letter with _ | e
    · simp only [hf] at h
      rcases hadd : File.Add RootEntry.Name root
        { Name := letter, isCtl := false, children := [] } with err | root1
      · simp [hadd] at h
      · simp [hadd] at h
    · simp [hf] at h

/-- The loop of `buildFs` panics exactly when an artist has an empty name. -/
theorem buildFs.loop_eq_none (env : Env) (artists : List Artist) :
    ∀ root : List RootEntry,
      buildFs.loop env root artists = none ↔ ∃ a ∈ artists, a.Name = "" := by
  induction artists with
  | nil => intro root; simp [buildFs.loop]
  | cons a rest ih =>
    intro root
    simp only [buildFs.loop]
    rcases hstep : buildFs.addArtist env root a with _ | root1
    · have ha : a.Name = "" := (buildFs.addArtist_eq_none env root a).1 hstep
      simp [ha]
    · have ha : ¬ a.Name = "" := fun e => by
        rw [(buildFs.addArtist_eq_none env root a).2 e] at hstep
        cases hstep
      simp only [ih root1, List.mem_cons, exists_eq_or_imp, ha, false_or]

/-- C13, the code at the failing input: an artist list that holds one artist
with an empty name. Its sanitized name is empty, `[]rune(name)[0]` is out of
range and `buildFs` ends in a run-time panic instead of yielding a bucket. -/
theorem buildFs_panics_on_empty_name :
    tr blankEnv "" = "" ∧ indexLetter (tr blankEnv "") = none
      ∧ (buildFs blankEnv []).1 = BuildResult.panic := by
  decide

/-- C11, the code at the failing input: an artist list whose first artist has
an empty name. `buildFs` panics on that record, so no record of the list is
attached, not even the artist Muse, whose name collides with no other. -/
theorem buildFs_attaches_nothing_after_empty_name :
    (namelessEnv.GetArtists []).1 = [{ Id := 1, Name := "" }, { Id := 2, Name := "Muse" }]
      ∧ (buildFs namelessEnv []).1 = BuildResult.panic := by
  decide

/-! ## The end-to-end scenario -/

/-- C12, the claim as stated fails: in the tree of the scenario the album
directory is named `origin␣of␣symmetry` (`srepl` writes U+2423 for a space,
not an underscore), so the path `m/muse/origin_of_symmetry/04_bliss.mp3` is
not in the tree. -/
theorem scenario_path_has_no_underscore :
    (buildFs sampleEnv []).1 = BuildResult.ok museRoot
      ∧ (ArtistDir.Stat sampleEnv 7 museDir [Event.GetArtists]).d.children.map AlbumDir.Name
          = ["origin␣of␣symmetry"]
      ∧ "m/muse/origin_of_symmetry/04_bliss.mp3"
          ∉ (treePaths sampleEnv 7 museRoot (buildFs sampleEnv []).2).1 := by
  decide

/-- C12 as amended. With artist `{1, "Muse"}`, album `{10, "Origin of
Symmetry"}` and song `{100, "Bliss", 4, "mp3"}`, `buildFs` returns the tree
with the bucket `m` holding the artist directory `muse`, and after the
directories are inspected the one song path of the tree is
`m/muse/origin␣of␣symmetry/04_bliss.mp3`: the album directory is
`origin␣of␣symmetry` and the song file `04_bliss.mp3`, the sanitized form of
`04_Bliss.mp3`. -/
theorem scenario_path (env : Env) (fid : Fid) (log : List Event)
    (hartists : ∀ l, env.GetArtists l = ([{ Id := 1, Name := "Muse" }], none))
    (halbums : ∀ l, env.GetArtist l 1 = ([{ Id := 10, Name := "Origin of Symmetry" }], none))
    (hsongs : ∀ l, env.GetAlbum l 10
      = ([{ Id := 100, Name := "Bliss", Number := 4, Suffix := "mp3" }], none)) :
    (buildFs env log).1 = BuildResult.ok museRoot
      ∧ (ArtistDir.Stat env fid museDir (buildFs env log).2).d.children = [originDir]
      ∧ (∀ l, (AlbumDir.Stat env fid originDir l).d.children
          = [{ Name := "04_bliss.mp3", id := 100 }])
      ∧ songFileName { Id := 100, Name := "Bliss", Number := 4, Suffix := "mp3" }
          = "04_Bliss.mp3"
      ∧ (treePaths env fid museRoot (buildFs env log).2).1
          = ["m/muse/origin␣of␣symmetry/04_bliss.mp3"] := by
  have h1 : tr env "Muse" = "muse" := rfl
  have h2 : tr env "Origin of Symmetry" = "origin␣of␣symmetry" := rfl
  have h3 : tr env (songFileName { Id := 100, Name := "Bliss", Number := 4, Suffix := "mp3" })
      = "04_bliss.mp3" := rfl
  have hb : (buildFs env log).1 = BuildResult.ok museRoot := by
    simp only [buildFs, hartists, buildFs.loop, buildFs.addArtist, h1]
    rfl
  have hA : ∀ l, (ArtistDir.Stat env fid museDir l).d.children = [originDir] := by
    intro l
    rw [ArtistDir.artistDir_Stat_first env fid museDir l rfl]
    simp only [museDir, halbums, ArtistDir.addAlbums, List.foldl_cons, List.foldl_nil, h2]
    rfl
  have hB : ∀ l, (AlbumDir.Stat env fid originDir l).d.children
      = [{ Name := "04_bliss.mp3", id := 100 }] := by
    intro l
    rw [AlbumDir.albumDir_Stat_first env fid originDir l rfl]
    simp only [originDir, hsongs, AlbumDir.addSongs, List.foldl_cons, List.foldl_nil, h3]
    rfl
  have hP : ∀ l, (ArtistDir.paths env fid "m/muse" museDir l).1
      = ["m/muse/origin␣of␣symmetry/04_bliss.mp3"] := by
    intro l
    simp only [ArtistDir.paths, hA, List.foldl_cons, List.foldl_nil, AlbumDir.paths, hB]
    rfl
  exact ⟨hb, hA _, hB, by decide, hP _⟩

/-- Witness of C12 as amended: the sample server. -/
theorem scenario_path_witness :
    (∀ l, sampleEnv.GetArtists l = ([{ Id := 1, Name := "Muse" }], none))
      ∧ (buildFs sampleEnv []).1 = BuildResult.ok museRoot
      ∧ (treePaths sampleEnv 7 museRoot (buildFs sampleEnv []).2).1
          = ["m/muse/origin␣of␣symmetry/04_bliss.mp3"] :=
  ⟨fun _ => rfl,
    (scenario_path sampleEnv 7 [] (fun _ => rfl) (fun _ => rfl) (fun _ => rfl)).1,
    (scenario_path sampleEnv 7 [] (fun _ => rfl) (fun _ => rfl) (fun _ => rfl)).2.2.2.2⟩

/-! ## Buckets -/

/-- C14. Bucket assignment is a function of the first character of the
sanitized name: for a sanitized name with first character `c` the bucket key
is `c` when `c` is in `a`-`z` and `"@"` otherwise. In the tree `buildFs`
returns, every listed artist has its directory under the child of the root
named by that key; every child of the root other than the control file has a
bucket key (`"@"` or one letter of `a`-`z`) as its name; every artist
directory sits under the key of its own name, and under the bucket of a
letter `c` every artist directory has a name that starts with `c`. -/
theorem bucket_is_first_character (env : Env) :
    (∀ (name : String) (c : Char) (rest : List Char), (tr env name).data = c :: rest →
        indexLetter (tr env name)
          = some (if 'a' ≤ c ∧ c ≤ 'z' then String.singleton c else "@"))
      ∧ (∀ (log : List Event) (root : List RootEntry),
          (buildFs env log).1 = BuildResult.ok root →
            (∀ a ∈ (env.GetArtists log).1, ∃ e ∈ root,
                indexLetter (tr env a.Name) = some e.Name
                  ∧ ∃ d ∈ e.children, d.Name = tr env a.Name)
              ∧ (∀ e ∈ root, e = ctlEntry ∨ IsBucketKey e.Name)
              ∧ (∀ e ∈ root, ∀ d ∈ e.children, indexLetter d.Name = some e.Name)
              ∧ (∀ e ∈ root, ∀ c : Char, 'a' ≤ c ∧ c ≤ 'z' → e.Name = String.singleton c →
                  ∀ d ∈ e.children, d.Name.data.head? = some c)) := by
  refine ⟨fun name c rest h => indexLetter_cons _ c rest h, fun log root h => ?_⟩
  have hinv := RootInv.of_buildFs env log root h
  have hunder : ∀ e ∈ root, ∀ d ∈ e.children, indexLetter d.Name = some e.Name := by
    intro e he d hd
    rcases hinv.entries e he with hctl | ⟨_, _, hch⟩
    · rw [hctl] at hd; cases hd
    · obtain ⟨_, _, _, hl⟩ := hch d hd
      exact hl
  refine ⟨fun a ha => ?_, fun e he => ?_, hunder, fun e he c hc hname d hd => ?_⟩
  · obtain ⟨e, he, hl, hfind⟩ := (buildFs_keeps_first env log root h).2 a ha
    refine ⟨e, he, hl, ?_⟩
    rcases hfa : (env.GetArtists log).1.find? (fun b => tr env b.Name == tr env a.Name)
      with _ | b
    · rw [List.find?_eq_none] at hfa
      exact absurd (by simp) (hfa a ha)
    · rw [hfa] at hfind
      have hmem := List.mem_of_find?_eq_some hfind
      have hname := List.find?_some hfind
      exact ⟨Artist.dir env b, hmem, by simpa using hname⟩
  · rcases hinv.entries e he with hctl | ⟨_, hk, _⟩
    · exact Or.inl hctl
    · exact Or.inr hk
  · exact indexLetter_singleton d.Name c hc (by rw [← hname]; exact hunder e he d hd)

/-- Witness of C14: the tree of the sample server, bucket `m` with `muse`. -/
theorem bucket_is_first_character_witness :
    (tr sampleEnv "Muse").data = 'm' :: ['u', 's', 'e']
      ∧ indexLetter (tr sampleEnv "Muse")
          = some (if 'a' ≤ 'm' ∧ 'm' ≤ 'z' then String.singleton 'm' else "@")
      ∧ (buildFs sampleEnv []).1 = BuildResult.ok museRoot
      ∧ (∀ e ∈ museRoot, e = ctlEntry ∨ IsBucketKey e.Name)
      ∧ (∀ e ∈ museRoot, ∀ d ∈ e.children, indexLetter d.Name = some e.Name) :=
  ⟨by decide, (bucket_is_first_character sampleEnv).1 "Muse" 'm' ['u', 's', 'e'] (by decide),
    by decide,
    ((bucket_is_first_character sampleEnv).2 [] museRoot (by decide)).2.1,
    ((bucket_is_first_character sampleEnv).2 [] museRoot (by decide)).2.2.1⟩

/-! ## Safe names -/

theorem tr_mem (env : Env) (s : String) (x : Char) (h : x ∈ (tr env s).data) :
    (x ∉ sreplOld
        ∧ ∃ c ∈ s.data, x = if c.toNat < 128 then c.toLower else env.unicodeToLower c)
      ∨ x ∈ sreplNew := by
  rw [tr_data, List.mem_flatMap] at h
  obtain ⟨c0, hc0, hx⟩ := h
  rcases sreplChar_sreplPairs c0 x hx with ⟨hxc, hnot⟩ | hnew
  · left
    obtain ⟨c, hc, hcc⟩ := List.mem_map.1 hc0
    exact ⟨hxc ▸ hnot, c, hc, by rw [hxc, hcc]⟩
  · exact Or.inr hnew

theorem sampleEnv_lowerTable : LowerTable sampleEnv := by
  intro c hc hup
  have h1 : sampleEnv.unicodeToLower c = c := rfl
  rw [h1] at hup
  unfold isUpperAscii at hup
  omega

/-- C15. Sanitized names are filesystem-safe: for every string `s`, `tr s`
holds none of the characters `srepl` replaces (double quote, space, `/`,
apostrophe, `(`, `)`, `#`, `&`), in particular no `/`; when the case table of
the runtime never gives an ASCII upper-case letter for a rune outside ASCII,
`tr s` holds no ASCII upper-case letter; and every artist, album and song
node name the population steps make is free of `/`. -/
theorem tr_is_filesystem_safe (env : Env) :
    sreplOld = [Char.ofNat 34, ' ', '/', Char.ofNat 39, '(', ')', '#', '&']
      ∧ (∀ (s : String), ∀ c ∈ (tr env s).data, c ∉ sreplOld)
      ∧ (∀ s : String, '/' ∉ (tr env s).data)
      ∧ (LowerTable env → ∀ (s : String), ∀ c ∈ (tr env s).data, ¬ isUpperAscii c)
      ∧ (∀ (fid : Fid) (d : ArtistDir) (log : List Event),
          (∀ c ∈ d.children, '/' ∉ c.Name.data) →
          ∀ c ∈ (ArtistDir.Stat env fid d log).d.children, '/' ∉ c.Name.data)
      ∧ (∀ (fid : Fid) (d : AlbumDir) (log : List Event),
          (∀ c ∈ d.children, '/' ∉ c.Name.data) →
          ∀ c ∈ (AlbumDir.Stat env fid d log).d.children, '/' ∉ c.Name.data)
      ∧ (∀ (log : List Event) (root : List RootEntry),
          (buildFs env log).1 = BuildResult.ok root →
          ∀ e ∈ root, ∀ d ∈ e.children, '/' ∉ d.Name.data) := by
  have hold : ∀ (s : String), ∀ c ∈ (tr env s).data, c ∉ sreplOld := by
    intro s c hc
    rcases tr_mem env s c hc with ⟨h, _⟩ | h
    · exact h
    · have hall : ∀ x ∈ sreplNew, x ∉ sreplOld := by decide
      exact hall c h
  have hslash : ∀ s : String, '/' ∉ (tr env s).data := fun s hmem =>
    hold s '/' hmem (by decide)
  refine ⟨by decide, hold, hslash, fun htable s c hc => ?_, fun fid d log hd c hc => ?_,
    fun fid d log hd c hc => ?_, fun log root h e he d hd => ?_⟩
  · rcases tr_mem env s c hc with ⟨_, c0, _, hcc⟩ | h
    · rw [hcc]
      by_cases h128 : c0.toNat < 128
      · rw [if_pos h128]; exact toLower_not_upper c0
      · rw [if_neg h128]; exact htable c0 (Nat.le_of_not_lt h128)
    · have hall : ∀ x ∈ sreplNew, ¬ isUpperAscii x := by
        unfold isUpperAscii
        decide
      exact hall c h
  · cases hdone : d.done
    · rw [ArtistDir.artistDir_Stat_first env fid d log hdone] at hc
      simp only [ArtistDir.addAlbums_eq] at hc
      rcases List.mem_append.1 hc with hc | hc
      · exact hd c hc
      · have hsub := (keepFirst_sublist AlbumDir.Name
          ((env.GetArtist log d.id).1.map (Album.dir env)) (d.children.map AlbumDir.Name)).subset hc
        obtain ⟨a, _, ha⟩ := List.mem_map.1 hsub
        rw [← ha]
        exact hslash a.Name
    · rw [ArtistDir.artistDir_Stat_done env fid d log hdone] at hc
      exact hd c hc
  · cases hdone : d.done
    · rw [AlbumDir.albumDir_Stat_first env fid d log hdone] at hc
      simp only [AlbumDir.addSongs_fst] at hc
      rcases List.mem_append.1 hc with hc | hc
      · exact hd c hc
      · have hsub := (keepFirst_sublist SongFile.Name
          ((env.GetAlbum log d.id).1.map (Song.file env)) (d.children.map SongFile.Name)).subset hc
        obtain ⟨a, _, ha⟩ := List.mem_map.1 hsub
        rw [← ha]
        exact hslash (songFileName a)
    · rw [AlbumDir.albumDir_Stat_done env fid d log hdone] at hc
      exact hd c hc
  · rcases (RootInv.of_buildFs env log root h).entries e he with hctl | ⟨_, _, hch⟩
    · rw [hctl] at hd; cases hd
    · obtain ⟨a, _, hda, _⟩ := hch d hd
      rw [hda]
      exact hslash a.Name

/-- Witness of C15: the sample server and the name `AC/DC (Live)`. -/
theorem tr_is_filesystem_safe_witness :
    LowerTable sampleEnv
      ∧ tr sampleEnv "AC/DC (Live)" = "ac_dc␣_live_"
      ∧ (∀ c ∈ (tr sampleEnv "AC/DC (Live)").data, ¬ isUpperAscii c)
      ∧ (buildFs sampleEnv []).1 = BuildResult.ok museRoot
      ∧ (∀ e ∈ museRoot, ∀ d ∈ e.children, '/' ∉ d.Name.data) :=
  ⟨sampleEnv_lowerTable, by decide,
    (tr_is_filesystem_safe sampleEnv).2.2.2.1 sampleEnv_lowerTable "AC/DC (Live)",
    by decide,
    (tr_is_filesystem_safe sampleEnv).2.2.2.2.2.2 [] museRoot (by decide)⟩

/-! ## `api.go`: the parsers -/

theorem parseArtistMap_ok {ν : Type} (lib : GoLib ν) (m : List (String × JSON ν)) (a : Artist)
    (h : IsArtistObject lib (JSON.obj m) a) : parseArtistMap lib m = Except.ok a := by
  cases h with
  | strName _ id s h1 h2 => simp [parseArtistMap, h1, h2]
  | numName _ id x h1 h2 => simp [parseArtistMap, h1, h2]

theorem IsArtistObject.is_obj {ν : Type} {lib : GoLib ν} {j : JSON ν} {a : Artist}
    (h : IsArtistObject lib j a) : ∃ m, j = JSON.obj m := by
  cases h with
  | strName m _ _ _ _ => exact ⟨m, rfl⟩
  | numName m _ _ _ _ => exact ⟨m, rfl⟩

theorem IsIndexObject.is_index_obj {ν : Type} {lib : GoLib ν} {j : JSON ν} {as : List Artist}
    (h : IsIndexObject lib j as) : ∃ m, j = JSON.obj m := by
  cases h with
  | one m _ _ _ _ => exact ⟨m, rfl⟩
  | many m _ _ _ _ => exact ⟨m, rfl⟩

theorem parseArtistArray_ok {ν : Type} (lib : GoLib ν) (l : List (JSON ν))
    (artists : List Artist) (h : List.Forall₂ (IsArtistObject lib) l artists) :
    ∀ retv : List Artist, parseArtistArray lib l retv = Except.ok (retv ++ artists) := by
  induction h with
  | nil => intro retv; simp [parseArtistArray]
  | cons hhead _ ih =>
    intro retv
    obtain ⟨m, rfl⟩ := hhead.is_obj
    simp [parseArtistArray, parseArtistMap_ok lib m _ hhead, ih]

theorem parseIndexMap_ok {ν : Type} (lib : GoLib ν) (m : List (String × JSON ν))
    (artists : List Artist) (h : IsIndexObject lib (JSON.obj m) artists) :
    parseIndexMap lib m = Except.ok artists := by
  cases h with
  | one _ ma a h1 h2 => simp [parseIndexMap, h1, parseArtistMap_ok lib ma a h2]
  | many _ l _ h1 h2 => simp [parseIndexMap, h1, parseArtistArray_ok lib l artists h2]

theorem parseIndexArray_ok {ν : Type} (lib : GoLib ν) (l : List (JSON ν))
    (entries : List (List Artist)) (h : List.Forall₂ (IsIndexObject lib) l entries) :
    ∀ retv : List Artist, parseIndexArray lib l retv = Except.ok (retv ++ entries.flatten) := by
  induction h with
  | nil => intro retv; simp [parseIndexArray]
  | cons hhead _ ih =>
    intro retv
    obtain ⟨m, rfl⟩ := hhead.is_index_obj
    simp [parseIndexArray, parseIndexMap_ok lib m _ hhead, ih]

theorem parseIndexArray_single {ν : Type} (lib : GoLib ν) (m : List (String × JSON ν)) :
    parseIndexArray lib [JSON.obj m] [] = parseIndexMap lib m := by
  cases h : parseIndexMap lib m <;> simp [parseIndexArray, h]

theorem parseArtistArray_single {ν : Type} (lib : GoLib ν) (m : List (String × JSON ν)) :
    parseArtistArray lib [JSON.obj m] []
      = match parseArtistMap lib m with
        | Except.error err => Except.error err
        | Except.ok tmp => Except.ok ([] ++ [tmp]) := by
  cases h : parseArtistMap lib m <;> simp [parseArtistArray, h]

/-- C17. `parseGetArtistsResp` flattens the index in document order. For an
answer without error whose `index` is one index object or an array of index
objects, each with an `artist` field that is one artist object or an array of
artist objects, the result is the concatenation, in order, of the artists of
the index objects, one `Artist` per artist object with the `id` of the object
and its name (a string HTML-unescaped, a number as `%v` prints it). A single
index object gives what the one-element array of it gives, and so does a
single artist object. -/
theorem parseGetArtistsResp_flattens {ν : Type} (lib : GoLib ν) :
    (∀ (data : List UInt8) (buf : ArtistsBuf ν) (entries : List (List Artist)),
        lib.UnmarshalArtists data = Except.ok buf → buf.Error = none →
        List.Forall₂ (IsIndexObject lib) buf.Index.oneOrMany entries →
        parseGetArtistsResp lib data = Except.ok entries.flatten)
      ∧ (∀ (data data1 : List UInt8) (e : Option ReqError) (m : List (String × JSON ν)),
          lib.UnmarshalArtists data = Except.ok { Error := e, Index := JSON.obj m } →
          lib.UnmarshalArtists data1 = Except.ok { Error := e, Index := JSON.arr [JSON.obj m] } →
          parseGetArtistsResp lib data = parseGetArtistsResp lib data1)
      ∧ (∀ (m m1 ma : List (String × JSON ν)),
          JSON.field m "artist" = some (JSON.obj ma) →
          JSON.field m1 "artist" = some (JSON.arr [JSON.obj ma]) →
          parseIndexMap lib m = parseIndexMap lib m1) := by
  refine ⟨fun data buf entries hdata herr hentries => ?_, fun data data1 e m h h1 => ?_,
    fun m m1 ma h h1 => ?_⟩
  · obtain ⟨err, index⟩ := buf
    simp only at herr hentries
    subst herr
    simp only [parseGetArtistsResp, hdata]
    cases index with
    | arr l =>
      simp only [JSON.oneOrMany] at hentries
      simpa using parseIndexArray_ok lib l entries hentries []
    | obj m =>
      simp only [JSON.oneOrMany] at hentries
      cases hentries with
      | cons hhead htail =>
        cases htail
        simpa using parseIndexMap_ok lib m _ hhead
    | null =>
      simp only [JSON.oneOrMany] at hentries
      cases hentries with
      | cons hhead _ => cases hhead
    | bool b =>
      simp only [JSON.oneOrMany] at hentries
      cases hentries with
      | cons hhead _ => cases hhead
    | num x =>
      simp only [JSON.oneOrMany] at hentries
      cases hentries with
      | cons hhead _ => cases hhead
    | str x =>
      simp only [JSON.oneOrMany] at hentries
      cases hentries with
      | cons hhead _ => cases hhead
  · simp only [parseGetArtistsResp, h, h1]
    cases e with
    | some re => rfl
    | none => simp only [parseIndexArray_single]
  · simp only [parseIndexMap, h, h1, parseArtistArray_single]

/-- Witness of C17: the common case of `TestGetArtists`, two index objects,
the first with an array of two artists, the second with a single artist. -/
theorem parseGetArtistsResp_flattens_witness :
    sampleLib.UnmarshalArtists artistsDoc = Except.ok { Error := none, Index := testIndex }
      ∧ parseGetArtistsResp sampleLib artistsDoc
          = Except.ok [{ Id := 0, Name := "A1" }, { Id := 1, Name := "A2" },
              { Id := 2, Name := "Kwyjibo" }] :=
  ⟨rfl,
    (parseGetArtistsResp_flattens sampleLib).1 artistsDoc
      { Error := none, Index := testIndex }
      [[{ Id := 0, Name := "A1" }, { Id := 1, Name := "A2" }], [{ Id := 2, Name := "Kwyjibo" }]]
      rfl rfl
      (List.Forall₂.cons
        (IsIndexObject.many _ _ _ rfl
          (List.Forall₂.cons (IsArtistObject.strName _ 0 "A1" rfl rfl)
            (List.Forall₂.cons (IsArtistObject.strName _ 1 "A2" rfl rfl) List.Forall₂.nil)))
        (List.Forall₂.cons
          (IsIndexObject.one _ _ _ rfl (IsArtistObject.strName _ 2 "Kwyjibo" rfl rfl))
          List.Forall₂.nil))⟩

theorem IsAlbumObject.is_album_obj {ν : Type} {lib : GoLib ν} {j : JSON ν} {a : Album}
    (h : IsAlbumObject lib j a) : ∃ m, j = JSON.obj m := by
  cases h with
  | strName m _ _ _ _ => exact ⟨m, rfl⟩
  | numName m _ _ _ _ => exact ⟨m, rfl⟩

theorem parseAlbumMap_ok {ν : Type} (lib : GoLib ν) (m : List (String × JSON ν)) (a : Album)
    (h : IsAlbumObject lib (JSON.obj m) a) : parseAlbumMap lib m = Except.ok a := by
  cases h with
  | strName _ id s h1 h2 => simp [parseAlbumMap, h1, h2]
  | numName _ id x h1 h2 => simp [parseAlbumMap, h1, h2]

theorem parseAlbumArray_ok {ν : Type} (lib : GoLib ν) (l : List (JSON ν))
    (albums : List Album) (h : List.Forall₂ (IsAlbumObject lib) l albums) :
    ∀ retv : List Album, parseAlbumArray lib l retv = Except.ok (retv ++ albums) := by
  induction h with
  | nil => intro retv; simp [parseAlbumArray]
  | cons hhead _ ih =>
    intro retv
    obtain ⟨m, rfl⟩ := hhead.is_album_obj
    simp [parseAlbumArray, parseAlbumMap_ok lib m _ hhead, ih]

theorem parseAlbumArray_single {ν : Type} (lib : GoLib ν) (m : List (String × JSON ν)) :
    parseAlbumArray lib [JSON.obj m] []
      = match parseAlbumMap lib m with
        | Except.error err => Except.error err
        | Except.ok tmp => Except.ok ([] ++ [tmp]) := by
  cases h : parseAlbumMap lib m <;> simp [parseAlbumArray, h]

/-- C18, the claim as stated fails: in an album array the object with `id` 7
and name `R&amp;B` gives the `Album` with the name `R&B`, which is not the
name of its object: `parseAlbumMap` passes the name through
`html.UnescapeString` (`api.go`, line 219). -/
theorem album_name_is_unescaped :
    JSON.field ampAlbum "name" = some (JSON.str "R&amp;B")
      ∧ entityLib.UnmarshalArtist ampAlbumsDoc
          = Except.ok { Error := none, Album := JSON.arr [JSON.obj ampAlbum] }
      ∧ parseGetArtistResp entityLib ampAlbumsDoc = Except.ok [{ Id := 7, Name := "R&B" }]
      ∧ parseGetArtistResp entityLib ampAlbumsDoc
          ≠ Except.ok [{ Id := 7, Name := "R&amp;B" }] := by
  have h : parseGetArtistResp entityLib ampAlbumsDoc
      = Except.ok [{ Id := 7, Name := "R&B" }] := rfl
  refine ⟨rfl, rfl, h, fun hne => ?_⟩
  rw [h] at hne
  simp at hne

/-- C18 as amended. `parseGetArtistResp` takes a single album and an album
array alike. For every album object `a` (and every object at all), an answer
whose `album` field is `a` gives the result of the answer whose `album` field
is the one-element array of `a`; for a valid album object that result is the
one `Album` of it. For an answer without error whose `album` field is an
array of valid album objects the result has one `Album` per object, in the
order of the array, each with the `id` of its object and, as its name, the
name of its object HTML-unescaped (`html.UnescapeString`) when that is a
string, printed as `%v` prints it when that is a number. -/
theorem parseGetArtistResp_single_or_array {ν : Type} (lib : GoLib ν) :
    (∀ (data data1 : List UInt8) (e : Option ReqError) (m : List (String × JSON ν)),
        lib.UnmarshalArtist data = Except.ok { Error := e, Album := JSON.obj m } →
        lib.UnmarshalArtist data1 = Except.ok { Error := e, Album := JSON.arr [JSON.obj m] } →
        parseGetArtistResp lib data = parseGetArtistResp lib data1)
      ∧ (∀ (data : List UInt8) (m : List (String × JSON ν)) (a : Album),
          lib.UnmarshalArtist data = Except.ok { Error := none, Album := JSON.obj m } →
          IsAlbumObject lib (JSON.obj m) a →
          parseGetArtistResp lib data = Except.ok [a])
      ∧ (∀ (data : List UInt8) (buf : ArtistBuf ν) (l : List (JSON ν)) (albums : List Album),
          lib.UnmarshalArtist data = Except.ok buf → buf.Error = none →
          buf.Album = JSON.arr l → List.Forall₂ (IsAlbumObject lib) l albums →
          parseGetArtistResp lib data = Except.ok albums ∧ albums.length = l.length) := by
  refine ⟨fun data data1 e m h h1 => ?_, fun data m a h ha => ?_,
    fun data buf l albums hdata herr halbum hl => ?_⟩
  · simp only [parseGetArtistResp, h, h1]
    cases e with
    | some re => rfl
    | none => simp only [parseAlbumArray_single]
  · simp [parseGetArtistResp, h, parseAlbumMap_ok lib m a ha]
  · obtain ⟨err, album⟩ := buf
    simp only at herr halbum
    subst herr
    subst halbum
    refine ⟨?_, hl.length_eq.symm⟩
    simp only [parseGetArtistResp, hdata]
    simpa using parseAlbumArray_ok lib l albums hl []

/-- Witness of C18 as amended: the album named `R&amp;B`, and the single
album of `TestGetArtist`, as an object and as a one-element array. -/
theorem parseGetArtistResp_single_or_array_witness :
    (parseGetArtistResp entityLib ampAlbumsDoc = Except.ok [{ Id := 7, Name := "R&B" }]
        ∧ [({ Id := 7, Name := "R&B" } : Album)].length = [JSON.obj ampAlbum].length)
      ∧ sampleLib.UnmarshalArtist albumDoc
        = Except.ok { Error := none, Album := JSON.obj testAlbum }
      ∧ sampleLib.UnmarshalArtist albumArrayDoc
        = Except.ok { Error := none, Album := JSON.arr [JSON.obj testAlbum] }
      ∧ parseGetArtistResp sampleLib albumDoc = parseGetArtistResp sampleLib albumArrayDoc
      ∧ parseGetArtistResp sampleLib albumDoc = Except.ok [{ Id := 0, Name := "Dummy Disc" }]
      ∧ (parseGetArtistResp sampleLib albumArrayDoc
            = Except.ok [{ Id := 0, Name := "Dummy Disc" }]
          ∧ [({ Id := 0, Name := "Dummy Disc" } : Album)].length
            = [JSON.obj testAlbum].length) :=
  ⟨(parseGetArtistResp_single_or_array entityLib).2.2 ampAlbumsDoc
      { Error := none, Album := JSON.arr [JSON.obj ampAlbum] } [JSON.obj ampAlbum]
      [{ Id := 7, Name := "R&B" }] rfl rfl rfl
      (List.Forall₂.cons (IsAlbumObject.strName _ 7 "R&amp;B" rfl rfl) List.Forall₂.nil),
    rfl, rfl,
    (parseGetArtistResp_single_or_array sampleLib).1 albumDoc albumArrayDoc none testAlbum
      rfl rfl,
    (parseGetArtistResp_single_or_array sampleLib).2.1 albumDoc testAlbum
      { Id := 0, Name := "Dummy Disc" } rfl (IsAlbumObject.strName _ 0 "Dummy Disc" rfl rfl),
    (parseGetArtistResp_single_or_array sampleLib).2.2 albumArrayDoc
      { Error := none, Album := JSON.arr [JSON.obj testAlbum] } [JSON.obj testAlbum]
      [{ Id := 0, Name := "Dummy Disc" }] rfl rfl rfl
      (List.Forall₂.cons (IsAlbumObject.strName _ 0 "Dummy Disc" rfl rfl) List.Forall₂.nil)⟩

theorem IsSongObject.is_song_obj {ν : Type} {lib : GoLib ν} {j : JSON ν} {s : Song}
    (h : IsSongObject lib j s) : ∃ m, j = JSON.obj m := by
  cases h with
  | mk m _ _ _ _ _ _ _ _ => exact ⟨m, rfl⟩

theorem parseSongMap_ok {ν : Type} (lib : GoLib ν) (m : List (String × JSON ν)) (s : Song)
    (h : IsSongObject lib (JSON.obj m) s) : parseSongMap lib m = Except.ok s := by
  cases h with
  | mk _ id track title suffix h1 h2 h3 h4 =>
    simp [parseSongMap, parseSongMap.rest, h1, h2, h3, h4]

theorem parseSongArray_ok {ν : Type} (lib : GoLib ν) (l : List (JSON ν))
    (songs : List Song) (h : List.Forall₂ (IsSongObject lib) l songs) :
    ∀ retv : List Song, parseSongArray lib l retv = Except.ok (retv ++ songs) := by
  induction h with
  | nil => intro retv; simp [parseSongArray]
  | cons hhead _ ih =>
    intro retv
    obtain ⟨m, rfl⟩ := hhead.is_song_obj
    simp [parseSongArray, parseSongMap_ok lib m _ hhead, ih]

/-- C19, the claim as stated fails: in a song array the object with the title
`R&amp;B` gives the `Song` with the name `R&B`, which is not its title:
`parseSongMap` passes title and suffix through `html.UnescapeString`
(`api.go`, lines 307 and 331). -/
theorem song_title_is_unescaped :
    JSON.field ampSong "title" = some (JSON.str "R&amp;B")
      ∧ entityLib.UnmarshalAlbum ampSongsDoc
          = Except.ok { Error := none, Song := JSON.arr [JSON.obj ampSong] }
      ∧ parseGetAlbumResp entityLib ampSongsDoc
          = Except.ok [{ Id := 3, Name := "R&B", Number := 1, Suffix := "mp3" }]
      ∧ parseGetAlbumResp entityLib ampSongsDoc
          ≠ Except.ok [{ Id := 3, Name := "R&amp;B", Number := 1, Suffix := "mp3" }] := by
  have h : parseGetAlbumResp entityLib ampSongsDoc
      = Except.ok [{ Id := 3, Name := "R&B", Number := 1, Suffix := "mp3" }] := rfl
  refine ⟨rfl, rfl, h, fun hne => ?_⟩
  rw [h] at hne
  simp at hne

/-- C19 as amended. `parseGetAlbumResp` decodes every song field in order. For
an answer without error whose `song` field is an array of song objects, each
with a numeric `id`, a string `title`, a numeric `track` and a string
`suffix`, the result has one `Song` per object, in the order of the array,
and the `Song` of an object has its `id` as `Id`, its `title` HTML-unescaped
(`html.UnescapeString`) as `Name`, its `track` as `Number` and its `suffix`
HTML-unescaped as `Suffix` (the numbers converted to `int`). -/
theorem parseGetAlbumResp_decodes_songs {ν : Type} (lib : GoLib ν) (data : List UInt8)
    (buf : AlbumBuf ν) (l : List (JSON ν)) (songs : List Song)
    (hdata : lib.UnmarshalAlbum data = Except.ok buf) (_herr : buf.Error = none)
    (hsong : buf.Song = JSON.arr l) (hl : List.Forall₂ (IsSongObject lib) l songs) :
    parseGetAlbumResp lib data = Except.ok songs ∧ songs.length = l.length := by
  obtain ⟨err, song⟩ := buf
  simp only at hsong
  subst hsong
  refine ⟨?_, hl.length_eq.symm⟩
  simp only [parseGetAlbumResp, hdata]
  simpa using parseSongArray_ok lib l songs hl []

/-- Witness of C19 as amended: the song titled `R&amp;B` and the two songs of
`TestGetAlbum`. -/
theorem parseGetAlbumResp_decodes_songs_witness :
    (parseGetAlbumResp entityLib ampSongsDoc
          = Except.ok [{ Id := 3, Name := "R&B", Number := 1, Suffix := "mp3" }]
        ∧ [({ Id := 3, Name := "R&B", Number := 1, Suffix := "mp3" } : Song)].length
          = [JSON.obj ampSong].length)
      ∧ sampleLib.UnmarshalAlbum songsDoc
        = Except.ok { Error := none, Song := JSON.arr testSongs }
      ∧ parseGetAlbumResp sampleLib songsDoc
        = Except.ok [{ Id := 1, Name := "Track1", Number := 1, Suffix := "mp3" },
            { Id := 2, Name := "Track2", Number := 2, Suffix := "ogg" }]
      ∧ [({ Id := 1, Name := "Track1", Number := 1, Suffix := "mp3" } : Song),
          { Id := 2, Name := "Track2", Number := 2, Suffix := "ogg" }].length
        = testSongs.length :=
  ⟨parseGetAlbumResp_decodes_songs entityLib ampSongsDoc
      { Error := none, Song := JSON.arr [JSON.obj ampSong] } [JSON.obj ampSong]
      [{ Id := 3, Name := "R&B", Number := 1, Suffix := "mp3" }] rfl rfl rfl
      (List.Forall₂.cons (IsSongObject.mk _ 3 1 "R&amp;B" "mp3" rfl rfl rfl rfl)
        List.Forall₂.nil),
    rfl,
    parseGetAlbumResp_decodes_songs sampleLib songsDoc
      { Error := none, Song := JSON.arr testSongs } testSongs
      [{ Id := 1, Name := "Track1", Number := 1, Suffix := "mp3" },
        { Id := 2, Name := "Track2", Number := 2, Suffix := "ogg" }]
      rfl rfl rfl
      (List.Forall₂.cons (IsSongObject.mk _ 1 1 "Track1" "mp3" rfl rfl rfl rfl)
        (List.Forall₂.cons (IsSongObject.mk _ 2 2 "Track2" "ogg" rfl rfl rfl rfl)
          List.Forall₂.nil))⟩

/-- C20. Errors the server reports are returned by `parsePingResp` and
`parseGetArtistsResp`. For an answer `json.Unmarshal` decodes, `parsePingResp`
returns an error if and only if the decoded answer carries an error object;
then the error returned, by `parsePingResp` and by `parseGetArtistsResp`
alike, is that `ReqError`, its text is the message of the error object, and
`parseGetArtistsResp` returns no artist list. -/
theorem server_error_is_returned {ν : Type} (lib : GoLib ν) (data : List UInt8) :
    (∀ buf : PingBuf, lib.UnmarshalPing data = Except.ok buf →
        ((parsePingResp lib data).isSome ↔ buf.Error.isSome)
          ∧ ∀ re : ReqError, buf.Error = some re →
              parsePingResp lib data = some (GoError.req re.Code re.Message)
                ∧ (GoError.req re.Code re.Message).Error = re.Message)
      ∧ (∀ (buf : ArtistsBuf ν) (re : ReqError),
          lib.UnmarshalArtists data = Except.ok buf → buf.Error = some re →
            parseGetArtistsResp lib data = Except.error (GoError.req re.Code re.Message)
              ∧ (GoError.req re.Code re.Message).Error = re.Message) := by
  refine ⟨fun buf h => ?_, fun buf re h hre => ?_⟩
  · obtain ⟨err⟩ := buf
    cases err with
    | none =>
      refine ⟨by simp [parsePingResp, h], fun re hre => ?_⟩
      cases hre
    | some re0 =>
      refine ⟨by simp [parsePingResp, h], fun re hre => ?_⟩
      simp only [Option.some.injEq] at hre
      subst hre
      exact ⟨by simp [parsePingResp, h], rfl⟩
  · obtain ⟨err, index⟩ := buf
    simp only at hre
    subst hre
    exact ⟨by simp [parseGetArtistsResp, h], rfl⟩

/-- Witness of C20: the error answer and the answer without error of
`TestPing`, and the error case of `TestGetArtists`. -/
theorem server_error_is_returned_witness :
    sampleLib.UnmarshalPing errDoc = Except.ok { Error := some testError }
      ∧ parsePingResp sampleLib errDoc = some (GoError.req 40 "Something went wrong, blabla.")
      ∧ (GoError.req 40 "Something went wrong, blabla.").Error
          = "Something went wrong, blabla."
      ∧ sampleLib.UnmarshalPing okDoc = Except.ok { Error := none }
      ∧ ((parsePingResp sampleLib okDoc).isSome ↔ (none : Option ReqError).isSome)
      ∧ parseGetArtistsResp sampleLib errDoc
          = Except.error (GoError.req 40 "Something went wrong, blabla.") :=
  ⟨rfl,
    (((server_error_is_returned sampleLib errDoc).1 { Error := some testError } rfl).2
      testError rfl).1,
    rfl, rfl,
    ((server_error_is_returned sampleLib okDoc).1 { Error := none } rfl).1,
    ((server_error_is_returned sampleLib errDoc).2
      { Error := some testError, Index := JSON.null } testError rfl rfl).1⟩

/-! ## The error of the server in `parseGetAlbumResp` -/

/-- The sibling `parseGetArtistResp` returns the error the server reports. -/
theorem parseGetArtistResp_returns_server_error {ν : Type} (lib : GoLib ν) (data : List UInt8)
    (buf : ArtistBuf ν) (re : ReqError)
    (h : lib.UnmarshalArtist data = Except.ok buf) (hre : buf.Error = some re) :
    parseGetArtistResp lib data = Except.error (GoError.req re.Code re.Message) := by
  obtain ⟨err, album⟩ := buf
  simp only at hre
  subst hre
  simp [parseGetArtistResp, h]

/-- What `parseGetAlbumResp` returns depends on the decoded `song` field
alone: the decoded error is never looked at. -/
theorem parseGetAlbumResp_ignores_error {ν : Type} (lib : GoLib ν) (data data1 : List UInt8)
    (buf buf1 : AlbumBuf ν)
    (h : lib.UnmarshalAlbum data = Except.ok buf) (h1 : lib.UnmarshalAlbum data1 = Except.ok buf1)
    (hsong : buf.Song = buf1.Song) :
    parseGetAlbumResp lib data = parseGetAlbumResp lib data1 := by
  simp only [parseGetAlbumResp, h, h1, hsong]

/-- For an answer that carries an error object and no `song` field,
`parseGetAlbumResp` returns the error of the default branch of its type
switch, whatever the error object says. -/
theorem parseGetAlbumResp_error_answer {ν : Type} (lib : GoLib ν) (data : List UInt8)
    (buf : AlbumBuf ν) (h : lib.UnmarshalAlbum data = Except.ok buf)
    (hsong : buf.Song = JSON.null) :
    parseGetAlbumResp lib data
      = Except.error (GoError.other ("unexpected type (<nil>) while decoding album entry: "
          ++ "expecting map[string]interface\x7b\x7d or []interface\x7b\x7d")) := by
  simp only [parseGetAlbumResp, h, hsong]
  rfl

/-- C22, the code at the failing input: the error answer of the tests
(`Jhead + Jerr + "," + Jtail`). `json.Unmarshal` decodes its error object, and
`parseGetArtistsResp` and `parseGetArtistResp` return that `ReqError`;
`parseGetAlbumResp` tests `buf.R.Error` before `json.Unmarshal` and returns
the error of its type switch instead, whose text is not the message of the
server. -/
theorem parseGetAlbumResp_drops_server_error :
    sampleLib.UnmarshalAlbum errDoc
        = Except.ok { Error := some testError, Song := JSON.null }
      ∧ parseGetArtistsResp sampleLib errDoc
        = Except.error (GoError.req 40 "Something went wrong, blabla.")
      ∧ parseGetArtistResp sampleLib errDoc
        = Except.error (GoError.req 40 "Something went wrong, blabla.")
      ∧ parseGetAlbumResp sampleLib errDoc
        = Except.error (GoError.other ("unexpected type (<nil>) while decoding album entry: "
            ++ "expecting map[string]interface\x7b\x7d or []interface\x7b\x7d"))
      ∧ (GoError.other ("unexpected type (<nil>) while decoding album entry: "
            ++ "expecting map[string]interface\x7b\x7d or []interface\x7b\x7d")).Error
          ≠ testError.Message :=
  ⟨rfl, rfl, rfl, rfl, by decide⟩

end Subsonicfs
